import Mathlib

/-!
# ericw-tools: bounding boxes, octree, bounce-light registry, work counter

A shallow embedding of `include/common/mathlib.hh` (the `qvec` / `aabb` /
`octree_node_t` templates and the bilinear weights), of `light/bounce.cc` and
of the work counter of `common/threads.cc`, together with the properties the
specification states about them.

Conventions of the embedding:

* `float` / `vec_t` values are rationals; geometry, the registry and the
  statements that are made of exact arithmetic use them as they are; the
  bilinear weights and the second embedding of `MakeBounceLightsThread`
  (namespace `Rounded`) take the rounding of float results as a parameter,
  the identity for exact arithmetic and `float32` for the arithmetic of the
  type `float` (round to nearest, ties to even, 24 significant bits, every
  operation rounded on its own, the exponent range not bounded);
* `Q_assert` failures are fatal in the program; a function that can reach one
  returns `Option`, and `none` stands for the aborted run;
* container sizes and indices are unbounded naturals / integers (the face
  count of a level, which bounds every container here, fits an `int`); the
  `int` variables of `threads.cc` and of the bilinear weights wrap at 32 bits;
* threads are places in their code, and an interleaving is the list of the
  threads in the order in which they take their steps.
-/

namespace EricwTools

/-! ## `qvec` -/

/-- The `qvec<N, float>` template: `N` components, read by index. -/
abbrev qvec (N : Nat) := Fin N → ℚ

abbrev qvec2f := qvec 2
abbrev qvec3f := qvec 3

/-- The constructor `qvec(const T &a)`: every component is `a`. -/
def qvec.splat (N : Nat) (a : ℚ) : qvec N := fun _ => a

/-- The read `v[idx]` with a plain index: no result when `idx` lies outside
the `N` stored components. -/
def qvec.read {N : Nat} (v : qvec N) (idx : Nat) : Option ℚ :=
  if h : idx < N then some (v ⟨idx, h⟩) else none

/-- The macro `qmin` of `common/cmdlib.hh`. -/
def qmin (a b : ℚ) : ℚ := if a < b then a else b

/-- The macro `qmax` of `common/cmdlib.hh`. -/
def qmax (a b : ℚ) : ℚ := if a > b then a else b

/-! ## `aabb` -/

/-- The class `aabb<N, V>`: the two private members. -/
structure aabb (N : Nat) where
  m_mins : qvec N
  m_maxs : qvec N

abbrev aabb3 := aabb 3
abbrev aabb2 := aabb 2

namespace aabb

variable {N : Nat}

/-- The private method `fix()`: raise every `m_maxs[i]` below `m_mins[i]`. -/
def fix (b : aabb N) : aabb N :=
  { m_mins := b.m_mins
    m_maxs := fun i => if b.m_maxs i < b.m_mins i then b.m_mins i else b.m_maxs i }

/-- The constructor `aabb(const V &mins, const V &maxs)`. -/
def new (mins maxs : qvec N) : aabb N := fix { m_mins := mins, m_maxs := maxs }

/-- The copy constructor `aabb(const aabb<N,V> &other)`. -/
def copy (other : aabb N) : aabb N := fix { m_mins := other.m_mins, m_maxs := other.m_maxs }

/-- The class invariant the constructors establish. -/
def Fixed (b : aabb N) : Prop := ∀ i, b.m_mins i ≤ b.m_maxs i

instance (b : aabb N) : Decidable b.Fixed := by unfold Fixed; infer_instance

/-- The method `disjoint`. -/
def disjoint (a other : aabb N) : Bool :=
  (List.finRange N).any fun i =>
    decide (a.m_maxs i < other.m_mins i) || decide (a.m_mins i > other.m_maxs i)

/-- The loop of `contains` over the axes still to visit; the components are
read by plain index, as the source does. -/
def containsFrom (a other : aabb N) : List Nat → Option Bool
  | [] => some true
  | i :: rest =>
    match other.m_mins.read i, a.m_mins.read i with
    | some om, some am =>
      if om < am then some false
      else
        match other.m_maxs.read i, a.m_maxs.read i with
        | some oM, some aM => if oM > aM then some false else containsFrom a other rest
        | _, _ => none
    | _, _ => none

/-- The method `contains`: its loop runs over `i = 0, 1, 2` whatever `N` is. -/
def contains (a other : aabb N) : Option Bool := containsFrom a other [0, 1, 2]

/-- The method `containsPoint`. -/
def containsPoint (a : aabb N) (p : qvec N) : Bool :=
  (List.finRange N).all fun i => decide (p i ≥ a.m_mins i) && decide (p i ≤ a.m_maxs i)

/-- The method `expand`. -/
def expand (a : aabb N) (pt : qvec N) : aabb N :=
  new (fun i => qmin (a.m_mins i) (pt i)) (fun i => qmax (a.m_maxs i) (pt i))

/-- The method `unionWith`. -/
def unionWith (a other : aabb N) : aabb N :=
  (a.expand other.m_mins).expand other.m_maxs

/-- The method `intersectWith`: the first axis with `mins[i] > maxs[i]` ends
the loop with `(false, aabb(0, 0))`. -/
def intersectWith (a other : aabb N) : Bool × aabb N :=
  let mins : qvec N := fun i => qmax (a.m_mins i) (other.m_mins i)
  let maxs : qvec N := fun i => qmin (a.m_maxs i) (other.m_maxs i)
  if (List.finRange N).any fun i => decide (mins i > maxs i) then
    (false, new (qvec.splat N 0) (qvec.splat N 0))
  else
    (true, new mins maxs)

/-- The method `size`. -/
def size (a : aabb N) : qvec N := fun i => a.m_maxs i - a.m_mins i

/-- The method `grow`. -/
def grow (a : aabb N) (size : qvec N) : aabb N :=
  new (fun i => a.m_mins i - size i) (fun i => a.m_maxs i + size i)

end aabb

/-! ## `octree_node_t` -/

/-- The macro `MAX_OCTREE_DEPTH`. -/
def MAX_OCTREE_DEPTH : Int := 3

/-- The class `octree_node_t<T>`: its five members. The array `m_children` of
eight owning pointers is a list, empty while the pointers are null. -/
inductive octree_node_t (T : Type) where
  | mk (m_depth : Int) (m_bbox : aabb3) (m_leafNode : Bool)
      (m_leafObjects : List (aabb3 × T)) (m_children : List (octree_node_t T)) : octree_node_t T

/-- The ordered container `std::set<T>` as its sorted list of elements:
`insert` keeps a single copy of an element already present. -/
def stdset_insert {T : Type} [LinearOrder T] (x : T) (s : List T) : List T :=
  if x ∈ s then s else List.orderedInsert (fun a b => a ≤ b) x s

namespace octree_node_t

variable {T : Type}

def m_depth : octree_node_t T → Int
  | mk d _ _ _ _ => d

def m_bbox : octree_node_t T → aabb3
  | mk _ b _ _ _ => b

def m_leafNode : octree_node_t T → Bool
  | mk _ _ l _ _ => l

def m_leafObjects : octree_node_t T → List (aabb3 × T)
  | mk _ _ _ o _ => o

def m_children : octree_node_t T → List (octree_node_t T)
  | mk _ _ _ _ c => c

mutual
/-- Termination measure of `insert`: a leaf above the maximum depth may still
grow a full subtree below itself. -/
def weight : octree_node_t T → Nat
  | mk d _ _ _ cs => 9 ^ (MAX_OCTREE_DEPTH - d).toNat + weightList cs
/-- Sum of the weights of a list of nodes. -/
def weightList : List (octree_node_t T) → Nat
  | [] => 0
  | c :: cs => weight c + weightList cs
end

/-- The constructor `octree_node_t(box, depth)`, with its assertion
`m_depth <= MAX_OCTREE_DEPTH`; `m_bbox(box)` runs the copy constructor. -/
def create (box : aabb3) (depth : Int) : Option (octree_node_t T) :=
  if depth ≤ MAX_OCTREE_DEPTH then some (mk depth box.copy true [] []) else none

/-- The method `createChild`. -/
def createChild (bboxOctant : aabb3 → Nat → aabb3) (n : octree_node_t T) (i : Nat) :
    Option (octree_node_t T) :=
  create (bboxOctant n.m_bbox i) (n.m_depth + 1)

/-- The loop of `toNode` from child `i` on, `k` children still to create. -/
def createChildren (bboxOctant : aabb3 → Nat → aabb3) (n : octree_node_t T) :
    Nat → Nat → Option (List (octree_node_t T))
  | _, 0 => some []
  | i, k + 1 =>
    match createChild bboxOctant n i with
    | none => none
    | some c =>
      match createChildren bboxOctant n (i + 1) k with
      | none => none
      | some cs => some (c :: cs)

/-- The method `toNode`, with its three assertions. -/
def toNode (bboxOctant : aabb3 → Nat → aabb3) (n : octree_node_t T) : Option (octree_node_t T) :=
  if n.m_leafNode = false then none
  else if n.m_leafObjects.isEmpty = false then none
  else if n.m_children.isEmpty = false then none
  else
    match createChildren bboxOctant n 0 8 with
    | none => none
    | some cs => some (mk n.m_depth n.m_bbox false n.m_leafObjects cs)

end octree_node_t

namespace octree_node_t

variable {T : Type}

/-- A loop `for (int i = 0; i < 8; i++)` that replaces each child in turn by
the result of `body`; the run is aborted as soon as `body` is. -/
def forChildren (body : octree_node_t T → Option (octree_node_t T)) :
    List (octree_node_t T) → Option (List (octree_node_t T))
  | [] => some []
  | c :: cs =>
    match body c with
    | none => none
    | some c1 =>
      match forChildren body cs with
      | none => none
      | some cs1 => some (c1 :: cs1)

/-- The first statement of `insert`: a leaf above the maximum depth is turned
into an inner node. -/
def convertLeaf (bboxOctant : aabb3 → Nat → aabb3) (n : octree_node_t T) :
    Option (octree_node_t T) :=
  if n.m_leafNode && decide (n.m_depth < MAX_OCTREE_DEPTH) then toNode bboxOctant n else some n

/-- The method `insert`, with a bound on the nesting of its recursive calls;
the bound reached is reported as `none`. -/
def insertFuel (bboxOctant : aabb3 → Nat → aabb3) :
    Nat → octree_node_t T → aabb3 → T → Option (octree_node_t T)
  | 0, _, _, _ => none
  | fuel + 1, n, objBox, obj =>
    if n.m_bbox.contains objBox = some true then
      match convertLeaf bboxOctant n with
      | none => none
      | some n1 =>
        if n1.m_leafNode then
          some (mk n1.m_depth n1.m_bbox n1.m_leafNode (n1.m_leafObjects ++ [(objBox, obj)])
            n1.m_children)
        else
          match forChildren (fun c =>
              if (objBox.intersectWith c.m_bbox).1
                then insertFuel bboxOctant fuel c (objBox.intersectWith c.m_bbox).2 obj
                else some c) n1.m_children with
          | none => none
          | some cs => some (mk n1.m_depth n1.m_bbox n1.m_leafNode n1.m_leafObjects cs)
    else none

/-- The method `insert`. The weight of the node bounds the nesting of the
recursive calls (`insertFuel_eq_of_le`), so the bound is never reached. -/
def insert (bboxOctant : aabb3 → Nat → aabb3) (n : octree_node_t T) (objBox : aabb3) (obj : T) :
    Option (octree_node_t T) :=
  insertFuel bboxOctant n.weight n objBox obj

mutual
/-- The private method `queryTouchingBBox(query, dest)`; the result is the
set `dest` after the call. -/
def queryTouchingBBoxInto [LinearOrder T] : octree_node_t T → aabb3 → List T → List T
  | mk _ _ leaf objs cs, query, dest =>
    if leaf then
      objs.foldl (fun dest boxObjPair =>
        if query.disjoint boxObjPair.1 = false then stdset_insert boxObjPair.2 dest else dest) dest
    else queryChildren cs query dest
/-- The loop of the private `queryTouchingBBox` over the children. -/
def queryChildren [LinearOrder T] : List (octree_node_t T) → aabb3 → List T → List T
  | [], _, dest => dest
  | c :: cs, query, dest =>
    queryChildren cs query
      (if (query.intersectWith c.m_bbox).1
        then queryTouchingBBoxInto c (query.intersectWith c.m_bbox).2 dest else dest)
end

/-- The public method `queryTouchingBBox(query)`: the elements of the set, in
its order. -/
def queryTouchingBBox [LinearOrder T] (n : octree_node_t T) (query : aabb3) : List T :=
  queryTouchingBBoxInto n query []

mutual
/-- The method `nodeCount`. -/
def nodeCount : octree_node_t T → Int
  | mk _ _ leaf _ cs => if leaf then 1 else 1 + nodeCountChildren cs
/-- The loop of `nodeCount` over the children. -/
def nodeCountChildren : List (octree_node_t T) → Int
  | [] => 0
  | c :: cs => nodeCount c + nodeCountChildren cs
end

/-- The second loop of `makeOctree`: insert every object in turn. -/
def insertAll (bboxOctant : aabb3 → Nat → aabb3) :
    List (aabb3 × T) → octree_node_t T → Option (octree_node_t T)
  | [], res => some res
  | pr :: rest, res =>
    match insert bboxOctant res pr.1 pr.2 with
    | none => none
    | some res1 => insertAll bboxOctant rest res1

end octree_node_t

/-- The function `makeOctree`. -/
def makeOctree {T : Type} (bboxOctant : aabb3 → Nat → aabb3) (objects : List (aabb3 × T)) :
    Option (octree_node_t T) :=
  match objects with
  | [] => octree_node_t.create (aabb.new (qvec.splat 3 0) (qvec.splat 3 0)) 0
  | first :: _ =>
    let box := objects.foldl (fun box pr => box.unionWith pr.1) first.1.copy
    match octree_node_t.create box 0 with
    | none => none
    | some res => octree_node_t.insertAll bboxOctant objects res

/-- Modelled from the spec: `bboxOctant`, which `mathlib.hh` only declares. The
eight children "exactly partition [the parent] box into 8 equal octants": on
axis `j` octant `i` keeps the upper half when bit `j` of `i` is set and the
lower half otherwise. -/
def bboxOctantHalves (box : aabb3) (i : Nat) : aabb3 :=
  aabb.new
    (fun j => if i.testBit j then (box.m_mins j + box.m_maxs j) / 2 else box.m_mins j)
    (fun j => if i.testBit j then box.m_maxs j else (box.m_mins j + box.m_maxs j) / 2)

/-! ## `std::map` -/

/-- The container `std::map<int, V>` as the list of its (key, value) pairs. -/
abbrev stdmap (V : Type) := List (Int × V)

namespace stdmap

variable {V : Type}

/-- The lookup `m.find(k)`: the mapped value, if the key is present. -/
def find (m : stdmap V) (k : Int) : Option V := List.lookup k m

/-- The assignment `m[k] = v`: the pair is put at its place in key order,
replacing the value of a key already present. -/
def set : stdmap V → Int → V → stdmap V
  | [], k, v => [(k, v)]
  | (k1, v1) :: rest, k, v =>
    if k < k1 then (k, v) :: (k1, v1) :: rest
    else if k = k1 then (k, v) :: rest
    else (k1, v1) :: set rest k v

/-- The value read by `m[k]`: a value-initialised `V` when the key is absent. -/
def index (m : stdmap V) (k : Int) (dflt : V) : V := (m.find k).getD dflt

/-- The keys of the map. -/
def keys (m : stdmap V) : List Int := m.map Prod.fst

end stdmap

/-! ## `light/bounce.cc` -/

abbrev qvec3d := qvec 3
abbrev qvec4f := qvec 4

/-- A colour of bytes, `qvec3b`. -/
abbrev qvec3b := Fin 3 → Nat

/-- The plane type `qplane3d`. -/
structure qplane3d where
  normal : qvec3d
  dist : ℚ

/-- The polygon type `polylib::winding_t`: its points. -/
abbrev winding_t := List qvec3d

/-- A pointer `const mface_t *` into `bsp->dfaces`: the position of the face. -/
abbrev mface_ptr := Nat

/-- The part of `modelinfo_t` read here: the value of the `shadow` setting. -/
structure modelinfo_t where
  shadow : Bool

/-- The part of an entry of `extended_texinfo_flags` read here. -/
structure surfflags_t where
  no_bounce : Bool

/-- The values of `visapprox_t`. -/
inductive visapprox_t where
  | AUTO
  | NONE
  | VIS
  | RAYS
  deriving DecidableEq

/-- The level, the settings and the routines that `bounce.cc` consumes and that
are defined outside it: each field carries the name of what it stands for. -/
structure Collaborators where
  /-- The number of faces, `bsp->dfaces.size()`. -/
  numfaces : Nat
  /-- The read `face->texinfo`. -/
  texinfo : mface_ptr → Nat
  ModelInfoForFace : Int → Option modelinfo_t
  Face_IsLightmapped : mface_ptr → Bool
  Face_TextureName : mface_ptr → String
  extended_texinfo_flags : Nat → surfflags_t
  /-- The lookup `img::find(name)`, reduced to `meta.averageColor`. -/
  img_find : String → Option qvec3b
  GLM_FacePoints : mface_ptr → List qvec3f
  GLM_MakeInwardFacingEdgePlanes : List qvec3f → List qvec4f
  /-- The constructor `winding_t::from_face`. -/
  from_face : mface_ptr → winding_t
  /-- The method `winding_t::area`. -/
  area : winding_t → ℚ
  /-- The method `winding_t::plane`. -/
  plane : winding_t → qplane3d
  /-- The method `winding_t::center`. -/
  center : winding_t → qvec3d
  /-- The method `winding_t::dice`: the fragments, in the order in which the
  callback receives them. -/
  dice : ℚ → winding_t → List winding_t
  /-- The direct-light sampler, at a point and a normal. -/
  GetDirectLighting : qvec3d → qvec3d → stdmap qvec3f
  /-- The option `options.visapprox`. -/
  visapprox : visapprox_t
  Light_PointInLeaf : qvec3d → Nat
  EstimateVisibleBoundsAtPoint : qvec3d → aabb3
  /-- The setting `cfg.bouncecolorscale`. -/
  bouncecolorscale : ℚ

/-- Modelled from the spec: `Face_GetNum` of `common/bsputils`, the face number,
which is the position of the face in `bsp->dfaces`. -/
def Face_GetNum (face : mface_ptr) : Int := (face : Int)

/-- The comparison of `strcasecmp` on the characters still to read: the
difference of the first two lowered characters that differ, the end of a
string counting as character 0. -/
def strcasecmpChars : List Char → List Char → Int
  | [], [] => 0
  | [], b :: _ => 0 - (b.toLower.toNat : Int)
  | a :: _, [] => (a.toLower.toNat : Int)
  | a :: as, b :: bs =>
    if a.toLower = b.toLower then strcasecmpChars as bs
    else (a.toLower.toNat : Int) - (b.toLower.toNat : Int)

/-- Modelled from the spec: `Q_strcasecmp` of `common/cmdlib`, the comparison
of two strings that ignores the case of letters; 0 stands for equal. -/
def Q_strcasecmp (s1 s2 : String) : Int := strcasecmpChars s1.toList s2.toList

/-- Modelled from the spec: `mix` of `common/qvec.hh`, the linear interpolation
from `a` (at 0) to `b` (at 1). -/
def mix (a b : qvec3f) (t : ℚ) : qvec3f := fun k => a k * (1 - t) + b k * t

/-- Modelled from the spec: `qv::emptyExact`, true when every component is
exactly zero. -/
def emptyExact (v : qvec3f) : Bool := (List.finRange 3).all fun i => decide (v i = 0)

/-- The class `patch_t`. -/
structure patch_t where
  w : winding_t
  center : qvec3d
  samplepoint : qvec3d
  plane : qplane3d
  lightByStyle : stdmap qvec3f

/-- The function `MakePatch`. -/
def MakePatch (env : Collaborators) (w : winding_t) : patch_t :=
  let center := env.center w
  let plane := env.plane w
  let samplepoint : qvec3d := fun i => center i + plane.normal i
  { w := w
    center := center
    samplepoint := samplepoint
    plane := plane
    lightByStyle := env.GetDirectLighting samplepoint plane.normal }

/-- The function `Face_ShouldBounce`. -/
def Face_ShouldBounce (env : Collaborators) (face : mface_ptr) : Bool :=
  match env.ModelInfoForFace (Face_GetNum face) with
  | none => false
  | some mi =>
    if mi.shadow = false then false
    else if env.Face_IsLightmapped face = false then false
    else if Q_strcasecmp "skip" (env.Face_TextureName face) = 0 then false
    else if (env.extended_texinfo_flags (env.texinfo face)).no_bounce then false
    else true

/-- The function `Face_LookupTextureColor`. -/
def Face_LookupTextureColor (env : Collaborators) (face : mface_ptr) : qvec3b :=
  match env.img_find (env.Face_TextureName face) with
  | some averageColor => averageColor
  | none => fun _ => 127

/-- The struct `bouncelight_t` of `light/bounce.hh`; `leaf` and `bounds` are
set only under the matching `visapprox` mode. -/
structure bouncelight_t where
  poly : List qvec3f
  poly_edgeplanes : List qvec4f
  pos : qvec3d
  colorByStyle : stdmap qvec3f
  componentwiseMaxColor : qvec3f
  surfnormal : qvec3d
  area : ℚ
  leaf : Option Nat
  bounds : Option aabb3

/-- The shared state of `bounce.cc`: the globals `radlights` and
`radlightsByFacenum`. -/
structure Registry where
  radlights : List bouncelight_t
  radlightsByFacenum : stdmap (List Int)

/-- The state at program start. -/
def Registry.empty : Registry := { radlights := [], radlightsByFacenum := [] }

/-- The loop of `AddBounceLight` that computes `componentwiseMaxColor`. -/
def componentwiseMaxColor (colorByStyle : stdmap qvec3f) : qvec3f :=
  colorByStyle.foldl
    (fun acc styleColor => fun i => if styleColor.2 i > acc i then styleColor.2 i else acc i)
    (qvec.splat 3 0)

/-- The record `l` that `AddBounceLight` fills in before it takes the lock. -/
def AddBounceLight.record (env : Collaborators) (pos : qvec3d) (colorByStyle : stdmap qvec3f)
    (surfnormal : qvec3d) (area : ℚ) (face : mface_ptr) : bouncelight_t :=
  { poly := env.GLM_FacePoints face
    poly_edgeplanes := env.GLM_MakeInwardFacingEdgePlanes (env.GLM_FacePoints face)
    pos := pos
    colorByStyle := colorByStyle
    componentwiseMaxColor := componentwiseMaxColor colorByStyle
    surfnormal := surfnormal
    area := area
    leaf := if env.visapprox = visapprox_t.VIS then some (env.Light_PointInLeaf pos) else none
    bounds :=
      if env.visapprox = visapprox_t.VIS then none
      else if env.visapprox = visapprox_t.RAYS then some (env.EstimateVisibleBoundsAtPoint pos)
      else none }

/-- The function `AddBounceLight`, with its assertions. -/
def AddBounceLight (env : Collaborators) (pos : qvec3d) (colorByStyle : stdmap qvec3f)
    (surfnormal : qvec3d) (area : ℚ) (face : mface_ptr) (st : Registry) : Option Registry :=
  if (colorByStyle.all fun styleColor =>
      decide (styleColor.2 0 ≥ 0) && decide (styleColor.2 1 ≥ 0) && decide (styleColor.2 2 ≥ 0))
      = false then none
  else if ¬ area > 0 then none
  else
    let l := AddBounceLight.record env pos colorByStyle surfnormal area face
    let radlights := st.radlights ++ [l]
    let lastBounceLightIndex : Int := (radlights.length : Int) - 1
    some
      { radlights := radlights
        radlightsByFacenum :=
          st.radlightsByFacenum.set (Face_GetNum face)
            (st.radlightsByFacenum.index (Face_GetNum face) [] ++ [lastBounceLightIndex]) }

/-- The arguments of one call of `AddBounceLight`. -/
structure AddBounceLightCall where
  pos : qvec3d
  colorByStyle : stdmap qvec3f
  surfnormal : qvec3d
  area : ℚ
  face : mface_ptr

/-- A sequence of calls of `AddBounceLight`, in the order in which they take
the lock. -/
def runAddBounceLight (env : Collaborators) : List AddBounceLightCall → Registry → Option Registry
  | [], st => some st
  | call :: rest, st =>
    match AddBounceLight env call.pos call.colorByStyle call.surfnormal call.area call.face st with
    | none => none
    | some st1 => runAddBounceLight env rest st1

/-- The function `BounceLights`. -/
def BounceLights (st : Registry) : List bouncelight_t := st.radlights

/-- The function `BounceLightsForFaceNum`. -/
def BounceLightsForFaceNum (st : Registry) (facenum : Int) : List Int :=
  match st.radlightsByFacenum.find facenum with
  | some vec => vec
  | none => []

namespace MakeBounceLightsThread

/-- The vector `patches` after the call of `dice`. -/
def patches (env : Collaborators) (face : mface_ptr) : List patch_t :=
  (env.dice 64 (env.from_face face)).map (MakePatch env)

/-- The body of the inner loop: one patch's light added to `sum`. -/
def addPatch (sum : stdmap qvec3f) (lightByStyle : stdmap qvec3f) (patcharea : ℚ) :
    stdmap qvec3f :=
  lightByStyle.foldl
    (fun sum styleColor =>
      sum.set styleColor.1
        (fun k => sum.index styleColor.1 (qvec.splat 3 0) k + styleColor.2 k * patcharea))
    sum

/-- The loop over the patches: the pair (`sum`, `totalarea`) after it. -/
def accumulate (env : Collaborators) (ps : List patch_t) : stdmap qvec3f × ℚ :=
  ps.foldl
    (fun acc patch =>
      let patcharea := env.area patch.w
      (addPatch acc.1 patch.lightByStyle patcharea, acc.2 + patcharea))
    ([], 0)

/-- The map `sum` after the loop that scales each entry by `1 / totalarea`
and divides it by 255. -/
def normalized (sum : stdmap qvec3f) (totalarea : ℚ) : stdmap qvec3f :=
  sum.map fun styleColor => (styleColor.1, fun k => styleColor.2 k * (1 / totalarea) / 255)

/-- The vector `total` after that loop. -/
def total (sum : stdmap qvec3f) : qvec3f :=
  sum.foldl (fun total styleColor => fun k => total k + styleColor.2 k) (qvec.splat 3 0)

/-- The vector `blendedcolor`. -/
def blendedcolor (env : Collaborators) (face : mface_ptr) : qvec3f :=
  let texturecolor : qvec3f := fun k => (Face_LookupTextureColor env face k : ℚ) / 255
  mix (qvec.splat 3 (127 / 255)) texturecolor env.bouncecolorscale

/-- The map `emitcolors`. -/
def emitcolors (sum : stdmap qvec3f) (blendedcolor : qvec3f) : stdmap qvec3f :=
  sum.foldl
    (fun emitcolors styleColor =>
      emitcolors.set styleColor.1 (fun k => styleColor.2 k * blendedcolor k))
    []

/-- The value of `totalarea` for a face. -/
def totalarea (env : Collaborators) (face : mface_ptr) : ℚ :=
  (accumulate env (patches env face)).2

/-- The map `sum` for a face, once normalised. -/
def normalizedSum (env : Collaborators) (face : mface_ptr) : stdmap qvec3f :=
  normalized (accumulate env (patches env face)).1 (totalarea env face)

/-- The map `emitcolors` for a face. -/
def emitted (env : Collaborators) (face : mface_ptr) : stdmap qvec3f :=
  emitcolors (normalizedSum env face) (blendedcolor env face)

/-- The face passes the four tests that precede the registration: it is
eligible, its winding area is not zero, the total patch area is at least 1
and the sum of the normalised colours is not exactly zero. -/
def Passes (env : Collaborators) (face : mface_ptr) : Prop :=
  Face_ShouldBounce env face = true ∧
  env.area (env.from_face face) ≠ 0 ∧
  1 ≤ totalarea env face ∧
  emptyExact (total (normalizedSum env face)) = false

instance (env : Collaborators) (face : mface_ptr) : Decidable (Passes env face) := by
  unfold Passes
  infer_instance

end MakeBounceLightsThread

/-- The function `MakeBounceLightsThread`. -/
def MakeBounceLightsThread (env : Collaborators) (face : mface_ptr) (st : Registry) :
    Option Registry :=
  if Face_ShouldBounce env face = false then some st
  else
    let winding := env.from_face face
    let facearea := env.area winding
    if facearea = 0 then some st
    else
      let faceplane := env.plane winding
      let facemidpoint : qvec3d := fun i => env.center winding i + faceplane.normal i
      let acc := MakeBounceLightsThread.accumulate env (MakeBounceLightsThread.patches env face)
      let totalarea := acc.2
      if totalarea < 1 then some st
      else
        let sum := MakeBounceLightsThread.normalized acc.1 totalarea
        if emptyExact (MakeBounceLightsThread.total sum) then some st
        else
          AddBounceLight env facemidpoint
            (MakeBounceLightsThread.emitcolors sum (MakeBounceLightsThread.blendedcolor env face))
            faceplane.normal facearea face st

/-- A run of `MakeBounceLightsThread` over faces, one call after the other. -/
def runThreads (env : Collaborators) : List mface_ptr → Registry → Option Registry
  | [], st => some st
  | face :: rest, st =>
    match MakeBounceLightsThread env face st with
    | none => none
    | some st1 => runThreads env rest st1

/-- The function `MakeBounceLights`, the faces visited in the order of
`bsp->dfaces`. -/
def MakeBounceLights (env : Collaborators) (st : Registry) : Option Registry :=
  runThreads env (List.range env.numfaces) st

/-! ## Predicates on octrees used in the statements -/

namespace octree_node_t

variable {T : Type}

mutual
/-- What a query of box `query` finds below a node: `Hit n query t` says that
payload `t` is stored in a leaf the query reaches, with a box that the query
box clipped on the way down does not miss. -/
def Hit : octree_node_t T → aabb3 → T → Prop
  | mk _ _ leaf objs cs, query, t =>
    if leaf then ∃ o ∈ objs, query.disjoint o.1 = false ∧ o.2 = t
    else HitList cs query t
/-- The payloads found below one of the children. -/
def HitList : List (octree_node_t T) → aabb3 → T → Prop
  | [], _, _ => False
  | c :: cs, query, t =>
    ((query.intersectWith c.m_bbox).1 = true ∧ Hit c (query.intersectWith c.m_bbox).2 t) ∨
      HitList cs query t
end

mutual
/-- The shape of every tree that `insert` builds: boxes are fixed, a leaf has
no children and stores objects only at the maximum depth, an inner node
stores no objects and its children's boxes cover its own box. -/
def Inv : octree_node_t T → Prop
  | mk d b leaf objs cs =>
    b.Fixed ∧ (∀ o ∈ objs, o.1.Fixed) ∧
    (leaf = true → cs = [] ∧ (d < MAX_OCTREE_DEPTH → objs = [])) ∧
    (leaf = false → objs = [] ∧
      ∀ p, b.containsPoint p = true → ∃ c ∈ cs, c.m_bbox.containsPoint p = true) ∧
    InvList cs
/-- The invariant `Inv` on every node of a list. -/
def InvList : List (octree_node_t T) → Prop
  | [] => True
  | c :: cs => Inv c ∧ InvList cs
end

/-- What one `insert` of payload `obj` achieves on node `c`, for every box
inside the box of `c`: it succeeds, keeps the shape and the box of the node,
and adds to what a query finds exactly `obj`, for the queries that share a
point with the inserted box. -/
def InsertSpec (bboxOctant : aabb3 → Nat → aabb3) (obj : T) (c : octree_node_t T) : Prop :=
  ∀ b : aabb3, b.Fixed → c.m_bbox.contains b = some true →
    ∃ c1, insert bboxOctant c b obj = some c1 ∧ Inv c1 ∧ c1.m_bbox = c.m_bbox ∧
      ∀ query : aabb3, query.Fixed → ∀ t,
        Hit c1 query t ↔
          Hit c query t ∨
            (t = obj ∧ ∃ p, b.containsPoint p = true ∧ query.containsPoint p = true)

end octree_node_t

/-! ## A small level for the concrete cases -/

/-- A level of four shadow-casting, lightmapped faces `0` to `3`. Face `1`
carries the texture `SKIP`, face `3` the texture `skip`, the others `wall`.
Every face is one patch of area 4; the sampler returns full white on style 0
and, in front of face `2` only, a second style with a negative red
component. -/
def sampleLevel : Collaborators where
  numfaces := 4
  texinfo := fun face => face
  ModelInfoForFace := fun _ => some { shadow := true }
  Face_IsLightmapped := fun _ => true
  Face_TextureName := fun face =>
    if face = 1 then "SKIP" else if face = 3 then "skip" else "wall"
  extended_texinfo_flags := fun _ => { no_bounce := false }
  img_find := fun _ => none
  GLM_FacePoints := fun face => [![(face : ℚ), 0, 0], ![(face : ℚ), 2, 0], ![(face : ℚ), 2, 2]]
  GLM_MakeInwardFacingEdgePlanes := fun _ => []
  from_face := fun face => [![(face : ℚ), 0, 0], ![(face : ℚ), 2, 0], ![(face : ℚ), 2, 2]]
  area := fun _ => 4
  plane := fun _ => { normal := ![0, 0, 1], dist := 0 }
  center := fun w => match w with
    | [] => ![0, 0, 0]
    | v :: _ => v
  dice := fun _ w => [w]
  GetDirectLighting := fun pos _ =>
    if pos 0 = 2 then [(0, ![255, 255, 255]), (1, ![-51, 0, 0])] else [(0, ![255, 255, 255])]
  visapprox := visapprox_t.NONE
  Light_PointInLeaf := fun _ => 0
  EstimateVisibleBoundsAtPoint := fun _ => { m_mins := ![0, 0, 0], m_maxs := ![0, 0, 0] }
  bouncecolorscale := 0

/-- The sample level with every light switched off: the sampler returns
black on style 0 everywhere. -/
def darkLevel : Collaborators :=
  { sampleLevel with GetDirectLighting := fun _ _ => [(0, ![0, 0, 0])] }

/-! ## The invariant of the registry -/

/-- Index consistency of the registry: every index listed for a face number
is an index of `radlights` whose record holds the points of that face; every
index of `radlights` is listed; no index is listed for two face numbers or
twice for one. -/
def IndexConsistent (env : Collaborators) (st : Registry) : Prop :=
  (∀ (f i : Int), i ∈ BounceLightsForFaceNum st f →
    0 ≤ i ∧ i < ((BounceLights st).length : Int) ∧
    ∃ (face : mface_ptr) (l : bouncelight_t), Face_GetNum face = f ∧
      (BounceLights st)[i.toNat]? = some l ∧ l.poly = env.GLM_FacePoints face) ∧
  (∀ i : Int, 0 ≤ i → i < ((BounceLights st).length : Int) →
    ∃ f, i ∈ BounceLightsForFaceNum st f) ∧
  (∀ (f f1 i : Int), i ∈ BounceLightsForFaceNum st f → i ∈ BounceLightsForFaceNum st f1 →
    f = f1) ∧
  ∀ f : Int, (BounceLightsForFaceNum st f).Nodup

/-! ## The shape of a tree under construction -/

namespace octree_node_t

variable {T : Type}

mutual
/-- The shape that the constructor establishes and `insert` keeps, whatever
`bboxOctant` returns: boxes are fixed, a leaf has no children and stores
objects only at the maximum depth, an inner node stores no objects. -/
def Shape : octree_node_t T → Prop
  | mk d b leaf objs cs =>
    b.Fixed ∧
    (leaf = true → cs = [] ∧ (d < MAX_OCTREE_DEPTH → objs = [])) ∧
    (leaf = false → objs = []) ∧
    ShapeList cs
/-- The shape `Shape` of every node of a list. -/
def ShapeList : List (octree_node_t T) → Prop
  | [] => True
  | c :: cs => Shape c ∧ ShapeList cs
end

end octree_node_t

/-! ## More of the registry and of the concrete levels -/

/-- The function `BounceLightsForFaceNum` together with the globals after the
call: the lookup is a `find`, and the vector returned for an absent key is a
function-local static. -/
def BounceLightsForFaceNum.call (st : Registry) (facenum : Int) : List Int × Registry :=
  match st.radlightsByFacenum.find facenum with
  | some vec => (vec, st)
  | none => ([], st)

/-- The sample level lit in white on style 0 everywhere. -/
def brightLevel : Collaborators :=
  { sampleLevel with GetDirectLighting := fun _ _ => [(0, ![255, 255, 255])] }

/-- The record that `MakeBounceLightsThread` registers for a face. -/
def MakeBounceLightsThread.recordOf (env : Collaborators) (face : mface_ptr) : bouncelight_t :=
  AddBounceLight.record env
    (fun i => env.center (env.from_face face) i + (env.plane (env.from_face face)).normal i)
    (MakeBounceLightsThread.emitted env face)
    (env.plane (env.from_face face)).normal (env.area (env.from_face face)) face

/-- The records of `radlights` that the face-index map lists for a face
number, in the order of the list. -/
def recordsForFaceNum (st : Registry) (facenum : Int) : List bouncelight_t :=
  (BounceLightsForFaceNum st facenum).filterMap fun i => (BounceLights st)[i.toNat]?

/-- The bright level with every winding diced into two patches: the winding
itself and the winding with its points in reverse order. -/
def splitLevel : Collaborators :=
  { brightLevel with dice := fun _ w => [w, w.reverse] }


/-- The bright level with a texture of average colour (255, 0, 64) on every
face and the blend scalar at one half. -/
def tintedLevel : Collaborators :=
  { brightLevel with img_find := fun _ => some ![255, 0, 64], bouncecolorscale := 1 / 2 }

/-! ## `common/threads.cc` -/

/-- The value an `int` holds after an arithmetic result `x`: 32 bits, two's
complement. -/
def wrapInt (x : Int) : Int := (x + 2 ^ 31) % 2 ^ 32 - 2 ^ 31

/-- The file-level variables of `threads.cc`, and the characters that
`logprint_locked__` has written. -/
structure ThreadGlobals where
  threads_active : Bool
  dispatch : Int
  workcount : Int
  oldpercent : Int
  logged : List Char

/-- The state at program start; `dispatch` and `workcount` are zero as
statics are. -/
def ThreadGlobals.start : ThreadGlobals :=
  { threads_active := false, dispatch := 0, workcount := 0, oldpercent := -1, logged := [] }

/-- The character that the progress loop prints for a value of `oldpercent`:
a dot, or the digit `'0' + oldpercent / 5` at every multiple of 5. -/
def progressChar (oldpercent : Int) : Char :=
  if oldpercent.tmod 5 ≠ 0 then '.' else Char.ofNat (48 + oldpercent.tdiv 5).toNat

/-- The loop `while (oldpercent < percent)` of `GetThreadWork_Locked__`, with
a bound on the number of rounds. -/
def GetThreadWork_Locked__.loop (percent : Int) : Nat → Int × List Char → Int × List Char
  | 0, s => s
  | fuel + 1, s =>
    if s.1 < percent then
      GetThreadWork_Locked__.loop percent fuel
        (wrapInt (s.1 + 1), s.2 ++ [progressChar (wrapInt (s.1 + 1))])
    else s

/-- The function `GetThreadWork_Locked__`: the value returned and the
variables after the call; no result when the division is by zero. -/
def GetThreadWork_Locked__ (g : ThreadGlobals) : Option (Int × ThreadGlobals) :=
  if g.dispatch = g.workcount then some (-1, g)
  else if g.workcount = 0 then none
  else
    let percent := wrapInt ((wrapInt (50 * g.dispatch)).tdiv g.workcount)
    let s := GetThreadWork_Locked__.loop percent (percent - g.oldpercent).toNat
      (g.oldpercent, g.logged)
    let ret := g.dispatch
    some (ret, { g with dispatch := wrapInt (g.dispatch + 1), oldpercent := s.1, logged := s.2 })

/-- The function `GetThreadWork`: the call made between `ThreadLock` and
`ThreadUnlock`, so the calls of all threads happen one after the other. -/
def GetThreadWork (g : ThreadGlobals) : Option (Int × ThreadGlobals) :=
  GetThreadWork_Locked__ g

/-- The assignments with which `RunThreadsOn` begins, before it starts the
threads. -/
def RunThreadsOn.begin (start workcnt : Int) (g : ThreadGlobals) : ThreadGlobals :=
  { g with dispatch := start, workcount := workcnt, oldpercent := -1, threads_active := true }

/-- The first `k` calls of `GetThreadWork_Locked__` in the order in which
they take the lock: the values they return, and the variables after them. -/
def GetThreadWork_Locked__.calls : Nat → ThreadGlobals → Option (List Int × ThreadGlobals)
  | 0, g => some ([], g)
  | k + 1, g =>
    match GetThreadWork_Locked__ g with
    | none => none
    | some (ret, g1) =>
      match GetThreadWork_Locked__.calls k g1 with
      | none => none
      | some (rets, g2) => some (ret :: rets, g2)

/-! ## Float rounding -/

/-- The number of halvings that bring `n` below 2, within `fuel` rounds. -/
def log2Fuel : Nat → Nat → Nat
  | 0, _ => 0
  | fuel + 1, n => if n < 2 then 0 else log2Fuel fuel (n / 2) + 1

/-- The power `2 ^ e` for an integer exponent. -/
def pow2 (e : Int) : ℚ :=
  if 0 ≤ e then ((2 ^ e.toNat : Nat) : ℚ) else 1 / ((2 ^ (-e).toNat : Nat) : ℚ)

/-- The exponent `e` with `2 ^ e <= |x| < 2 ^ (e + 1)`, for `x` other than 0. -/
def binade (x : ℚ) : Int :=
  let e0 : Int := (log2Fuel x.num.natAbs x.num.natAbs : Int) - (log2Fuel x.den x.den : Int)
  if pow2 e0 ≤ |x| then e0 else e0 - 1

/-- Rounding to the nearest integer, a tie going to the even one. -/
def roundHalfEven (q : ℚ) : Int :=
  let f := ⌊q⌋
  if q - f < 1 / 2 then f
  else if q - f > 1 / 2 then f + 1
  else if f % 2 = 0 then f else f + 1

/-- The value a `float` holds after an arithmetic result `x`: the nearest
number with 24 significant bits, a tie going to the even last bit. The range
of the exponent is not modelled. -/
def float32 (x : ℚ) : ℚ :=
  if x = 0 then 0
  else (roundHalfEven (x / pow2 (binade x - 23)) : ℚ) * pow2 (binade x - 23)

/-! ## `bilinearWeights` and `bilinearWeightsAndCoords` -/

/-- The type `glm::vec2`. -/
abbrev glm.vec2 := Fin 2 → ℚ

/-- The type `glm::ivec2`, two values of type `int`. -/
abbrev glm.ivec2 := Fin 2 → Int

/-- The type `glm::vec4`. -/
abbrev glm.vec4 := Fin 4 → ℚ

/-- The function `bilinearWeights`, with its four assertions. Every float
result passes through `rnd`: the identity stands for exact arithmetic,
`float32` for the arithmetic of the type `float`. -/
def bilinearWeights (rnd : ℚ → ℚ) (x y : ℚ) : Option glm.vec4 :=
  if ¬ x ≥ 0 then none
  else if ¬ x ≤ 1 then none
  else if ¬ y ≥ 0 then none
  else if ¬ y ≤ 1 then none
  else
    some ![rnd (rnd (1 - x) * rnd (1 - y)), rnd (x * rnd (1 - y)), rnd (rnd (1 - x) * y),
      rnd (x * y)]

/-- One round of the first loop of `bilinearWeightsAndCoords`: the position on
one axis after the two clamps; `size[i] - 1` is computed in `int` and
converted to `float`. -/
def bilinearWeightsAndCoords.clamp (rnd : ℚ → ℚ) (p : ℚ) (s : Int) : ℚ :=
  let p1 := if p < 0 then 0 else p
  if p1 > rnd (wrapInt (s - 1)) then rnd (wrapInt (s - 1)) else p1

/-- The body of the second loop of `bilinearWeightsAndCoords` on one axis:
`integerPart[i]` after it, from the clamped position. -/
def bilinearWeightsAndCoords.integerPart (rnd : ℚ → ℚ) (p1 : ℚ) : Int :=
  if rnd (p1 - (⌊p1⌋ : ℚ)) = 0 ∧ ⌊p1⌋ > 0 then wrapInt (⌊p1⌋ - 1) else ⌊p1⌋

/-- The body of the second loop of `bilinearWeightsAndCoords` on one axis:
`fractionalPart[i]` after it, from the clamped position. -/
def bilinearWeightsAndCoords.fractionalPart (rnd : ℚ → ℚ) (p1 : ℚ) : ℚ :=
  if rnd (p1 - (⌊p1⌋ : ℚ)) = 0 ∧ ⌊p1⌋ > 0 then 1 else rnd (p1 - (⌊p1⌋ : ℚ))

/-- The function `bilinearWeightsAndCoords`, with its assertions: no result
when one of them fails. Every float result passes through `rnd`. -/
def bilinearWeightsAndCoords (rnd : ℚ → ℚ) (pos : glm.vec2) (size : glm.ivec2) :
    Option (Fin 4 → glm.ivec2 × ℚ) :=
  if ¬ (pos 0 ≥ -(1 / 2) ∧ pos 0 ≤ rnd (rnd (size 0) - 1 / 2)) then none
  else if ¬ (pos 1 ≥ -(1 / 2) ∧ pos 1 ≤ rnd (rnd (size 1) - 1 / 2)) then none
  else
    let pos1 : glm.vec2 := fun i => bilinearWeightsAndCoords.clamp rnd (pos i) (size i)
    if ¬ (pos1 0 ≥ 0 ∧ pos1 0 ≤ rnd (wrapInt (size 0 - 1))) then none
    else if ¬ (pos1 1 ≥ 0 ∧ pos1 1 ≤ rnd (wrapInt (size 1 - 1))) then none
    else
      let integerPart : glm.ivec2 := fun i =>
        bilinearWeightsAndCoords.integerPart rnd (pos1 i)
      let fractionalPart : glm.vec2 := fun i =>
        bilinearWeightsAndCoords.fractionalPart rnd (pos1 i)
      if ¬ wrapInt (integerPart 0 + 1) < size 0 then none
      else if ¬ wrapInt (integerPart 1 + 1) < size 1 then none
      else if ¬ ∀ i, rnd (rnd (integerPart i) + fractionalPart i) = pos1 i then none
      else
        match bilinearWeights rnd (fractionalPart 0) (fractionalPart 1) with
        | none => none
        | some weights =>
          let coord : Fin 4 → glm.ivec2 := fun i =>
            ![if i.val % 2 = 1 then wrapInt (integerPart 0 + 1) else integerPart 0,
              if i.val ≥ 2 then wrapInt (integerPart 1 + 1) else integerPart 1]
          if ¬ ∀ i, coord i 0 ≥ 0 ∧ coord i 0 < size 0 ∧ coord i 1 ≥ 0 ∧ coord i 1 < size 1 then
            none
          else some fun i => (coord i, weights i)

/-! ## Concurrent calls of `AddBounceLight` -/

/-- Where a thread stands in its call of `AddBounceLight`: before the
assertions, before the lock (the record `l` is built), holding the lock,
past `radlights.push_back(l)`, past the update of `radlightsByFacenum`, and
past the end of the function, where the lock is released. -/
inductive AddBounceLight.pc where
  | entry
  | waiting
  | locked
  | pushed
  | indexed
  | returned
  deriving DecidableEq

/-- The statement `radlights.push_back(l)`. -/
def AddBounceLight.push_back (l : bouncelight_t) (st : Registry) : Registry :=
  { st with radlights := st.radlights ++ [l] }

/-- The two statements after the push: `lastBounceLightIndex` is read from
the size of `radlights` and appended to the list of the face number. -/
def AddBounceLight.indexUpdate (face : mface_ptr) (st : Registry) : Registry :=
  { st with
    radlightsByFacenum :=
      st.radlightsByFacenum.set (Face_GetNum face)
        (st.radlightsByFacenum.index (Face_GetNum face) [] ++
          [(st.radlights.length : Int) - 1]) }

/-- The globals of `bounce.cc` while threads run: the registry, the thread
that holds `radlights_lock` if one does, the place of every thread in its
call, and whether a failed assertion has ended the program. -/
structure Shared where
  registry : Registry
  radlights_lock : Option Nat
  pc : Nat → AddBounceLight.pc
  aborted : Bool

/-- The state before the threads start. -/
def Shared.start : Shared :=
  { registry := Registry.empty
    radlights_lock := none
    pc := fun _ => AddBounceLight.pc.entry
    aborted := false }

/-- One step of thread `t`, which runs the call `calls t`; there are `n`
threads. A thread that waits for a lock another thread holds, a thread that
has returned and every thread of an ended program stay where they are. -/
def AddBounceLight.step (env : Collaborators) (n : Nat) (calls : Nat → AddBounceLightCall)
    (t : Nat) (s : Shared) : Shared :=
  if s.aborted then s
  else if ¬ t < n then s
  else
    match s.pc t with
    | AddBounceLight.pc.entry =>
      if ((calls t).colorByStyle.all fun styleColor =>
          decide (styleColor.2 0 ≥ 0) && decide (styleColor.2 1 ≥ 0) &&
            decide (styleColor.2 2 ≥ 0)) = false then { s with aborted := true }
      else if ¬ (calls t).area > 0 then { s with aborted := true }
      else { s with pc := Function.update s.pc t AddBounceLight.pc.waiting }
    | AddBounceLight.pc.waiting =>
      match s.radlights_lock with
      | some _ => s
      | none =>
        { s with
          radlights_lock := some t
          pc := Function.update s.pc t AddBounceLight.pc.locked }
    | AddBounceLight.pc.locked =>
      { s with
        registry :=
          AddBounceLight.push_back
            (AddBounceLight.record env (calls t).pos (calls t).colorByStyle (calls t).surfnormal
              (calls t).area (calls t).face) s.registry
        pc := Function.update s.pc t AddBounceLight.pc.pushed }
    | AddBounceLight.pc.pushed =>
      { s with
        registry := AddBounceLight.indexUpdate (calls t).face s.registry
        pc := Function.update s.pc t AddBounceLight.pc.indexed }
    | AddBounceLight.pc.indexed =>
      { s with
        radlights_lock := none
        pc := Function.update s.pc t AddBounceLight.pc.returned }
    | AddBounceLight.pc.returned => s

/-- An interleaving: the threads take their steps in the order of
`schedule`. -/
def AddBounceLight.interleave (env : Collaborators) (n : Nat) (calls : Nat → AddBounceLightCall)
    (schedule : List Nat) (s : Shared) : Shared :=
  schedule.foldl (fun s t => AddBounceLight.step env n calls t s) s

/-- The thread is between taking the lock and releasing it. -/
def AddBounceLight.pc.inCriticalSection : AddBounceLight.pc → Bool
  | AddBounceLight.pc.locked => true
  | AddBounceLight.pc.pushed => true
  | AddBounceLight.pc.indexed => true
  | _ => false

/-- What holds of the shared state at every moment of every interleaving:
`order` lists the threads whose critical section has made both updates, in
the order in which they did, and `R` is what the calls of these threads give
when they run one after the other. The registry is `R`, or `R` with the
record of the one thread that stands between its push and its index update. -/
def AddBounceLight.Serial (env : Collaborators) (n : Nat) (calls : Nat → AddBounceLightCall)
    (s : Shared) : Prop :=
  ∃ (order : List Nat) (R : Registry),
    order.Nodup ∧
    (∀ t, t ∈ order ↔
      (s.pc t = AddBounceLight.pc.indexed ∨ s.pc t = AddBounceLight.pc.returned)) ∧
    runAddBounceLight env (order.map calls) Registry.empty = some R ∧
    (∀ t, s.pc t ≠ AddBounceLight.pc.entry → t < n ∧
      (∀ styleColor ∈ (calls t).colorByStyle, ∀ k, 0 ≤ styleColor.2 k) ∧ 0 < (calls t).area) ∧
    (∀ t, (s.pc t).inCriticalSection = true ↔ s.radlights_lock = some t) ∧
    ((∃ t, s.pc t = AddBounceLight.pc.pushed ∧
        s.registry = AddBounceLight.push_back
          (AddBounceLight.record env (calls t).pos (calls t).colorByStyle (calls t).surfnormal
            (calls t).area (calls t).face) R) ∨
      ((∀ t, s.pc t ≠ AddBounceLight.pc.pushed) ∧ s.registry = R))

/-! ## The objects a tree stores -/

namespace octree_node_t

variable {T : Type}

mutual
/-- Every entry of `m_leafObjects` anywhere in the tree, with the depth of the
node that stores it. -/
def stored : octree_node_t T → List (Int × aabb3 × T)
  | mk d _ _ objs cs => objs.map (fun o => (d, o.1, o.2)) ++ storedList cs
/-- The entries stored below the nodes of a list. -/
def storedList : List (octree_node_t T) → List (Int × aabb3 × T)
  | [] => []
  | c :: cs => stored c ++ storedList cs
end

end octree_node_t

/-! ## `MakeBounceLightsThread` in float arithmetic -/

namespace Rounded

/-- Modelled from the spec: `mix` of `common/qvec.hh` on `float` vectors, the
linear interpolation `a * (1 - t) + b * t` with every result rounded. -/
def mix (rnd : ℚ → ℚ) (a b : qvec3f) (t : ℚ) : qvec3f :=
  fun k => rnd (rnd (a k * rnd (1 - t)) + rnd (b k * t))

namespace MakeBounceLightsThread

/-- The body of the inner loop, `sum[style] = sum[style] + (color * patcharea)`
on `qvec3f` values: the product and the sum are each rounded. Every float
result passes through `rnd`: the identity stands for exact arithmetic,
`float32` for the arithmetic of the type `float`. -/
def addPatch (rnd : ℚ → ℚ) (sum : stdmap qvec3f) (lightByStyle : stdmap qvec3f)
    (patcharea : ℚ) : stdmap qvec3f :=
  lightByStyle.foldl
    (fun sum styleColor =>
      sum.set styleColor.1
        (fun k => rnd (sum.index styleColor.1 (qvec.splat 3 0) k +
          rnd (styleColor.2 k * patcharea)))) sum

/-- The loop over the patches: `patcharea` is the area converted to `float`,
and `totalarea += patcharea` is a `float` addition. -/
def accumulate (rnd : ℚ → ℚ) (env : Collaborators) (ps : List patch_t) : stdmap qvec3f × ℚ :=
  ps.foldl
    (fun acc patch =>
      let patcharea := rnd (env.area patch.w)
      (addPatch rnd acc.1 patch.lightByStyle patcharea, rnd (acc.2 + patcharea)))
    ([], 0)

/-- The map `sum` after `styleColor.second *= (1.0f / totalarea)` and
`styleColor.second /= 255.0f`: the quotient `1.0f / totalarea`, the product
and the division are each rounded. -/
def normalized (rnd : ℚ → ℚ) (sum : stdmap qvec3f) (totalarea : ℚ) : stdmap qvec3f :=
  sum.map fun styleColor =>
    (styleColor.1, fun k => rnd (rnd (styleColor.2 k * rnd (1 / totalarea)) / 255))

/-- The vector `total` after that loop, `total += styleColor.second`. -/
def total (rnd : ℚ → ℚ) (sum : stdmap qvec3f) : qvec3f :=
  sum.foldl (fun total styleColor => fun k => rnd (total k + styleColor.2 k)) (qvec.splat 3 0)

/-- The vector `blendedcolor`: the texture colour divided by `255.0f`, the
constant `127.f / 255.f`, and `mix`. -/
def blendedcolor (rnd : ℚ → ℚ) (env : Collaborators) (face : mface_ptr) : qvec3f :=
  let texturecolor : qvec3f := fun k => rnd ((Face_LookupTextureColor env face k : ℚ) / 255)
  mix rnd (qvec.splat 3 (rnd (127 / 255))) texturecolor env.bouncecolorscale

/-- The map `emitcolors`, `emitcolor[k] = styleColor.second[k] * blendedcolor[k]`. -/
def emitcolors (rnd : ℚ → ℚ) (sum : stdmap qvec3f) (blendedcolor : qvec3f) : stdmap qvec3f :=
  sum.foldl
    (fun emitcolors styleColor =>
      emitcolors.set styleColor.1 (fun k => rnd (styleColor.2 k * blendedcolor k)))
    []

/-- The value of `totalarea` for a face. -/
def totalarea (rnd : ℚ → ℚ) (env : Collaborators) (face : mface_ptr) : ℚ :=
  (accumulate rnd env (EricwTools.MakeBounceLightsThread.patches env face)).2

/-- The map `sum` for a face, once normalised. -/
def normalizedSum (rnd : ℚ → ℚ) (env : Collaborators) (face : mface_ptr) : stdmap qvec3f :=
  normalized rnd (accumulate rnd env (EricwTools.MakeBounceLightsThread.patches env face)).1
    (totalarea rnd env face)

/-- The map `emitcolors` for a face. -/
def emitted (rnd : ℚ → ℚ) (env : Collaborators) (face : mface_ptr) : stdmap qvec3f :=
  emitcolors rnd (normalizedSum rnd env face) (blendedcolor rnd env face)

/-- The face passes the four tests that precede the registration, as the
code evaluates them: it is eligible, its winding area is not zero, the
variable `totalarea` is at least 1 and the vector `total` is not exactly
zero. -/
def Passes (rnd : ℚ → ℚ) (env : Collaborators) (face : mface_ptr) : Prop :=
  Face_ShouldBounce env face = true ∧
  env.area (env.from_face face) ≠ 0 ∧
  1 ≤ totalarea rnd env face ∧
  emptyExact (total rnd (normalizedSum rnd env face)) = false

instance (rnd : ℚ → ℚ) (env : Collaborators) (face : mface_ptr) :
    Decidable (Passes rnd env face) := by
  unfold Passes
  infer_instance

end MakeBounceLightsThread

/-- The function `MakeBounceLightsThread`, its arithmetic on `float` values
rounded by `rnd`. -/
def MakeBounceLightsThread (rnd : ℚ → ℚ) (env : Collaborators) (face : mface_ptr)
    (st : Registry) : Option Registry :=
  if Face_ShouldBounce env face = false then some st
  else
    let winding := env.from_face face
    let facearea := env.area winding
    if facearea = 0 then some st
    else
      let faceplane := env.plane winding
      let facemidpoint : qvec3d := fun i => env.center winding i + faceplane.normal i
      let acc := MakeBounceLightsThread.accumulate rnd env
        (EricwTools.MakeBounceLightsThread.patches env face)
      let totalarea := acc.2
      if totalarea < 1 then some st
      else
        let sum := MakeBounceLightsThread.normalized rnd acc.1 totalarea
        if emptyExact (MakeBounceLightsThread.total rnd sum) then some st
        else
          AddBounceLight env facemidpoint
            (MakeBounceLightsThread.emitcolors rnd sum
              (MakeBounceLightsThread.blendedcolor rnd env face))
            faceplane.normal facearea face st

end Rounded

/-- The bright level with a texture of average colour (255, 0, 64) on every
face and the blend scalar at 1. -/
def texturedLevel : Collaborators :=
  { brightLevel with img_find := fun _ => some ![255, 0, 64], bouncecolorscale := 1 }

/-- The bright level with the light dimmed to 200 on every channel of
style 0. -/
def dimLevel : Collaborators :=
  { brightLevel with GetDirectLighting := fun _ _ => [(0, ![200, 200, 200])] }

/-- The textured level with the blend scalar at 0. -/
def mutedLevel : Collaborators :=
  { texturedLevel with bouncecolorscale := 0 }

/-! ## Lemmas on boxes -/

theorem qmin_eq_min (a b : ℚ) : qmin a b = min a b := by
  unfold qmin
  split_ifs with h
  · exact (min_eq_left h.le).symm
  · exact (min_eq_right (not_lt.mp h)).symm

theorem qmax_eq_max (a b : ℚ) : qmax a b = max a b := by
  unfold qmax
  split_ifs with h
  · exact (max_eq_left h.le).symm
  · exact (max_eq_right (not_lt.mp h)).symm

namespace aabb

variable {N : Nat}

theorem fix_mins (b : aabb N) : b.fix.m_mins = b.m_mins := rfl

theorem fix_maxs (b : aabb N) (i : Fin N) : b.fix.m_maxs i = max (b.m_maxs i) (b.m_mins i) := by
  unfold fix
  simp only
  split_ifs with h
  · exact (max_eq_right h.le).symm
  · exact (max_eq_left (not_lt.mp h)).symm

theorem fix_fixed (b : aabb N) : b.fix.Fixed := by
  intro i
  rw [fix_maxs, fix_mins]
  exact le_max_right _ _

theorem new_fixed (mins maxs : qvec N) : (new mins maxs).Fixed := fix_fixed _

theorem copy_fixed (b : aabb N) : b.copy.Fixed := fix_fixed _

theorem fix_of_fixed (b : aabb N) (h : b.Fixed) : b.fix = b := by
  cases b with
  | mk mins maxs =>
    unfold fix
    congr
    funext i
    have hi : mins i ≤ maxs i := h i
    simp [not_lt.mpr hi]

theorem new_of_le (mins maxs : qvec N) (h : ∀ i, mins i ≤ maxs i) :
    new mins maxs = { m_mins := mins, m_maxs := maxs } :=
  fix_of_fixed _ h

theorem copy_of_fixed (b : aabb N) (h : b.Fixed) : b.copy = b := fix_of_fixed b h

theorem disjoint_eq_true_iff (a b : aabb N) :
    a.disjoint b = true ↔ ∃ i, a.m_maxs i < b.m_mins i ∨ b.m_maxs i < a.m_mins i := by
  simp [disjoint, List.any_eq_true, List.mem_finRange]

theorem disjoint_eq_false_iff (a b : aabb N) :
    a.disjoint b = false ↔ ∀ i, b.m_mins i ≤ a.m_maxs i ∧ a.m_mins i ≤ b.m_maxs i := by
  rw [← Bool.not_eq_true, disjoint_eq_true_iff]
  push_neg
  rfl

theorem containsPoint_iff (a : aabb N) (p : qvec N) :
    a.containsPoint p = true ↔ ∀ i, a.m_mins i ≤ p i ∧ p i ≤ a.m_maxs i := by
  simp [containsPoint, List.all_eq_true, List.mem_finRange]

theorem expand_fixed (a : aabb N) (pt : qvec N) : (a.expand pt).Fixed := new_fixed _ _

theorem unionWith_fixed (a b : aabb N) : (a.unionWith b).Fixed := new_fixed _ _

theorem grow_fixed (a : aabb N) (size : qvec N) : (a.grow size).Fixed := new_fixed _ _

theorem intersectWith_fixed (a b : aabb N) : (a.intersectWith b).2.Fixed := by
  unfold intersectWith
  simp only
  split_ifs
  · exact new_fixed _ _
  · exact new_fixed _ _

/-- On fixed boxes the loop of `intersectWith` stops exactly when the boxes
are disjoint. -/
theorem intersectWith_any_iff (a b : aabb N) (ha : a.Fixed) (hb : b.Fixed) :
    ((List.finRange N).any fun i =>
      decide (qmax (a.m_mins i) (b.m_mins i) > qmin (a.m_maxs i) (b.m_maxs i))) = a.disjoint b := by
  rw [Bool.eq_iff_iff, disjoint_eq_true_iff]
  simp only [List.any_eq_true, List.mem_finRange, true_and, decide_eq_true_eq, qmax_eq_max,
    qmin_eq_min, gt_iff_lt, lt_max_iff, min_lt_iff]
  constructor
  · rintro ⟨i, h⟩
    have h1 := ha i
    have h2 := hb i
    refine ⟨i, ?_⟩
    rcases h with (h | h) | (h | h)
    · exact absurd h (not_lt.mpr h1)
    · exact Or.inr h
    · exact Or.inl h
    · exact absurd h (not_lt.mpr h2)
  · rintro ⟨i, h | h⟩
    · exact ⟨i, Or.inr (Or.inl h)⟩
    · exact ⟨i, Or.inl (Or.inr h)⟩

theorem intersectWith_of_disjoint (a b : aabb N) (ha : a.Fixed) (hb : b.Fixed)
    (h : a.disjoint b = true) :
    a.intersectWith b = (false, new (qvec.splat N 0) (qvec.splat N 0)) := by
  unfold intersectWith
  simp only
  rw [intersectWith_any_iff a b ha hb, h]
  simp

theorem intersectWith_of_not_disjoint (a b : aabb N) (ha : a.Fixed) (hb : b.Fixed)
    (h : a.disjoint b = false) :
    a.intersectWith b =
      (true, { m_mins := fun i => max (a.m_mins i) (b.m_mins i)
               m_maxs := fun i => min (a.m_maxs i) (b.m_maxs i) }) := by
  have hle : ∀ i, max (a.m_mins i) (b.m_mins i) ≤ min (a.m_maxs i) (b.m_maxs i) := by
    intro i
    have h1 := (disjoint_eq_false_iff a b).mp h i
    exact max_le (le_min (ha i) h1.2) (le_min h1.1 (hb i))
  unfold intersectWith
  simp only
  rw [intersectWith_any_iff a b ha hb, h]
  simp only [Bool.false_eq_true, if_false, qmax_eq_max, qmin_eq_min]
  rw [new_of_le _ _ hle]

end aabb

namespace aabb

variable {N : Nat}

theorem disjoint_comm (a b : aabb N) : a.disjoint b = b.disjoint a := by
  rw [Bool.eq_iff_iff, disjoint_eq_true_iff, disjoint_eq_true_iff]
  constructor
  · rintro ⟨i, h | h⟩
    · exact ⟨i, Or.inr h⟩
    · exact ⟨i, Or.inl h⟩
  · rintro ⟨i, h | h⟩
    · exact ⟨i, Or.inr h⟩
    · exact ⟨i, Or.inl h⟩

/-- Two fixed boxes are not disjoint exactly when they share a point. -/
theorem not_disjoint_iff_common_point (a b : aabb N) (ha : a.Fixed) (hb : b.Fixed) :
    a.disjoint b = false ↔ ∃ p, a.containsPoint p = true ∧ b.containsPoint p = true := by
  rw [disjoint_eq_false_iff]
  constructor
  · intro h
    refine ⟨fun i => max (a.m_mins i) (b.m_mins i), ?_, ?_⟩
    · rw [containsPoint_iff]
      intro i
      exact ⟨le_max_left _ _, max_le (ha i) (h i).1⟩
    · rw [containsPoint_iff]
      intro i
      exact ⟨le_max_right _ _, max_le (h i).2 (hb i)⟩
  · rintro ⟨p, hpa, hpb⟩
    rw [containsPoint_iff] at hpa hpb
    intro i
    exact ⟨le_trans (hpb i).1 (hpa i).2, le_trans (hpa i).1 (hpb i).2⟩

theorem containsPoint_intersectWith (a b : aabb N) (ha : a.Fixed) (hb : b.Fixed)
    (h : (a.intersectWith b).1 = true) (p : qvec N) :
    (a.intersectWith b).2.containsPoint p = true ↔
      a.containsPoint p = true ∧ b.containsPoint p = true := by
  cases hd : a.disjoint b
  · rw [intersectWith_of_not_disjoint a b ha hb hd]
    simp only [containsPoint_iff, max_le_iff, le_min_iff]
    constructor
    · intro h1
      exact ⟨fun i => ⟨(h1 i).1.1, (h1 i).2.1⟩, fun i => ⟨(h1 i).1.2, (h1 i).2.2⟩⟩
    · rintro ⟨h1, h2⟩ i
      exact ⟨⟨(h1 i).1, (h2 i).1⟩, ⟨(h1 i).2, (h2 i).2⟩⟩
  · rw [intersectWith_of_disjoint a b ha hb hd] at h
    exact absurd h (by simp)

theorem intersectWith_fst (a b : aabb N) (ha : a.Fixed) (hb : b.Fixed) :
    (a.intersectWith b).1 = !a.disjoint b := by
  cases hd : a.disjoint b
  · rw [intersectWith_of_not_disjoint a b ha hb hd]
    rfl
  · rw [intersectWith_of_disjoint a b ha hb hd]
    rfl

theorem intersectWith_fst_iff (a b : aabb N) (ha : a.Fixed) (hb : b.Fixed) :
    (a.intersectWith b).1 = true ↔
      ∃ p, a.containsPoint p = true ∧ b.containsPoint p = true := by
  rw [intersectWith_fst a b ha hb, ← not_disjoint_iff_common_point a b ha hb]
  cases a.disjoint b <;> simp

theorem read_three (v : qvec 3) (i : Fin 3) : qvec.read v i.val = some (v i) := by
  unfold qvec.read
  rw [dif_pos i.isLt]

/-- For three dimensions `contains` reads stored components only and is the
componentwise comparison. -/
theorem contains_three (a b : aabb3) :
    a.contains b = some (decide (∀ i, a.m_mins i ≤ b.m_mins i ∧ b.m_maxs i ≤ a.m_maxs i)) := by
  have r0 := fun v : qvec 3 => read_three v 0
  have r1 := fun v : qvec 3 => read_three v 1
  have r2 := fun v : qvec 3 => read_three v 2
  simp only [Fin.val_zero, Fin.val_one, Fin.val_two] at r0 r1 r2
  simp only [contains, containsFrom, r0, r1, r2, Fin.forall_fin_succ, Fin.succ_zero_eq_one,
    Fin.succ_one_eq_two, gt_iff_lt]
  by_cases h0 : b.m_mins 0 < a.m_mins 0
  · simp [h0, not_le.mpr h0]
  by_cases h0' : a.m_maxs 0 < b.m_maxs 0
  · simp [h0, h0', not_le.mpr h0']
  by_cases h1 : b.m_mins 1 < a.m_mins 1
  · simp [h0, h0', h1, not_le.mpr h1]
  by_cases h1' : a.m_maxs 1 < b.m_maxs 1
  · simp [h0, h0', h1, h1', not_le.mpr h1']
  by_cases h2 : b.m_mins 2 < a.m_mins 2
  · simp [h0, h0', h1, h1', h2, not_le.mpr h2]
  by_cases h2' : a.m_maxs 2 < b.m_maxs 2
  · simp [h0, h0', h1, h1', h2, h2', not_le.mpr h2']
  simp [h0, h0', h1, h1', h2, h2', not_lt.mp h0, not_lt.mp h0', not_lt.mp h1, not_lt.mp h1',
    not_lt.mp h2, not_lt.mp h2']

theorem contains_three_iff (a b : aabb3) :
    a.contains b = some true ↔ ∀ i, a.m_mins i ≤ b.m_mins i ∧ b.m_maxs i ≤ a.m_maxs i := by
  rw [contains_three]
  simp

/-- The clipped box handed to a child lies inside the child's box. -/
theorem contains_intersectWith (a c : aabb3) (ha : a.Fixed) (hc : c.Fixed)
    (h : (a.intersectWith c).1 = true) : c.contains (a.intersectWith c).2 = some true := by
  rw [contains_three_iff]
  cases hd : a.disjoint c
  · rw [intersectWith_of_not_disjoint a c ha hc hd]
    intro i
    exact ⟨le_max_right _ _, min_le_right _ _⟩
  · rw [intersectWith_of_disjoint a c ha hc hd] at h
    exact absurd h (by simp)

theorem contains_containsPoint (a b : aabb3) (h : a.contains b = some true) (p : qvec 3)
    (hp : b.containsPoint p = true) : a.containsPoint p = true := by
  rw [contains_three_iff] at h
  rw [containsPoint_iff] at hp ⊢
  intro i
  exact ⟨le_trans (h i).1 (hp i).1, le_trans (hp i).2 (h i).2⟩

theorem containsPoint_copy (b : aabb N) (p : qvec N) (hp : b.containsPoint p = true) :
    b.copy.containsPoint p = true := by
  rw [containsPoint_iff] at hp ⊢
  intro i
  refine ⟨(hp i).1, ?_⟩
  show p i ≤ (fix _).m_maxs i
  rw [fix_maxs]
  exact le_trans (hp i).2 (le_max_left _ _)

theorem expand_mins (a : aabb N) (pt : qvec N) (i : Fin N) :
    (a.expand pt).m_mins i = min (a.m_mins i) (pt i) := by
  show qmin _ _ = _
  rw [qmin_eq_min]

theorem expand_maxs_ge (a : aabb N) (pt : qvec N) (i : Fin N) :
    max (a.m_maxs i) (pt i) ≤ (a.expand pt).m_maxs i := by
  show _ ≤ (fix _).m_maxs i
  rw [fix_maxs]
  simp only [qmax_eq_max]
  exact le_max_left _ _

theorem unionWith_mins_le (a b : aabb N) (hb : b.Fixed) (i : Fin N) :
    (a.unionWith b).m_mins i ≤ a.m_mins i ∧ (a.unionWith b).m_mins i ≤ b.m_mins i := by
  unfold unionWith
  rw [expand_mins, expand_mins]
  have := hb i
  refine ⟨?_, ?_⟩
  · exact le_trans (min_le_left _ _) (min_le_left _ _)
  · exact le_trans (min_le_left _ _) (min_le_right _ _)

theorem unionWith_maxs_ge (a b : aabb N) (i : Fin N) :
    a.m_maxs i ≤ (a.unionWith b).m_maxs i ∧ b.m_maxs i ≤ (a.unionWith b).m_maxs i := by
  unfold unionWith
  have h1 := expand_maxs_ge (a.expand b.m_mins) b.m_maxs i
  have h2 := expand_maxs_ge a b.m_mins i
  refine ⟨?_, ?_⟩
  · exact le_trans (le_trans (le_max_left _ _) h2) (le_trans (le_max_left _ _) h1)
  · exact le_trans (le_max_right _ _) h1

end aabb

/-! ## Lemmas on the octree -/

theorem mem_stdset_insert {T : Type} [LinearOrder T] (x t : T) (s : List T) :
    t ∈ stdset_insert x s ↔ t = x ∨ t ∈ s := by
  unfold stdset_insert
  split_ifs with h
  · constructor
    · exact Or.inr
    · rintro (rfl | h1)
      · exact h
      · exact h1
  · rw [List.mem_orderedInsert]

namespace octree_node_t

variable {T : Type}

theorem m_depth_mk (d : Int) (b : aabb3) (l : Bool) (o : List (aabb3 × T))
    (cs : List (octree_node_t T)) : (mk d b l o cs).m_depth = d := rfl

theorem m_bbox_mk (d : Int) (b : aabb3) (l : Bool) (o : List (aabb3 × T))
    (cs : List (octree_node_t T)) : (mk d b l o cs).m_bbox = b := rfl

theorem m_leafNode_mk (d : Int) (b : aabb3) (l : Bool) (o : List (aabb3 × T))
    (cs : List (octree_node_t T)) : (mk d b l o cs).m_leafNode = l := rfl

theorem m_leafObjects_mk (d : Int) (b : aabb3) (l : Bool) (o : List (aabb3 × T))
    (cs : List (octree_node_t T)) : (mk d b l o cs).m_leafObjects = o := rfl

theorem m_children_mk (d : Int) (b : aabb3) (l : Bool) (o : List (aabb3 × T))
    (cs : List (octree_node_t T)) : (mk d b l o cs).m_children = cs := rfl

theorem weight_pos (n : octree_node_t T) : 0 < n.weight := by
  cases n with
  | mk d b l o cs =>
    simp only [weight]
    have : 0 < 9 ^ (MAX_OCTREE_DEPTH - d).toNat := pow_pos (by norm_num) _
    omega

theorem weight_le_weightList (cs : List (octree_node_t T)) (c : octree_node_t T) (h : c ∈ cs) :
    c.weight ≤ weightList cs := by
  induction cs with
  | nil => exact absurd h (List.not_mem_nil _)
  | cons a l ih =>
    simp only [weightList]
    rcases List.mem_cons.mp h with rfl | h1
    · omega
    · have := ih h1
      omega

theorem weight_child_lt (d : Int) (b : aabb3) (l : Bool) (o : List (aabb3 × T))
    (cs : List (octree_node_t T)) (c : octree_node_t T) (h : c ∈ cs) :
    c.weight < (mk d b l o cs).weight := by
  have h1 := weight_le_weightList cs c h
  simp only [weight]
  have : 0 < 9 ^ (MAX_OCTREE_DEPTH - d).toNat := pow_pos (by norm_num) _
  omega

theorem invList_iff (cs : List (octree_node_t T)) : InvList cs ↔ ∀ c ∈ cs, Inv c := by
  induction cs with
  | nil => simp [InvList]
  | cons a l ih => simp [InvList, ih]

theorem hitList_iff (cs : List (octree_node_t T)) (query : aabb3) (t : T) :
    HitList cs query t ↔
      ∃ c ∈ cs, (query.intersectWith c.m_bbox).1 = true ∧
        Hit c (query.intersectWith c.m_bbox).2 t := by
  induction cs with
  | nil => simp [HitList]
  | cons a l ih => simp [HitList, ih]

theorem inv_mk (d : Int) (b : aabb3) (l : Bool) (o : List (aabb3 × T))
    (cs : List (octree_node_t T)) :
    Inv (mk d b l o cs) ↔
      b.Fixed ∧ (∀ x ∈ o, x.1.Fixed) ∧
      (l = true → cs = [] ∧ (d < MAX_OCTREE_DEPTH → o = [])) ∧
      (l = false → o = [] ∧
        ∀ p, b.containsPoint p = true → ∃ c ∈ cs, c.m_bbox.containsPoint p = true) ∧
      ∀ c ∈ cs, Inv c := by
  rw [Inv, invList_iff]

theorem hit_inner (d : Int) (b : aabb3) (o : List (aabb3 × T)) (cs : List (octree_node_t T))
    (query : aabb3) (t : T) : Hit (mk d b false o cs) query t ↔ HitList cs query t := by
  rw [Hit]
  simp

theorem hit_leaf (d : Int) (b : aabb3) (o : List (aabb3 × T)) (cs : List (octree_node_t T))
    (query : aabb3) (t : T) :
    Hit (mk d b true o cs) query t ↔ ∃ x ∈ o, query.disjoint x.1 = false ∧ x.2 = t := by
  rw [Hit]
  simp

theorem inv_bbox_fixed (n : octree_node_t T) (h : Inv n) : n.m_bbox.Fixed := by
  cases n with
  | mk d b l o cs =>
    exact ((inv_mk d b l o cs).mp h).1

theorem createChildren_eq (bboxOctant : aabb3 → Nat → aabb3) (n : octree_node_t T)
    (h : n.m_depth + 1 ≤ MAX_OCTREE_DEPTH) (k i : Nat) :
    createChildren bboxOctant n i k =
      some ((List.range' i k).map fun j =>
        mk (n.m_depth + 1) (bboxOctant n.m_bbox j).copy true [] []) := by
  induction k generalizing i with
  | zero => simp [createChildren]
  | succ k ih =>
    rw [createChildren, ih (i + 1)]
    have hc : createChild bboxOctant n i =
        some (mk (n.m_depth + 1) (bboxOctant n.m_bbox i).copy true [] []) := by
      unfold createChild create
      rw [if_pos h]
    rw [hc]
    rfl

/-- The node that `toNode` makes of a leaf above the maximum depth. -/
theorem toNode_some (bboxOctant : aabb3 → Nat → aabb3) (n n1 : octree_node_t T)
    (hd : n.m_depth < MAX_OCTREE_DEPTH) (h : toNode bboxOctant n = some n1) :
    n.m_leafNode = true ∧ n.m_leafObjects = [] ∧ n.m_children = [] ∧
    n1 = mk n.m_depth n.m_bbox false []
      ((List.range' 0 8).map fun j =>
        mk (n.m_depth + 1) (bboxOctant n.m_bbox j).copy true [] []) := by
  unfold toNode at h
  split_ifs at h with h1 h2 h3
  rw [createChildren_eq bboxOctant n (by unfold MAX_OCTREE_DEPTH at *; omega)] at h
  simp only [Option.some.injEq] at h
  have ho : n.m_leafObjects = [] := by
    cases hn : n.m_leafObjects with
    | nil => rfl
    | cons a l => simp [hn] at h2
  have hc : n.m_children = [] := by
    cases hn : n.m_children with
    | nil => rfl
    | cons a l => simp [hn] at h3
  refine ⟨by simpa using h1, ho, hc, ?_⟩
  rw [← h, ho]

theorem toNode_of_leaf (bboxOctant : aabb3 → Nat → aabb3) (n : octree_node_t T)
    (hd : n.m_depth < MAX_OCTREE_DEPTH) (hl : n.m_leafNode = true) (ho : n.m_leafObjects = [])
    (hc : n.m_children = []) :
    toNode bboxOctant n = some (mk n.m_depth n.m_bbox false []
      ((List.range' 0 8).map fun j =>
        mk (n.m_depth + 1) (bboxOctant n.m_bbox j).copy true [] [])) := by
  unfold toNode
  rw [createChildren_eq bboxOctant n (by unfold MAX_OCTREE_DEPTH at *; omega)]
  simp [hl, ho, hc]

/-- The termination argument of `insert`: the children visited weigh less than
the node, also when `toNode` has just created them. -/
theorem weight_children_lt (bboxOctant : aabb3 → Nat → aabb3) (n n1 : octree_node_t T)
    (h : convertLeaf bboxOctant n = some n1)
    (c : octree_node_t T) (hc : c ∈ n1.m_children) : c.weight < n.weight := by
  unfold convertLeaf at h
  by_cases hcond : (n.m_leafNode && decide (n.m_depth < MAX_OCTREE_DEPTH)) = true
  · rw [if_pos hcond] at h
    simp only [Bool.and_eq_true, decide_eq_true_eq] at hcond
    obtain ⟨-, -, -, h1⟩ := toNode_some bboxOctant n n1 hcond.2 h
    subst h1
    simp only [m_children, List.mem_map] at hc
    obtain ⟨j, -, rfl⟩ := hc
    cases n with
    | mk d b l o cs =>
      simp only [m_depth, weight, weightList] at hcond ⊢
      have hd : (MAX_OCTREE_DEPTH - d).toNat = (MAX_OCTREE_DEPTH - (d + 1)).toNat + 1 := by
        unfold MAX_OCTREE_DEPTH at *
        omega
      rw [hd, pow_succ]
      have hp : 0 < 9 ^ (MAX_OCTREE_DEPTH - (d + 1)).toNat := pow_pos (by norm_num) _
      generalize 9 ^ (MAX_OCTREE_DEPTH - (d + 1)).toNat = x at hp ⊢
      omega
  · rw [if_neg hcond] at h
    simp only [Option.some.injEq] at h
    subst h
    cases n with
    | mk d b l o cs => exact weight_child_lt d b l o cs c hc

theorem forChildren_congr (f g : octree_node_t T → Option (octree_node_t T))
    (cs : List (octree_node_t T)) (h : ∀ c ∈ cs, f c = g c) :
    forChildren f cs = forChildren g cs := by
  induction cs with
  | nil => rfl
  | cons a l ih =>
    simp only [forChildren, h a (List.mem_cons_self _ _),
      ih (fun c hc => h c (List.mem_cons_of_mem _ hc))]

/-- Any bound from the weight of the node on gives the same result: the
bound is not reached. -/
theorem insertFuel_eq_of_le (bboxOctant : aabb3 → Nat → aabb3) (fuel1 fuel2 : Nat)
    (n : octree_node_t T) (objBox : aabb3) (obj : T)
    (h1 : n.weight ≤ fuel1) (h2 : n.weight ≤ fuel2) :
    insertFuel bboxOctant fuel1 n objBox obj = insertFuel bboxOctant fuel2 n objBox obj := by
  induction fuel1 generalizing fuel2 n objBox with
  | zero => exact absurd h1 (by have := weight_pos n; omega)
  | succ k ih =>
    cases fuel2 with
    | zero => exact absurd h2 (by have := weight_pos n; omega)
    | succ m =>
      simp only [insertFuel]
      split_ifs with hc
      · cases hp : convertLeaf bboxOctant n with
        | none => rfl
        | some n1 =>
          simp only
          have hcongr : forChildren (fun c =>
              if (objBox.intersectWith c.m_bbox).1
                then insertFuel bboxOctant k c (objBox.intersectWith c.m_bbox).2 obj
                else some c) n1.m_children =
              forChildren (fun c =>
              if (objBox.intersectWith c.m_bbox).1
                then insertFuel bboxOctant m c (objBox.intersectWith c.m_bbox).2 obj
                else some c) n1.m_children := by
            apply forChildren_congr
            intro c hmem
            have hlt := weight_children_lt bboxOctant n n1 hp c hmem
            split_ifs
            · exact ih m c _ (by omega) (by omega)
            · rfl
          rw [hcongr]
      · rfl

/-- The unfolding of `insert`. -/
theorem insert_eq (bboxOctant : aabb3 → Nat → aabb3) (n : octree_node_t T) (objBox : aabb3)
    (obj : T) :
    insert bboxOctant n objBox obj =
      if n.m_bbox.contains objBox = some true then
        match convertLeaf bboxOctant n with
        | none => none
        | some n1 =>
          if n1.m_leafNode then
            some (mk n1.m_depth n1.m_bbox n1.m_leafNode (n1.m_leafObjects ++ [(objBox, obj)])
              n1.m_children)
          else
            match forChildren (fun c =>
                if (objBox.intersectWith c.m_bbox).1
                  then insert bboxOctant c (objBox.intersectWith c.m_bbox).2 obj
                  else some c) n1.m_children with
            | none => none
            | some cs => some (mk n1.m_depth n1.m_bbox n1.m_leafNode n1.m_leafObjects cs)
      else none := by
  unfold insert
  obtain ⟨k, hk⟩ : ∃ k, n.weight = k + 1 := ⟨n.weight - 1, by have := weight_pos n; omega⟩
  rw [hk]
  simp only [insertFuel]
  split_ifs with hc
  · cases hp : convertLeaf bboxOctant n with
    | none => rfl
    | some n1 =>
      simp only
      have hcongr : forChildren (fun c =>
          if (objBox.intersectWith c.m_bbox).1
            then insertFuel bboxOctant k c (objBox.intersectWith c.m_bbox).2 obj
            else some c) n1.m_children =
          forChildren (fun c =>
          if (objBox.intersectWith c.m_bbox).1
            then insertFuel bboxOctant c.weight c (objBox.intersectWith c.m_bbox).2 obj
            else some c) n1.m_children := by
        apply forChildren_congr
        intro c hmem
        have hlt := weight_children_lt bboxOctant n n1 hp c hmem
        split_ifs
        · exact insertFuel_eq_of_le bboxOctant k c.weight c _ obj (by omega) (le_refl _)
        · rfl
      rw [hcongr]
  · rfl

theorem or_and_shuffle (A B C D E : Prop) :
    (A ∨ (E ∧ B)) ∨ (C ∨ (E ∧ D)) ↔ (A ∨ C) ∨ (E ∧ (B ∨ D)) := by
  tauto

/-- One turn of the loop of `insert` over the children. -/
theorem insert_child_step (bboxOctant : aabb3 → Nat → aabb3) (obj : T) (objBox : aabb3)
    (hb : objBox.Fixed) (a : octree_node_t T) (hInv : Inv a)
    (hP : InsertSpec bboxOctant obj a) :
    ∃ a1,
      (if (objBox.intersectWith a.m_bbox).1
        then insert bboxOctant a (objBox.intersectWith a.m_bbox).2 obj else some a) = some a1 ∧
      Inv a1 ∧ a1.m_bbox = a.m_bbox ∧
      ∀ query : aabb3, query.Fixed → ∀ t,
        ((query.intersectWith a1.m_bbox).1 = true ∧
            Hit a1 (query.intersectWith a1.m_bbox).2 t) ↔
          ((query.intersectWith a.m_bbox).1 = true ∧
            Hit a (query.intersectWith a.m_bbox).2 t) ∨
          (t = obj ∧ ∃ p, objBox.containsPoint p = true ∧ a.m_bbox.containsPoint p = true ∧
            query.containsPoint p = true) := by
  have hfa := inv_bbox_fixed a hInv
  cases hr : (objBox.intersectWith a.m_bbox).1
  · refine ⟨a, by simp, hInv, rfl, ?_⟩
    intro query _ t
    have hno : ¬ ∃ p, objBox.containsPoint p = true ∧ a.m_bbox.containsPoint p = true := by
      rw [← aabb.intersectWith_fst_iff objBox a.m_bbox hb hfa, hr]
      simp
    constructor
    · exact Or.inl
    · rintro (h | ⟨-, p, h1, h2, -⟩)
      · exact h
      · exact absurd ⟨p, h1, h2⟩ hno
  · obtain ⟨a1, h1, h2, h3, h4⟩ := hP (objBox.intersectWith a.m_bbox).2
      (aabb.intersectWith_fixed _ _) (aabb.contains_intersectWith objBox a.m_bbox hb hfa hr)
    refine ⟨a1, by simpa using h1, h2, h3, ?_⟩
    intro query hq t
    rw [h3]
    cases hqa : (query.intersectWith a.m_bbox).1
    · have hno : ¬ ∃ p, query.containsPoint p = true ∧ a.m_bbox.containsPoint p = true := by
        rw [← aabb.intersectWith_fst_iff query a.m_bbox hq hfa, hqa]
        simp
      constructor
      · rintro ⟨h, -⟩
        exact absurd h (by simp)
      · rintro (⟨h, -⟩ | ⟨-, p, -, h6, h7⟩)
        · exact absurd h (by simp)
        · exact absurd ⟨p, h7, h6⟩ hno
    · rw [h4 _ (aabb.intersectWith_fixed _ _)]
      simp only [true_and]
      have hpt : (∃ p, (objBox.intersectWith a.m_bbox).2.containsPoint p = true ∧
            (query.intersectWith a.m_bbox).2.containsPoint p = true) ↔
          ∃ p, objBox.containsPoint p = true ∧ a.m_bbox.containsPoint p = true ∧
            query.containsPoint p = true := by
        constructor
        · rintro ⟨p, h5, h6⟩
          rw [aabb.containsPoint_intersectWith objBox a.m_bbox hb hfa hr] at h5
          rw [aabb.containsPoint_intersectWith query a.m_bbox hq hfa hqa] at h6
          exact ⟨p, h5.1, h5.2, h6.1⟩
        · rintro ⟨p, h5, h6, h7⟩
          refine ⟨p, ?_, ?_⟩
          · rw [aabb.containsPoint_intersectWith objBox a.m_bbox hb hfa hr]
            exact ⟨h5, h6⟩
          · rw [aabb.containsPoint_intersectWith query a.m_bbox hq hfa hqa]
            exact ⟨h7, h6⟩
      rw [hpt]

/-- The loop of `insert` over the children. -/
theorem insert_children_spec (bboxOctant : aabb3 → Nat → aabb3) (obj : T) (objBox : aabb3)
    (hb : objBox.Fixed) (cs : List (octree_node_t T))
    (h : ∀ c ∈ cs, Inv c ∧ InsertSpec bboxOctant obj c) :
    ∃ cs1,
      forChildren (fun c =>
        if (objBox.intersectWith c.m_bbox).1
          then insert bboxOctant c (objBox.intersectWith c.m_bbox).2 obj else some c) cs
        = some cs1 ∧
      (∀ c ∈ cs1, Inv c) ∧ cs1.map m_bbox = cs.map m_bbox ∧
      ∀ query : aabb3, query.Fixed → ∀ t,
        HitList cs1 query t ↔
          HitList cs query t ∨
          (t = obj ∧ ∃ c ∈ cs, ∃ p, objBox.containsPoint p = true ∧
            c.m_bbox.containsPoint p = true ∧ query.containsPoint p = true) := by
  induction cs with
  | nil =>
    refine ⟨[], rfl, by simp, rfl, ?_⟩
    intro query _ t
    simp [HitList]
  | cons a l ih =>
    obtain ⟨l1, hl1, hl2, hl3, hl4⟩ := ih (fun c hc => h c (List.mem_cons_of_mem _ hc))
    obtain ⟨a1, ha1, ha2, ha3, ha4⟩ := insert_child_step bboxOctant obj objBox hb a
      (h a (List.mem_cons_self _ _)).1 (h a (List.mem_cons_self _ _)).2
    refine ⟨a1 :: l1, ?_, ?_, ?_, ?_⟩
    · simp only [forChildren, ha1, hl1]
    · intro c hc
      rcases List.mem_cons.mp hc with rfl | hc1
      · exact ha2
      · exact hl2 c hc1
    · simp only [List.map_cons, ha3, hl3]
    · intro query hq t
      simp only [HitList]
      rw [ha4 query hq t, hl4 query hq t]
      have hex : (∃ c ∈ a :: l, ∃ p, objBox.containsPoint p = true ∧
            c.m_bbox.containsPoint p = true ∧ query.containsPoint p = true) ↔
          (∃ p, objBox.containsPoint p = true ∧ a.m_bbox.containsPoint p = true ∧
            query.containsPoint p = true) ∨
          ∃ c ∈ l, ∃ p, objBox.containsPoint p = true ∧
            c.m_bbox.containsPoint p = true ∧ query.containsPoint p = true := by
        simp only [List.mem_cons, exists_eq_or_imp]
      rw [hex]
      exact or_and_shuffle _ _ _ _ _

/-- An `insert` into an inner node whose children cover its box. -/
theorem insert_inner_spec (bboxOctant : aabb3 → Nat → aabb3) (obj : T) (objBox : aabb3)
    (hb : objBox.Fixed) (d : Int) (b : aabb3) (hbf : b.Fixed)
    (hin : b.contains objBox = some true) (cs : List (octree_node_t T))
    (hcov : ∀ p, b.containsPoint p = true → ∃ c ∈ cs, c.m_bbox.containsPoint p = true)
    (h : ∀ c ∈ cs, Inv c ∧ InsertSpec bboxOctant obj c) :
    ∃ cs1,
      forChildren (fun c =>
        if (objBox.intersectWith c.m_bbox).1
          then insert bboxOctant c (objBox.intersectWith c.m_bbox).2 obj else some c) cs
        = some cs1 ∧
      Inv (mk d b false [] cs1) ∧
      ∀ query : aabb3, query.Fixed → ∀ t,
        HitList cs1 query t ↔
          HitList cs query t ∨
          (t = obj ∧ ∃ p, objBox.containsPoint p = true ∧ query.containsPoint p = true) := by
  obtain ⟨cs1, h1, h2, h3, h4⟩ := insert_children_spec bboxOctant obj objBox hb cs h
  refine ⟨cs1, h1, ?_, ?_⟩
  · rw [inv_mk]
    refine ⟨hbf, by simp, by simp, fun _ => ⟨rfl, ?_⟩, h2⟩
    intro p hp
    obtain ⟨c, hc, hcp⟩ := hcov p hp
    have hmem : c.m_bbox ∈ cs1.map m_bbox := by
      rw [h3]
      exact List.mem_map_of_mem _ hc
    obtain ⟨c1, hc1, hc1b⟩ := List.mem_map.mp hmem
    exact ⟨c1, hc1, by rw [hc1b]; exact hcp⟩
  · intro query hq t
    rw [h4 query hq t]
    have hpt : (∃ c ∈ cs, ∃ p, objBox.containsPoint p = true ∧
          c.m_bbox.containsPoint p = true ∧ query.containsPoint p = true) ↔
        ∃ p, objBox.containsPoint p = true ∧ query.containsPoint p = true := by
      constructor
      · rintro ⟨c, -, p, h5, -, h7⟩
        exact ⟨p, h5, h7⟩
      · rintro ⟨p, h5, h7⟩
        obtain ⟨c, hc, hcp⟩ := hcov p (aabb.contains_containsPoint b objBox hin p h5)
        exact ⟨c, hc, p, h5, hcp, h7⟩
    rw [hpt]

/-- Every `insert` of a box inside the node's box succeeds on a tree of the
shape `Inv`, and adds the payload to exactly the queries touching the box. -/
theorem insert_spec (bboxOctant : aabb3 → Nat → aabb3)
    (hcover : ∀ (box : aabb3) (p : qvec 3), box.containsPoint p = true →
      ∃ i, i < 8 ∧ (bboxOctant box i).containsPoint p = true)
    (obj : T) (n : octree_node_t T) (hInv : Inv n) : InsertSpec bboxOctant obj n := by
  generalize hw : n.weight = w
  induction w using Nat.strong_induction_on generalizing n with
  | _ w ih =>
    intro objBox hb hin
    rw [insert_eq, if_pos hin]
    cases n with
    | mk d b l o cs =>
      rw [inv_mk] at hInv
      obtain ⟨hbf, hof, hleaf, hinner, hcs⟩ := hInv
      rw [m_bbox_mk] at hin
      cases l
      · -- an inner node
        obtain ⟨ho, hcov⟩ := hinner rfl
        subst ho
        have hconv : convertLeaf bboxOctant (mk d b false [] cs) = some (mk d b false [] cs) := by
          simp [convertLeaf, m_leafNode_mk]
        rw [hconv]
        simp only [m_leafNode_mk, Bool.false_eq_true, if_false, m_children_mk, m_depth_mk,
          m_bbox_mk, m_leafObjects_mk]
        obtain ⟨cs1, h1, h2, h3⟩ := insert_inner_spec bboxOctant obj objBox hb d b hbf hin cs hcov
          (fun c hc => ⟨hcs c hc,
            ih c.weight (hw ▸ weight_child_lt d b false [] cs c hc) c (hcs c hc) rfl⟩)
        rw [h1]
        refine ⟨_, rfl, h2, rfl, ?_⟩
        intro query hq t
        rw [hit_inner, hit_inner]
        exact h3 query hq t
      · obtain ⟨hcnil, hoempty⟩ := hleaf rfl
        subst hcnil
        by_cases hd : d < MAX_OCTREE_DEPTH
        · -- a leaf above the maximum depth: converted, then filled through its children
          have ho := hoempty hd
          subst ho
          have hconv : convertLeaf bboxOctant (mk d b true [] [] : octree_node_t T) =
              some (mk d b false []
                ((List.range' 0 8).map fun j => mk (d + 1) (bboxOctant b j).copy true [] [])) := by
            unfold convertLeaf
            simp only [m_leafNode_mk, m_depth_mk, hd, decide_True, Bool.and_self, if_true]
            exact toNode_of_leaf bboxOctant (mk d b true [] []) hd rfl rfl rfl
          have hkids : ∀ c ∈ (List.range' 0 8).map
              (fun j => (mk (d + 1) (bboxOctant b j).copy true [] [] : octree_node_t T)),
              Inv c ∧ InsertSpec bboxOctant obj c := by
            intro c hc
            have hlt := weight_children_lt bboxOctant (mk d b true [] [] : octree_node_t T) _
              hconv c hc
            obtain ⟨j, -, rfl⟩ := List.mem_map.mp hc
            have hi : Inv (mk (d + 1) (bboxOctant b j).copy true [] [] : octree_node_t T) := by
              rw [inv_mk]
              exact ⟨aabb.copy_fixed _, by simp, by simp, by simp, by simp⟩
            exact ⟨hi, ih _ (hw ▸ hlt) _ hi rfl⟩
          have hcov : ∀ p, b.containsPoint p = true →
              ∃ c ∈ (List.range' 0 8).map
                (fun j => (mk (d + 1) (bboxOctant b j).copy true [] [] : octree_node_t T)),
                c.m_bbox.containsPoint p = true := by
            intro p hp
            obtain ⟨i, hi, hip⟩ := hcover b p hp
            refine ⟨mk (d + 1) (bboxOctant b i).copy true [] [], ?_, ?_⟩
            · refine List.mem_map.mpr ⟨i, ?_, rfl⟩
              rw [List.mem_range']
              exact ⟨i, hi, by omega⟩
            · exact aabb.containsPoint_copy _ p hip
          rw [hconv]
          simp only [m_leafNode_mk, Bool.false_eq_true, if_false, m_children_mk, m_depth_mk,
            m_bbox_mk, m_leafObjects_mk]
          obtain ⟨cs1, h1, h2, h3⟩ := insert_inner_spec bboxOctant obj objBox hb d b hbf hin _
            hcov hkids
          rw [h1]
          refine ⟨_, rfl, h2, rfl, ?_⟩
          intro query hq t
          have hnone : ¬ HitList ((List.range' 0 8).map
              (fun j => (mk (d + 1) (bboxOctant b j).copy true [] [] : octree_node_t T)))
              query t := by
            rw [hitList_iff]
            rintro ⟨c, hc, -, hhit⟩
            obtain ⟨j, -, rfl⟩ := List.mem_map.mp hc
            rw [hit_leaf] at hhit
            simp at hhit
          rw [hit_inner, hit_leaf, h3 query hq t]
          simp only [hnone, List.not_mem_nil, false_and, exists_false, false_or]
        · -- a leaf at the maximum depth: the object is stored
          have hconv : convertLeaf bboxOctant (mk d b true o []) = some (mk d b true o []) := by
            simp [convertLeaf, m_leafNode_mk, m_depth_mk, hd]
          rw [hconv]
          simp only [m_leafNode_mk, if_true, m_children_mk, m_depth_mk, m_bbox_mk,
            m_leafObjects_mk]
          refine ⟨_, rfl, ?_, rfl, ?_⟩
          · rw [inv_mk]
            refine ⟨hbf, ?_, fun _ => ⟨rfl, fun h => absurd h hd⟩, by simp, by simp⟩
            intro x hx
            rcases List.mem_append.mp hx with h1 | h1
            · exact hof x h1
            · rw [List.mem_singleton] at h1
              subst h1
              exact hb
          · intro query hq t
            rw [hit_leaf, hit_leaf]
            simp only [List.mem_append, List.mem_singleton]
            rw [← aabb.not_disjoint_iff_common_point objBox query hb hq, aabb.disjoint_comm]
            constructor
            · rintro ⟨x, hx | hx, h1, h2⟩
              · exact Or.inl ⟨x, hx, h1, h2⟩
              · subst hx
                exact Or.inr ⟨h2.symm, h1⟩
            · rintro (⟨x, hx, h1, h2⟩ | ⟨h1, h2⟩)
              · exact ⟨x, Or.inl hx, h1, h2⟩
              · exact ⟨(objBox, obj), Or.inr rfl, h2, h1.symm⟩

theorem mem_leaf_fold [LinearOrder T] (query : aabb3) (objs : List (aabb3 × T)) (dest : List T)
    (t : T) :
    t ∈ objs.foldl (fun dest boxObjPair =>
        if query.disjoint boxObjPair.1 = false then stdset_insert boxObjPair.2 dest else dest)
        dest ↔
      t ∈ dest ∨ ∃ o ∈ objs, query.disjoint o.1 = false ∧ o.2 = t := by
  induction objs generalizing dest with
  | nil => simp
  | cons a l ih =>
    rw [List.foldl_cons, ih]
    cases ha : query.disjoint a.1
    · simp only [if_true, mem_stdset_insert, List.mem_cons, exists_eq_or_imp, ha, true_and]
      constructor
      · rintro ((h | h) | h)
        · exact Or.inr (Or.inl h.symm)
        · exact Or.inl h
        · exact Or.inr (Or.inr h)
      · rintro (h | h | h)
        · exact Or.inl (Or.inr h)
        · exact Or.inl (Or.inl h.symm)
        · exact Or.inr h
    · simp only [Bool.true_eq_false, if_false, List.mem_cons, exists_eq_or_imp, ha, false_and,
        false_or]

theorem mem_queryChildren [LinearOrder T] (cs : List (octree_node_t T))
    (h : ∀ c ∈ cs, ∀ (query : aabb3) (dest : List T) (t : T),
      t ∈ queryTouchingBBoxInto c query dest ↔ t ∈ dest ∨ Hit c query t)
    (query : aabb3) (dest : List T) (t : T) :
    t ∈ queryChildren cs query dest ↔ t ∈ dest ∨ HitList cs query t := by
  induction cs generalizing dest with
  | nil => simp [queryChildren, HitList]
  | cons a l ih =>
    rw [queryChildren, ih (fun c hc => h c (List.mem_cons_of_mem _ hc))]
    simp only [HitList]
    cases ha : (query.intersectWith a.m_bbox).1
    · simp only [Bool.false_eq_true, if_false, false_and, false_or]
    · simp only [if_true, h a (List.mem_cons_self _ _), true_and]
      tauto

/-- The set filled by the private query holds what it held before and what
the query finds. -/
theorem mem_queryTouchingBBoxInto [LinearOrder T] (n : octree_node_t T) (query : aabb3)
    (dest : List T) (t : T) :
    t ∈ queryTouchingBBoxInto n query dest ↔ t ∈ dest ∨ Hit n query t := by
  generalize hw : n.weight = w
  induction w using Nat.strong_induction_on generalizing n query dest t with
  | _ w ih =>
    cases n with
    | mk d b l o cs =>
      cases l
      · simp only [queryTouchingBBoxInto, Hit, Bool.false_eq_true, if_false]
        apply mem_queryChildren
        intro c hc query1 dest1 t1
        exact ih c.weight (hw ▸ weight_child_lt d b false o cs c hc) c query1 dest1 t1 rfl
      · simp only [queryTouchingBBoxInto, Hit, if_true]
        exact mem_leaf_fold query o dest t

theorem mem_queryTouchingBBox [LinearOrder T] (n : octree_node_t T) (query : aabb3) (t : T) :
    t ∈ queryTouchingBBox n query ↔ Hit n query t := by
  unfold queryTouchingBBox
  rw [mem_queryTouchingBBoxInto]
  simp

/-- The second loop of `makeOctree`. -/
theorem insertAll_spec (bboxOctant : aabb3 → Nat → aabb3)
    (hcover : ∀ (box : aabb3) (p : qvec 3), box.containsPoint p = true →
      ∃ i, i < 8 ∧ (bboxOctant box i).containsPoint p = true)
    (objects : List (aabb3 × T)) (res : octree_node_t T) (hInv : Inv res)
    (hobj : ∀ o ∈ objects, o.1.Fixed ∧ res.m_bbox.contains o.1 = some true) :
    ∃ tree, insertAll bboxOctant objects res = some tree ∧ Inv tree ∧
      tree.m_bbox = res.m_bbox ∧
      ∀ query : aabb3, query.Fixed → ∀ t,
        Hit tree query t ↔
          Hit res query t ∨
            ∃ o ∈ objects, o.2 = t ∧
              ∃ p, o.1.containsPoint p = true ∧ query.containsPoint p = true := by
  induction objects generalizing res with
  | nil =>
    refine ⟨res, rfl, hInv, rfl, ?_⟩
    intro query _ t
    simp
  | cons a l ih =>
    obtain ⟨ha1, ha2⟩ := hobj a (List.mem_cons_self _ _)
    obtain ⟨res1, h1, h2, h3, h4⟩ := insert_spec bboxOctant hcover a.2 res hInv a.1 ha1 ha2
    obtain ⟨tree, h5, h6, h7, h8⟩ := ih res1 h2
      (fun o ho => by rw [h3]; exact hobj o (List.mem_cons_of_mem _ ho))
    refine ⟨tree, ?_, h6, by rw [h7, h3], ?_⟩
    · simp only [insertAll, h1, h5]
    · intro query hq t
      rw [h8 query hq t, h4 query hq t]
      simp only [List.mem_cons, exists_eq_or_imp]
      constructor
      · rintro ((h | ⟨h9, h10⟩) | h)
        · exact Or.inl h
        · exact Or.inr (Or.inl ⟨h9.symm, h10⟩)
        · exact Or.inr (Or.inr h)
      · rintro (h | ⟨h9, h10⟩ | h)
        · exact Or.inl (Or.inl h)
        · exact Or.inl (Or.inr ⟨h9.symm, h10⟩)
        · exact Or.inr h

/-- The first loop of `makeOctree`: the box it computes is fixed and holds
the box it starts from and the box of every object. -/
theorem union_fold_spec (objects : List (aabb3 × T)) (init : aabb3) (hi : init.Fixed)
    (hobj : ∀ o ∈ objects, o.1.Fixed) :
    (objects.foldl (fun box pr => box.unionWith pr.1) init).Fixed ∧
    (∀ i, (objects.foldl (fun box pr => box.unionWith pr.1) init).m_mins i ≤ init.m_mins i ∧
      init.m_maxs i ≤ (objects.foldl (fun box pr => box.unionWith pr.1) init).m_maxs i) ∧
    ∀ o ∈ objects, ∀ i,
      (objects.foldl (fun box pr => box.unionWith pr.1) init).m_mins i ≤ o.1.m_mins i ∧
      o.1.m_maxs i ≤ (objects.foldl (fun box pr => box.unionWith pr.1) init).m_maxs i := by
  induction objects generalizing init with
  | nil => exact ⟨hi, fun i => ⟨le_refl _, le_refl _⟩, by simp⟩
  | cons a l ih =>
    have ha := hobj a (List.mem_cons_self _ _)
    obtain ⟨h1, h2, h3⟩ := ih (init.unionWith a.1) (aabb.unionWith_fixed _ _)
      (fun o ho => hobj o (List.mem_cons_of_mem _ ho))
    rw [List.foldl_cons]
    refine ⟨h1, ?_, ?_⟩
    · intro i
      exact ⟨le_trans (h2 i).1 (aabb.unionWith_mins_le init a.1 ha i).1,
        le_trans (aabb.unionWith_maxs_ge init a.1 i).1 (h2 i).2⟩
    · intro o ho i
      rcases List.mem_cons.mp ho with rfl | ho1
      · exact ⟨le_trans (h2 i).1 (aabb.unionWith_mins_le init o.1 ha i).2,
          le_trans (aabb.unionWith_maxs_ge init o.1 i).2 (h2 i).2⟩
      · exact h3 o ho1 i

end octree_node_t

/-! ## The octants that split a box at its middle -/

theorem testBit_of_bits (c0 c1 c2 : Bool) :
    c0.toNat + 2 * c1.toNat + 4 * c2.toNat < 8 ∧
    (c0.toNat + 2 * c1.toNat + 4 * c2.toNat).testBit 0 = c0 ∧
    (c0.toNat + 2 * c1.toNat + 4 * c2.toNat).testBit 1 = c1 ∧
    (c0.toNat + 2 * c1.toNat + 4 * c2.toNat).testBit 2 = c2 := by
  cases c0 <;> cases c1 <;> cases c2 <;> decide

theorem aabb.containsPoint_new_of {N : Nat} (mins maxs p : qvec N)
    (h : ∀ i, mins i ≤ p i ∧ p i ≤ maxs i) : (aabb.new mins maxs).containsPoint p = true := by
  rw [aabb.containsPoint_iff]
  intro i
  refine ⟨(h i).1, ?_⟩
  show p i ≤ (aabb.fix _).m_maxs i
  rw [aabb.fix_maxs]
  exact le_trans (h i).2 (le_max_left _ _)

/-- The eight halved octants cover the box they are cut from. -/
theorem bboxOctantHalves_cover (box : aabb3) (p : qvec 3) (hp : box.containsPoint p = true) :
    ∃ i, i < 8 ∧ (bboxOctantHalves box i).containsPoint p = true := by
  rw [aabb.containsPoint_iff] at hp
  obtain ⟨hlt, hb0, hb1, hb2⟩ := testBit_of_bits
    (decide ((box.m_mins 0 + box.m_maxs 0) / 2 ≤ p 0))
    (decide ((box.m_mins 1 + box.m_maxs 1) / 2 ≤ p 1))
    (decide ((box.m_mins 2 + box.m_maxs 2) / 2 ≤ p 2))
  refine ⟨_, hlt, ?_⟩
  unfold bboxOctantHalves
  apply aabb.containsPoint_new_of
  intro j
  have hj := hp j
  have key : ∀ (c : Bool) (m M x : ℚ), m ≤ x → x ≤ M → c = decide ((m + M) / 2 ≤ x) →
      (if c = true then (m + M) / 2 else m) ≤ x ∧ x ≤ (if c = true then M else (m + M) / 2) := by
    intro c m M x h1 h2 hc
    by_cases hmid : (m + M) / 2 ≤ x
    · rw [hc]
      simp only [hmid, decide_True, if_true]
      exact ⟨trivial, h2⟩
    · rw [hc]
      simp only [hmid, decide_False, Bool.false_eq_true, if_false]
      exact ⟨h1, le_of_lt (not_le.mp hmid)⟩
  fin_cases j
  · exact key _ _ _ _ hj.1 hj.2 hb0
  · exact key _ _ _ _ hj.1 hj.2 hb1
  · exact key _ _ _ _ hj.1 hj.2 hb2

/-! ## Lemmas on `std::map` and on the registry -/

namespace stdmap

variable {V : Type}

theorem find_set (m : stdmap V) (k k1 : Int) (v : V) :
    (m.set k v).find k1 = if k1 = k then some v else m.find k1 := by
  induction m with
  | nil =>
    simp only [set, find, List.lookup]
    by_cases h : k1 = k
    · simp [h]
    · have : (k1 == k) = false := by simpa using h
      simp [h, this]
  | cons a l ih =>
    obtain ⟨ka, va⟩ := a
    simp only [set]
    by_cases h1 : k < ka
    · simp only [h1, if_true, find, List.lookup]
      by_cases h : k1 = k
      · simp [h]
      · have : (k1 == k) = false := by simpa using h
        simp [h, this]
    · simp only [h1, if_false]
      by_cases h2 : k = ka
      · subst h2
        simp only [if_true, find, List.lookup]
        by_cases h : k1 = k
        · simp [h]
        · have : (k1 == k) = false := by simpa using h
          simp [h, this]
      · simp only [h2, if_false, find, List.lookup]
        by_cases h : k1 = ka
        · subst h
          have : k1 ≠ k := fun e => h2 e.symm
          simp [this]
        · have hb : (k1 == ka) = false := by simpa using h
          simp only [hb]
          exact ih

theorem mem_set (m : stdmap V) (k : Int) (v : V) (x : Int × V) (h : x ∈ m.set k v) :
    x = (k, v) ∨ x ∈ m := by
  induction m with
  | nil =>
    simp only [set, List.mem_singleton] at h
    exact Or.inl h
  | cons a l ih =>
    obtain ⟨ka, va⟩ := a
    simp only [set] at h
    split_ifs at h with h1 h2
    · rcases List.mem_cons.mp h with h3 | h3
      · exact Or.inl h3
      · exact Or.inr h3
    · rcases List.mem_cons.mp h with h3 | h3
      · exact Or.inl h3
      · exact Or.inr (List.mem_cons_of_mem _ h3)
    · rcases List.mem_cons.mp h with h3 | h3
      · exact Or.inr (h3 ▸ List.mem_cons_self _ _)
      · rcases ih h3 with h4 | h4
        · exact Or.inl h4
        · exact Or.inr (List.mem_cons_of_mem _ h4)

theorem mem_of_find (m : stdmap V) (k : Int) (v : V) (h : m.find k = some v) : (k, v) ∈ m := by
  induction m with
  | nil => simp [find, List.lookup] at h
  | cons a l ih =>
    obtain ⟨ka, va⟩ := a
    simp only [find, List.lookup] at h
    by_cases hk : k = ka
    · subst hk
      simp only [beq_self_eq_true, Option.some.injEq] at h
      subst h
      exact List.mem_cons_self _ _
    · have hb : (k == ka) = false := by simpa using hk
      simp only [hb] at h
      exact List.mem_cons_of_mem _ (ih h)

theorem find_eq_none_iff (m : stdmap V) (k : Int) : m.find k = none ↔ k ∉ m.keys := by
  induction m with
  | nil => simp [find, keys, List.lookup]
  | cons a l ih =>
    obtain ⟨ka, va⟩ := a
    simp only [find, List.lookup, keys, List.map_cons, List.mem_cons, not_or]
    by_cases hk : k = ka
    · subst hk
      simp
    · have hb : (k == ka) = false := by simpa using hk
      simp only [hb]
      constructor
      · intro h
        exact ⟨hk, ih.mp h⟩
      · intro h
        exact ih.mpr h.2

theorem mem_keys_iff (m : stdmap V) (k : Int) : k ∈ m.keys ↔ ∃ v, m.find k = some v := by
  rw [← not_iff_not, ← find_eq_none_iff]
  cases m.find k <;> simp

theorem keys_set (m : stdmap V) (k : Int) (v : V) (k1 : Int) :
    k1 ∈ (m.set k v).keys ↔ k1 = k ∨ k1 ∈ m.keys := by
  rw [mem_keys_iff, mem_keys_iff, find_set]
  by_cases h : k1 = k
  · simp [h]
  · simp [h]

/-- An assignment keeps the keys in increasing order. -/
theorem keys_set_sorted (m : stdmap V) (k : Int) (v : V)
    (h : m.keys.Pairwise (fun a b => a < b)) : (m.set k v).keys.Pairwise (fun a b => a < b) := by
  induction m with
  | nil => simp [set, keys]
  | cons a l ih =>
    obtain ⟨ka, va⟩ := a
    simp only [keys, List.map_cons, List.pairwise_cons] at h
    simp only [set]
    split_ifs with h1 h2
    · simp only [keys, List.map_cons, List.pairwise_cons, List.mem_cons]
      refine ⟨?_, h.1, h.2⟩
      rintro b (hb | hb)
      · exact hb ▸ h1
      · exact lt_trans h1 (h.1 b hb)
    · subst h2
      simp only [keys, List.map_cons, List.pairwise_cons]
      exact h
    · have hlt : ka < k := lt_of_le_of_ne (not_lt.mp h1) (fun e => h2 e.symm)
      have hrec := ih h.2
      simp only [keys, List.map_cons, List.pairwise_cons]
      refine ⟨?_, hrec⟩
      intro b hb
      rcases (keys_set l k v b).mp hb with h3 | h3
      · exact h3 ▸ hlt
      · exact h.1 b h3

theorem nodup_of_sorted (l : List Int) (h : l.Pairwise (fun a b => a < b)) : l.Nodup :=
  h.imp (fun hab => ne_of_lt hab)

theorem index_of_find {m : stdmap V} {k : Int} {v : V} (h : m.find k = some v) (dflt : V) :
    m.index k dflt = v := by
  unfold index
  rw [h]
  rfl

theorem index_of_not_mem {m : stdmap V} {k : Int} (h : k ∉ m.keys) (dflt : V) :
    m.index k dflt = dflt := by
  unfold index
  rw [(find_eq_none_iff m k).mpr h]
  rfl

theorem find_cons_of_ne (kv : Int × V) (m : stdmap V) (k : Int) (h : k ≠ kv.1) :
    find (kv :: m) k = find m k := by
  obtain ⟨ka, va⟩ := kv
  have hb : (k == ka) = false := by simpa using h
  simp only [find, List.lookup, hb]

theorem find_cons_self (k : Int) (v : V) (m : stdmap V) : find ((k, v) :: m) k = some v := by
  simp [find, List.lookup]

end stdmap

/-- What a successful `AddBounceLight` does to the registry. -/
theorem AddBounceLight_spec (env : Collaborators) (pos : qvec3d) (colorByStyle : stdmap qvec3f)
    (surfnormal : qvec3d) (area : ℚ) (face : mface_ptr) (st st1 : Registry)
    (h : AddBounceLight env pos colorByStyle surfnormal area face st = some st1) :
    st1.radlights =
      st.radlights ++ [AddBounceLight.record env pos colorByStyle surfnormal area face] ∧
    ∀ f, BounceLightsForFaceNum st1 f =
      if f = Face_GetNum face then BounceLightsForFaceNum st f ++ [(st.radlights.length : Int)]
      else BounceLightsForFaceNum st f := by
  unfold AddBounceLight at h
  split_ifs at h with h1 h2
  simp only [Option.some.injEq] at h
  subst h
  refine ⟨rfl, ?_⟩
  intro f
  simp only [BounceLightsForFaceNum, stdmap.find_set, stdmap.index]
  by_cases hf : f = Face_GetNum face
  · subst hf
    simp only [if_true, List.length_append, List.length_singleton, Nat.cast_add, Nat.cast_one,
      add_sub_cancel_right]
    cases st.radlightsByFacenum.find (Face_GetNum face) <;> rfl
  · simp only [hf, if_false]

theorem indexConsistent_empty (env : Collaborators) : IndexConsistent env Registry.empty := by
  refine ⟨?_, ?_, ?_, ?_⟩
  · intro f i hi
    simp [BounceLightsForFaceNum, Registry.empty, stdmap.find] at hi
  · intro i h0 h1
    simp only [BounceLights, Registry.empty, List.length_nil, Nat.cast_zero] at h1
    omega
  · intro f f1 i hi
    simp [BounceLightsForFaceNum, Registry.empty, stdmap.find] at hi
  · intro f
    simp [BounceLightsForFaceNum, Registry.empty, stdmap.find]

/-- One successful `AddBounceLight` keeps the registry index-consistent. -/
theorem indexConsistent_add (env : Collaborators) (pos : qvec3d) (colorByStyle : stdmap qvec3f)
    (surfnormal : qvec3d) (area : ℚ) (face : mface_ptr) (st st1 : Registry)
    (hst : IndexConsistent env st)
    (h : AddBounceLight env pos colorByStyle surfnormal area face st = some st1) :
    IndexConsistent env st1 := by
  obtain ⟨h1, h2⟩ := AddBounceLight_spec env pos colorByStyle surfnormal area face st st1 h
  obtain ⟨i1, i2, i3, i4⟩ := hst
  simp only [BounceLights] at i1 i2 ⊢
  have hfresh : ∀ f, (st.radlights.length : Int) ∉ BounceLightsForFaceNum st f := by
    intro f hmem
    have := (i1 f _ hmem).2.1
    omega
  refine ⟨?_, ?_, ?_, ?_⟩
  · intro f i hi
    simp only [BounceLights]
    rw [h1, List.length_append, List.length_singleton]
    rw [h2 f] at hi
    have hold : i ∈ BounceLightsForFaceNum st f → 0 ≤ i ∧
        i < ((st.radlights.length + 1 : Nat) : Int) ∧
        ∃ (face1 : mface_ptr) (l : bouncelight_t), Face_GetNum face1 = f ∧
          (st.radlights ++ [AddBounceLight.record env pos colorByStyle surfnormal area face])[
            i.toNat]? = some l ∧ l.poly = env.GLM_FacePoints face1 := by
      intro hmem
      obtain ⟨a1, a2, face1, l, a3, a4, a5⟩ := i1 f i hmem
      refine ⟨a1, by push_cast; omega, face1, l, a3, ?_, a5⟩
      rw [List.getElem?_append_left (by omega)]
      exact a4
    by_cases hf : f = Face_GetNum face
    · rw [if_pos hf, List.mem_append, List.mem_singleton] at hi
      rcases hi with hi | hi
      · exact hold hi
      · subst hi
        refine ⟨by omega, by push_cast; omega, face,
          AddBounceLight.record env pos colorByStyle surfnormal area face, hf.symm, ?_, rfl⟩
        rw [Int.toNat_ofNat, List.getElem?_append_right (le_refl _)]
        simp
    · rw [if_neg hf] at hi
      exact hold hi
  · intro i h0 hlt
    simp only [BounceLights] at hlt
    rw [h1, List.length_append, List.length_singleton] at hlt
    by_cases hi : i < (st.radlights.length : Int)
    · obtain ⟨f, hf⟩ := i2 i h0 hi
      refine ⟨f, ?_⟩
      rw [h2 f]
      split_ifs
      · exact List.mem_append_left _ hf
      · exact hf
    · have : i = (st.radlights.length : Int) := by push_cast at hlt; omega
      subst this
      refine ⟨Face_GetNum face, ?_⟩
      rw [h2, if_pos rfl]
      exact List.mem_append_right _ (List.mem_singleton.mpr rfl)
  · intro f f1 i hi hi1
    rw [h2 f] at hi
    rw [h2 f1] at hi1
    by_cases hf : f = Face_GetNum face <;> by_cases hf1 : f1 = Face_GetNum face
    · rw [hf, hf1]
    · rw [if_pos hf, List.mem_append, List.mem_singleton] at hi
      rw [if_neg hf1] at hi1
      rcases hi with hi | hi
      · exact i3 _ _ _ (hf ▸ hi) hi1
      · subst hi
        exact absurd hi1 (hfresh f1)
    · rw [if_neg hf] at hi
      rw [if_pos hf1, List.mem_append, List.mem_singleton] at hi1
      rcases hi1 with hi1 | hi1
      · exact i3 _ _ _ hi (hf1 ▸ hi1)
      · subst hi1
        exact absurd hi (hfresh f)
    · rw [if_neg hf] at hi
      rw [if_neg hf1] at hi1
      exact i3 _ _ _ hi hi1
  · intro f
    rw [h2 f]
    split_ifs
    · rw [List.nodup_append]
      refine ⟨i4 f, List.nodup_singleton _, ?_⟩
      intro a ha hb
      rw [List.mem_singleton] at hb
      subst hb
      exact hfresh f ha
    · exact i4 f

theorem indexConsistent_run (env : Collaborators) (calls : List AddBounceLightCall)
    (st st1 : Registry) (hst : IndexConsistent env st)
    (h : runAddBounceLight env calls st = some st1) : IndexConsistent env st1 := by
  induction calls generalizing st with
  | nil =>
    simp only [runAddBounceLight, Option.some.injEq] at h
    exact h ▸ hst
  | cons call rest ih =>
    simp only [runAddBounceLight] at h
    cases hadd : AddBounceLight env call.pos call.colorByStyle call.surfnormal call.area
        call.face st with
    | none => simp [hadd] at h
    | some st2 =>
      rw [hadd] at h
      exact ih st2 (indexConsistent_add env _ _ _ _ _ st st2 hst hadd) h

/-! ## Claims on the registry -/

/-- C4: starting from the empty registry, after any sequence of successful
`AddBounceLight` calls, every entry `i` of `BounceLightsForFaceNum(f)` is a
valid index of `BounceLights()` and the record there holds the points of the
face numbered `f`; and every index below the size occurs in the list of
exactly one face number, exactly once. -/
theorem registry_index_consistency (env : Collaborators) (calls : List AddBounceLightCall)
    (st : Registry) (h : runAddBounceLight env calls Registry.empty = some st) :
    (∀ (f i : Int), i ∈ BounceLightsForFaceNum st f →
      0 ≤ i ∧ i < ((BounceLights st).length : Int) ∧
      ∃ (face : mface_ptr) (l : bouncelight_t), Face_GetNum face = f ∧
        (BounceLights st)[i.toNat]? = some l ∧ l.poly = env.GLM_FacePoints face) ∧
    (∀ i : Int, 0 ≤ i → i < ((BounceLights st).length : Int) →
      (∃! f, i ∈ BounceLightsForFaceNum st f) ∧
      ∀ f, i ∈ BounceLightsForFaceNum st f → (BounceLightsForFaceNum st f).count i = 1) := by
  obtain ⟨h1, h2, h3, h4⟩ :=
    indexConsistent_run env calls Registry.empty st (indexConsistent_empty env) h
  refine ⟨h1, ?_⟩
  intro i h0 hlt
  obtain ⟨f, hf⟩ := h2 i h0 hlt
  refine ⟨⟨f, hf, fun f1 hf1 => h3 f1 f i hf1 hf⟩, ?_⟩
  intro f1 hf1
  exact List.count_eq_one_of_mem (h4 f1) hf1

/-- Witness of C4: three calls, two of them for face 0. -/
theorem registry_index_consistency_witness :
    ∃ st,
      runAddBounceLight sampleLevel
        [⟨![0, 0, 1], [(0, ![1, 1, 1])], ![0, 0, 1], 4, 0⟩,
          ⟨![2, 0, 1], [(0, ![1, 0, 1])], ![0, 0, 1], 4, 2⟩,
          ⟨![0, 0, 1], [(0, ![1, 1, 0])], ![0, 0, 1], 4, 0⟩] Registry.empty = some st ∧
      (∀ (f i : Int), i ∈ BounceLightsForFaceNum st f →
        0 ≤ i ∧ i < ((BounceLights st).length : Int) ∧
        ∃ (face : mface_ptr) (l : bouncelight_t), Face_GetNum face = f ∧
          (BounceLights st)[i.toNat]? = some l ∧ l.poly = sampleLevel.GLM_FacePoints face) ∧
      (∀ i : Int, 0 ≤ i → i < ((BounceLights st).length : Int) →
        (∃! f, i ∈ BounceLightsForFaceNum st f) ∧
        ∀ f, i ∈ BounceLightsForFaceNum st f → (BounceLightsForFaceNum st f).count i = 1) := by
  cases h : runAddBounceLight sampleLevel
      [⟨![0, 0, 1], [(0, ![1, 1, 1])], ![0, 0, 1], 4, 0⟩,
        ⟨![2, 0, 1], [(0, ![1, 0, 1])], ![0, 0, 1], 4, 2⟩,
        ⟨![0, 0, 1], [(0, ![1, 1, 0])], ![0, 0, 1], 4, 0⟩] Registry.empty with
  | none =>
    simp [runAddBounceLight, AddBounceLight] at h
  | some st =>
    exact ⟨st, rfl, registry_index_consistency sampleLevel _ st h⟩

/-! ## Claims on face eligibility -/

/-- The decision of `Face_ShouldBounce`, condition by condition. -/
theorem Face_ShouldBounce_iff (env : Collaborators) (face : mface_ptr) :
    Face_ShouldBounce env face = true ↔
      (∃ mi, env.ModelInfoForFace (Face_GetNum face) = some mi ∧ mi.shadow = true) ∧
      env.Face_IsLightmapped face = true ∧
      Q_strcasecmp "skip" (env.Face_TextureName face) ≠ 0 ∧
      (env.extended_texinfo_flags (env.texinfo face)).no_bounce = false := by
  unfold Face_ShouldBounce
  cases hmi : env.ModelInfoForFace (Face_GetNum face) with
  | none => simp
  | some mi =>
    simp only [Option.some.injEq, exists_eq_left']
    cases h1 : mi.shadow
    · simp
    · cases h2 : env.Face_IsLightmapped face
      · simp
      · by_cases h3 : Q_strcasecmp "skip" (env.Face_TextureName face) = 0
        · simp [h3]
        · cases h4 : (env.extended_texinfo_flags (env.texinfo face)).no_bounce
          · simp [h3]
          · simp [h3]

/-- C6, as the code has it: `Face_ShouldBounce(face)` is true exactly when
the owning model has shadow casting enabled, the face is lightmapped, the
texture name does not compare equal to "skip" under the comparison
`Q_strcasecmp`, which ignores case, and the extended texinfo flags do not
set `no_bounce`; in every other case it is false. -/
theorem Face_ShouldBounce_spec (env : Collaborators) (face : mface_ptr) :
    (Face_ShouldBounce env face = true ↔
      (∃ mi, env.ModelInfoForFace (Face_GetNum face) = some mi ∧ mi.shadow = true) ∧
      env.Face_IsLightmapped face = true ∧
      Q_strcasecmp "skip" (env.Face_TextureName face) ≠ 0 ∧
      (env.extended_texinfo_flags (env.texinfo face)).no_bounce = false) ∧
    (Face_ShouldBounce env face = false ↔
      ¬ ((∃ mi, env.ModelInfoForFace (Face_GetNum face) = some mi ∧ mi.shadow = true) ∧
        env.Face_IsLightmapped face = true ∧
        Q_strcasecmp "skip" (env.Face_TextureName face) ≠ 0 ∧
        (env.extended_texinfo_flags (env.texinfo face)).no_bounce = false)) := by
  refine ⟨Face_ShouldBounce_iff env face, ?_⟩
  rw [← Face_ShouldBounce_iff env face]
  simp

/-- C6 as stated fails: face 1 of the sample level belongs to a shadow-casting
model, is lightmapped, is not flagged `no_bounce` and its texture name `SKIP`
is not the literal string "skip", yet `Face_ShouldBounce` returns false. -/
theorem Face_ShouldBounce_literal_skip_counterexample :
    (∃ mi, sampleLevel.ModelInfoForFace (Face_GetNum 1) = some mi ∧ mi.shadow = true) ∧
    sampleLevel.Face_IsLightmapped 1 = true ∧
    sampleLevel.Face_TextureName 1 ≠ "skip" ∧
    (sampleLevel.extended_texinfo_flags (sampleLevel.texinfo 1)).no_bounce = false ∧
    Face_ShouldBounce sampleLevel 1 = false := by
  refine ⟨⟨{ shadow := true }, rfl, rfl⟩, rfl, by decide, rfl, by decide⟩

/-! ## Claims on `MakeBounceLightsThread` -/

/-- The early returns of `MakeBounceLightsThread`: when one of the four tests
rejects the face the registry is returned as it was. -/
theorem MakeBounceLightsThread_rejected (env : Collaborators) (face : mface_ptr) (st : Registry)
    (h : ¬ (Face_ShouldBounce env face = true ∧
      env.area (env.from_face face) ≠ 0 ∧
      1 ≤ (MakeBounceLightsThread.accumulate env (MakeBounceLightsThread.patches env face)).2 ∧
      emptyExact (MakeBounceLightsThread.total (MakeBounceLightsThread.normalized
        (MakeBounceLightsThread.accumulate env (MakeBounceLightsThread.patches env face)).1
        (MakeBounceLightsThread.accumulate env (MakeBounceLightsThread.patches env face)).2))
        = false)) :
    MakeBounceLightsThread env face st = some st := by
  unfold MakeBounceLightsThread
  by_cases h1 : Face_ShouldBounce env face = false
  · simp [h1]
  by_cases h2 : env.area (env.from_face face) = 0
  · simp [h1, h2]
  by_cases h3 : (MakeBounceLightsThread.accumulate env
      (MakeBounceLightsThread.patches env face)).2 < 1
  · simp [h1, h2, h3]
  by_cases h4 : emptyExact (MakeBounceLightsThread.total (MakeBounceLightsThread.normalized
      (MakeBounceLightsThread.accumulate env (MakeBounceLightsThread.patches env face)).1
      (MakeBounceLightsThread.accumulate env (MakeBounceLightsThread.patches env face)).2))
      = true
  · simp [h1, h2, h3, h4]
  exfalso
  apply h
  refine ⟨by simpa using h1, h2, not_lt.mp h3, by simpa using h4⟩

/-- Past the four tests `MakeBounceLightsThread` ends in its call of
`AddBounceLight`. -/
theorem MakeBounceLightsThread_accepted (env : Collaborators) (face : mface_ptr) (st : Registry)
    (h : Face_ShouldBounce env face = true ∧
      env.area (env.from_face face) ≠ 0 ∧
      1 ≤ (MakeBounceLightsThread.accumulate env (MakeBounceLightsThread.patches env face)).2 ∧
      emptyExact (MakeBounceLightsThread.total (MakeBounceLightsThread.normalized
        (MakeBounceLightsThread.accumulate env (MakeBounceLightsThread.patches env face)).1
        (MakeBounceLightsThread.accumulate env (MakeBounceLightsThread.patches env face)).2))
        = false) :
    MakeBounceLightsThread env face st =
      AddBounceLight env
        (fun i => env.center (env.from_face face) i + (env.plane (env.from_face face)).normal i)
        (MakeBounceLightsThread.emitcolors
          (MakeBounceLightsThread.normalized
            (MakeBounceLightsThread.accumulate env (MakeBounceLightsThread.patches env face)).1
            (MakeBounceLightsThread.accumulate env (MakeBounceLightsThread.patches env face)).2)
          (MakeBounceLightsThread.blendedcolor env face))
        (env.plane (env.from_face face)).normal (env.area (env.from_face face)) face st := by
  obtain ⟨h1, h2, h3, h4⟩ := h
  unfold MakeBounceLightsThread
  simp [h1, h2, not_lt.mpr h3, h4]

/-- The assertions of `AddBounceLight` decide between an append and an abort. -/
theorem AddBounceLight_some_iff (env : Collaborators) (pos : qvec3d)
    (colorByStyle : stdmap qvec3f) (surfnormal : qvec3d) (area : ℚ) (face : mface_ptr)
    (st : Registry) :
    (∃ st1, AddBounceLight env pos colorByStyle surfnormal area face st = some st1) ↔
      (∀ styleColor ∈ colorByStyle, ∀ k, 0 ≤ styleColor.2 k) ∧ 0 < area := by
  have hall : (colorByStyle.all fun styleColor =>
      decide (styleColor.2 0 ≥ 0) && decide (styleColor.2 1 ≥ 0) && decide (styleColor.2 2 ≥ 0))
      = true ↔ ∀ styleColor ∈ colorByStyle, ∀ k, 0 ≤ styleColor.2 k := by
    simp only [List.all_eq_true, Bool.and_eq_true, decide_eq_true_eq, ge_iff_le,
      Fin.forall_fin_succ, Fin.succ_zero_eq_one, Fin.succ_one_eq_two]
    constructor
    · intro h x hx
      exact ⟨(h x hx).1.1, (h x hx).1.2, (h x hx).2, fun i => i.elim0⟩
    · intro h x hx
      exact ⟨⟨(h x hx).1, (h x hx).2.1⟩, (h x hx).2.2.1⟩
  unfold AddBounceLight
  by_cases h1 : (colorByStyle.all fun styleColor =>
      decide (styleColor.2 0 ≥ 0) && decide (styleColor.2 1 ≥ 0) && decide (styleColor.2 2 ≥ 0))
      = true
  · by_cases h2 : area > 0
    · rw [if_neg (by simp [h1]), if_neg (not_not.mpr h2)]
      exact ⟨fun _ => ⟨hall.mp h1, h2⟩, fun _ => ⟨_, rfl⟩⟩
    · rw [if_neg (by simp [h1]), if_pos h2]
      constructor
      · rintro ⟨st1, hst1⟩
        exact absurd hst1 (by simp)
      · rintro ⟨-, h3⟩
        exact absurd h3 h2
  · have h1f : (colorByStyle.all fun styleColor =>
        decide (styleColor.2 0 ≥ 0) && decide (styleColor.2 1 ≥ 0) &&
          decide (styleColor.2 2 ≥ 0)) = false := by simpa using h1
    rw [if_pos h1f]
    constructor
    · rintro ⟨st1, hst1⟩
      exact absurd hst1 (by simp)
    · rintro ⟨h3, -⟩
      exact absurd (hall.mpr h3) h1

/-- One call of `MakeBounceLightsThread` changes the index list of at most the
number of its own face, and only when the face is eligible. -/
theorem MakeBounceLightsThread_index (env : Collaborators) (face : mface_ptr)
    (st st1 : Registry) (h : MakeBounceLightsThread env face st = some st1) (f : Int) :
    BounceLightsForFaceNum st1 f = BounceLightsForFaceNum st f ∨
      (f = Face_GetNum face ∧ Face_ShouldBounce env face = true) := by
  by_cases hp : MakeBounceLightsThread.Passes env face
  · rw [MakeBounceLightsThread_accepted env face st hp] at h
    have h2 := (AddBounceLight_spec env _ _ _ _ face st st1 h).2 f
    by_cases hf : f = Face_GetNum face
    · exact Or.inr ⟨hf, hp.1⟩
    · rw [if_neg hf] at h2
      exact Or.inl h2
  · rw [MakeBounceLightsThread_rejected env face st hp] at h
    simp only [Option.some.injEq] at h
    subst h
    exact Or.inl rfl

/-- Only eligible faces get an entry in the face-index map. -/
theorem runThreads_index (env : Collaborators) (faces : List mface_ptr) (st st1 : Registry)
    (hst : ∀ f, BounceLightsForFaceNum st f ≠ [] →
      ∃ face, Face_GetNum face = f ∧ Face_ShouldBounce env face = true)
    (h : runThreads env faces st = some st1) :
    ∀ f, BounceLightsForFaceNum st1 f ≠ [] →
      ∃ face, Face_GetNum face = f ∧ Face_ShouldBounce env face = true := by
  induction faces generalizing st with
  | nil =>
    simp only [runThreads, Option.some.injEq] at h
    exact h ▸ hst
  | cons face rest ih =>
    simp only [runThreads] at h
    cases hcall : MakeBounceLightsThread env face st with
    | none => simp [hcall] at h
    | some st2 =>
      rw [hcall] at h
      refine ih st2 ?_ h
      intro f hf
      rcases MakeBounceLightsThread_index env face st st2 hcall f with h1 | ⟨h1, h2⟩
      · exact hst f (h1 ▸ hf)
      · exact ⟨face, h1.symm, h2⟩

/-- C7: starting from the empty registry, after any number of
`MakeBounceLightsThread` calls, a face whose model has shadow casting
disabled, or whose texture is named "skip", or whose texinfo is flagged
`no_bounce`, has no entry in the face-index map. -/
theorem ineligible_face_never_indexed (env : Collaborators) (faces : List mface_ptr)
    (st : Registry) (h : runThreads env faces Registry.empty = some st) (face : mface_ptr)
    (hface : (¬ ∃ mi, env.ModelInfoForFace (Face_GetNum face) = some mi ∧ mi.shadow = true) ∨
      env.Face_TextureName face = "skip" ∨
      (env.extended_texinfo_flags (env.texinfo face)).no_bounce = true) :
    BounceLightsForFaceNum st (Face_GetNum face) = [] := by
  by_contra hne
  obtain ⟨face1, h1, h2⟩ := runThreads_index env faces Registry.empty st
    (fun f hf => absurd (by simp [BounceLightsForFaceNum, Registry.empty, stdmap.find]) hf)
    h (Face_GetNum face) hne
  have heq : face1 = face := by
    unfold Face_GetNum at h1
    exact_mod_cast h1
  subst heq
  obtain ⟨h3, -, h5, h6⟩ := (Face_ShouldBounce_iff env face1).mp h2
  rcases hface with hf | hf | hf
  · exact hf h3
  · rw [hf] at h5
    exact h5 (by decide)
  · rw [hf] at h6
    exact absurd h6 (by simp)

/-- Witness of C7: face 3 of the sample level, textured "skip", after the
calls for faces 0, 3 and 1. -/
theorem ineligible_face_never_indexed_witness :
    ∃ st, runThreads sampleLevel [0, 3, 1] Registry.empty = some st ∧
      BounceLightsForFaceNum st (Face_GetNum 3) = [] := by
  cases h : runThreads sampleLevel [0, 3, 1] Registry.empty with
  | none =>
    have hs : (runThreads sampleLevel [0, 3, 1] Registry.empty).isSome = true := by decide!
    rw [h] at hs
    exact absurd hs (by simp)
  | some st =>
    exact ⟨st, rfl, ineligible_face_never_indexed sampleLevel [0, 3, 1] st h 3
      (Or.inr (Or.inl rfl))⟩

/-! ## A face that receives no light -/

namespace MakeBounceLightsThread

theorem index_zero (sum : stdmap qvec3f) (hsum : ∀ x ∈ sum, ∀ k, x.2 k = 0) (s : Int)
    (k : Fin 3) : sum.index s (qvec.splat 3 0) k = 0 := by
  unfold stdmap.index
  cases h : sum.find s with
  | none => rfl
  | some v => exact hsum _ (stdmap.mem_of_find sum s v h) k

theorem addPatch_zero (sum light : stdmap qvec3f) (patcharea : ℚ)
    (hsum : ∀ x ∈ sum, ∀ k, x.2 k = 0) (hlight : ∀ x ∈ light, ∀ k, x.2 k = 0) :
    ∀ x ∈ addPatch sum light patcharea, ∀ k, x.2 k = 0 := by
  induction light generalizing sum with
  | nil => exact hsum
  | cons a l ih =>
    unfold addPatch
    rw [List.foldl_cons]
    apply ih
    · intro x hx k
      rcases stdmap.mem_set _ _ _ _ hx with h1 | h1
      · subst h1
        simp only
        rw [index_zero sum hsum, hlight a (List.mem_cons_self _ _) k]
        ring
      · exact hsum x h1 k
    · exact fun x hx => hlight x (List.mem_cons_of_mem _ hx)

theorem accumulate_zero (env : Collaborators) (ps : List patch_t)
    (h : ∀ p ∈ ps, ∀ x ∈ p.lightByStyle, ∀ k, x.2 k = 0) :
    ∀ x ∈ (accumulate env ps).1, ∀ k, x.2 k = 0 := by
  unfold accumulate
  have key : ∀ (acc : stdmap qvec3f × ℚ), (∀ x ∈ acc.1, ∀ k, x.2 k = 0) →
      ∀ x ∈ (ps.foldl (fun acc patch =>
        (addPatch acc.1 patch.lightByStyle (env.area patch.w), acc.2 + env.area patch.w))
        acc).1, ∀ k, x.2 k = 0 := by
    induction ps with
    | nil => exact fun acc hacc => hacc
    | cons p l ih =>
      intro acc hacc
      rw [List.foldl_cons]
      apply ih (fun q hq => h q (List.mem_cons_of_mem _ hq))
      exact addPatch_zero acc.1 p.lightByStyle _ hacc (h p (List.mem_cons_self _ _))
  exact key ([], 0) (by simp)

theorem total_zero (sum : stdmap qvec3f) (h : ∀ x ∈ sum, ∀ k, x.2 k = 0) (k : Fin 3) :
    total sum k = 0 := by
  unfold total
  have key : ∀ (t : qvec3f), t k = 0 →
      sum.foldl (fun total styleColor => fun k => total k + styleColor.2 k) t k = 0 := by
    induction sum with
    | nil => exact fun t ht => ht
    | cons a l ih =>
      intro t ht
      rw [List.foldl_cons]
      apply ih (fun x hx => h x (List.mem_cons_of_mem _ hx))
      simp only [ht, h a (List.mem_cons_self _ _) k, add_zero]
  exact key _ rfl

end MakeBounceLightsThread

/-- C8: when the sampler returns the colour (0,0,0) for every style at every
patch of a face, or no style at all, `MakeBounceLightsThread` returns with
the registry unchanged, whatever the patch areas, the texture colour and the
blend scalar are. -/
theorem zero_light_rejected (env : Collaborators) (face : mface_ptr) (st : Registry)
    (hzero : ∀ p ∈ MakeBounceLightsThread.patches env face,
      ∀ styleColor ∈ p.lightByStyle, ∀ k, styleColor.2 k = 0) :
    MakeBounceLightsThread env face st = some st := by
  apply MakeBounceLightsThread_rejected
  rintro ⟨-, -, -, h⟩
  have hz := MakeBounceLightsThread.accumulate_zero env _ hzero
  have hn : ∀ x ∈ MakeBounceLightsThread.normalized
      (MakeBounceLightsThread.accumulate env (MakeBounceLightsThread.patches env face)).1
      (MakeBounceLightsThread.accumulate env (MakeBounceLightsThread.patches env face)).2,
      ∀ k, x.2 k = 0 := by
    intro x hx k
    unfold MakeBounceLightsThread.normalized at hx
    obtain ⟨y, hy, rfl⟩ := List.mem_map.mp hx
    simp only [hz y hy k, zero_mul, zero_div]
  have ht := MakeBounceLightsThread.total_zero _ hn
  have : emptyExact (MakeBounceLightsThread.total (MakeBounceLightsThread.normalized
      (MakeBounceLightsThread.accumulate env (MakeBounceLightsThread.patches env face)).1
      (MakeBounceLightsThread.accumulate env (MakeBounceLightsThread.patches env face)).2))
      = true := by
    simp only [emptyExact, List.all_eq_true, decide_eq_true_eq]
    exact fun i _ => ht i
  rw [this] at h
  exact absurd h (by simp)

/-- Witness of C8: face 0 of the dark level. -/
theorem zero_light_rejected_witness :
    MakeBounceLightsThread darkLevel 0 Registry.empty = some Registry.empty :=
  zero_light_rejected darkLevel 0 Registry.empty (by
    intro p hp styleColor hsc k
    simp only [MakeBounceLightsThread.patches, darkLevel, sampleLevel, List.map_cons,
      List.map_nil, List.mem_singleton] at hp
    subst hp
    simp only [MakePatch, List.mem_singleton] at hsc
    subst hsc
    fin_cases k <;> rfl)

/-! ## The area-weighted sums -/

namespace MakeBounceLightsThread

/-- One patch adds, under each of its styles, its colour times its area. -/
theorem addPatch_index (sum light : stdmap qvec3f) (patcharea : ℚ) (hl : light.keys.Nodup)
    (s : Int) (k : Fin 3) :
    (addPatch sum light patcharea).index s (qvec.splat 3 0) k =
      sum.index s (qvec.splat 3 0) k + light.index s (qvec.splat 3 0) k * patcharea := by
  induction light generalizing sum with
  | nil =>
    simp [addPatch, stdmap.index, stdmap.find, List.lookup, qvec.splat]
  | cons a l ih =>
    obtain ⟨ka, va⟩ := a
    simp only [stdmap.keys, List.map_cons, List.nodup_cons] at hl
    have hrec := ih (sum.set ka (fun k => sum.index ka (qvec.splat 3 0) k + va k * patcharea))
      hl.2
    have hunf : addPatch sum ((ka, va) :: l) patcharea =
        addPatch (sum.set ka (fun k => sum.index ka (qvec.splat 3 0) k + va k * patcharea))
          l patcharea := rfl
    rw [hunf, hrec]
    by_cases hs : s = ka
    · subst hs
      have h1 : stdmap.index l s (qvec.splat 3 0) = qvec.splat 3 0 :=
        stdmap.index_of_not_mem hl.1 _
      have h2 : (sum.set s (fun k => sum.index s (qvec.splat 3 0) k + va k * patcharea)).index s
          (qvec.splat 3 0) = fun k => sum.index s (qvec.splat 3 0) k + va k * patcharea :=
        stdmap.index_of_find (by rw [stdmap.find_set, if_pos rfl]) _
      have h3 : stdmap.index ((s, va) :: l) s (qvec.splat 3 0) = va :=
        stdmap.index_of_find (stdmap.find_cons_self s va l) _
      rw [h1, h2, h3]
      simp [qvec.splat]
    · have h2 : (sum.set ka (fun k => sum.index ka (qvec.splat 3 0) k + va k * patcharea)).index
          s (qvec.splat 3 0) = sum.index s (qvec.splat 3 0) := by
        unfold stdmap.index
        rw [stdmap.find_set, if_neg hs]
      have h3 : stdmap.index ((ka, va) :: l) s (qvec.splat 3 0) =
          stdmap.index l s (qvec.splat 3 0) := by
        unfold stdmap.index
        rw [stdmap.find_cons_of_ne (ka, va) l s hs]
      rw [h2, h3]

theorem addPatch_keys (sum light : stdmap qvec3f) (patcharea : ℚ) (s : Int) :
    s ∈ (addPatch sum light patcharea).keys ↔ s ∈ sum.keys ∨ s ∈ light.keys := by
  induction light generalizing sum with
  | nil => simp [addPatch, stdmap.keys]
  | cons a l ih =>
    have hunf : addPatch sum (a :: l) patcharea =
        addPatch (sum.set a.1 (fun k => sum.index a.1 (qvec.splat 3 0) k + a.2 k * patcharea))
          l patcharea := rfl
    rw [hunf, ih, stdmap.keys_set]
    simp only [stdmap.keys, List.map_cons, List.mem_cons]
    tauto

theorem addPatch_sorted (sum light : stdmap qvec3f) (patcharea : ℚ)
    (h : sum.keys.Pairwise (fun a b => a < b)) :
    (addPatch sum light patcharea).keys.Pairwise (fun a b => a < b) := by
  induction light generalizing sum with
  | nil => exact h
  | cons a l ih =>
    have hunf : addPatch sum (a :: l) patcharea =
        addPatch (sum.set a.1 (fun k => sum.index a.1 (qvec.splat 3 0) k + a.2 k * patcharea))
          l patcharea := rfl
    rw [hunf]
    exact ih _ (stdmap.keys_set_sorted sum _ _ h)

/-- The loop over the patches, from any intermediate state. -/
theorem accumulate_from (env : Collaborators) (ps : List patch_t)
    (hps : ∀ p ∈ ps, p.lightByStyle.keys.Nodup) (acc : stdmap qvec3f × ℚ)
    (hacc : acc.1.keys.Pairwise (fun a b => a < b)) :
    (ps.foldl (fun acc patch =>
        (addPatch acc.1 patch.lightByStyle (env.area patch.w), acc.2 + env.area patch.w))
        acc).2 = acc.2 + (ps.map fun p => env.area p.w).sum ∧
    (ps.foldl (fun acc patch =>
        (addPatch acc.1 patch.lightByStyle (env.area patch.w), acc.2 + env.area patch.w))
        acc).1.keys.Pairwise (fun a b => a < b) ∧
    (∀ s, s ∈ (ps.foldl (fun acc patch =>
        (addPatch acc.1 patch.lightByStyle (env.area patch.w), acc.2 + env.area patch.w))
        acc).1.keys ↔ s ∈ acc.1.keys ∨ ∃ p ∈ ps, s ∈ p.lightByStyle.keys) ∧
    ∀ s k, (ps.foldl (fun acc patch =>
        (addPatch acc.1 patch.lightByStyle (env.area patch.w), acc.2 + env.area patch.w))
        acc).1.index s (qvec.splat 3 0) k =
      acc.1.index s (qvec.splat 3 0) k +
        (ps.map fun p => p.lightByStyle.index s (qvec.splat 3 0) k * env.area p.w).sum := by
  induction ps generalizing acc with
  | nil => exact ⟨by simp, hacc, by simp, by simp⟩
  | cons p l ih =>
    rw [List.foldl_cons]
    obtain ⟨h1, h2, h3, h4⟩ := ih (fun q hq => hps q (List.mem_cons_of_mem _ hq))
      (addPatch acc.1 p.lightByStyle (env.area p.w), acc.2 + env.area p.w)
      (addPatch_sorted _ _ _ hacc)
    refine ⟨?_, h2, ?_, ?_⟩
    · rw [h1]
      simp only [List.map_cons, List.sum_cons]
      ring
    · intro s
      rw [h3 s]
      simp only [addPatch_keys, List.mem_cons, exists_eq_or_imp]
      tauto
    · intro s k
      rw [h4 s k]
      simp only [addPatch_index _ _ _ (hps p (List.mem_cons_self _ _)), List.map_cons,
        List.sum_cons]
      ring

/-- The pair (`sum`, `totalarea`) after the loop over the patches. -/
theorem accumulate_spec (env : Collaborators) (ps : List patch_t)
    (hps : ∀ p ∈ ps, p.lightByStyle.keys.Nodup) :
    (accumulate env ps).2 = (ps.map fun p => env.area p.w).sum ∧
    (accumulate env ps).1.keys.Pairwise (fun a b => a < b) ∧
    (∀ s, s ∈ (accumulate env ps).1.keys ↔ ∃ p ∈ ps, s ∈ p.lightByStyle.keys) ∧
    ∀ s k, (accumulate env ps).1.index s (qvec.splat 3 0) k =
      (ps.map fun p => p.lightByStyle.index s (qvec.splat 3 0) k * env.area p.w).sum := by
  obtain ⟨h1, h2, h3, h4⟩ := accumulate_from env ps hps ([], 0) (by simp [stdmap.keys])
  have e : accumulate env ps = ps.foldl (fun acc patch =>
      (addPatch acc.1 patch.lightByStyle (env.area patch.w), acc.2 + env.area patch.w))
      ([], 0) := rfl
  rw [e]
  refine ⟨by simpa using h1, h2, ?_, ?_⟩
  · intro s
    rw [h3 s]
    simp [stdmap.keys]
  · intro s k
    rw [h4 s k]
    simp [stdmap.index, stdmap.find, List.lookup, qvec.splat]

end MakeBounceLightsThread

/-! ## Normalisation and texture blend -/

namespace MakeBounceLightsThread

theorem normalized_find (sum : stdmap qvec3f) (t : ℚ) (s : Int) :
    (normalized sum t).find s =
      (sum.find s).map fun v => fun k => v k * (1 / t) / 255 := by
  induction sum with
  | nil => rfl
  | cons a l ih =>
    obtain ⟨ka, va⟩ := a
    by_cases hs : s = ka
    · subst hs
      simp [normalized, stdmap.find, List.lookup]
    · have e : normalized ((ka, va) :: l) t =
          (ka, fun k => va k * (1 / t) / 255) :: normalized l t := rfl
      rw [e, stdmap.find_cons_of_ne _ _ s hs, stdmap.find_cons_of_ne _ _ s hs, ih]

theorem normalized_keys (sum : stdmap qvec3f) (t : ℚ) : (normalized sum t).keys = sum.keys := by
  simp [normalized, stdmap.keys, List.map_map, Function.comp_def]

/-- The loop that fills `emitcolors`, from any intermediate state. -/
theorem emitcolors_from (sum : stdmap qvec3f) (b : qvec3f) (hs : sum.keys.Nodup)
    (em : stdmap qvec3f) (s : Int) :
    (sum.foldl (fun emitcolors styleColor =>
        emitcolors.set styleColor.1 (fun k => styleColor.2 k * b k)) em).find s =
      match sum.find s with
      | some v => some fun k => v k * b k
      | none => em.find s := by
  induction sum generalizing em with
  | nil => rfl
  | cons a l ih =>
    obtain ⟨ka, va⟩ := a
    simp only [stdmap.keys, List.map_cons, List.nodup_cons] at hs
    rw [List.foldl_cons, ih hs.2]
    by_cases h : s = ka
    · subst h
      rw [(stdmap.find_eq_none_iff l s).mpr hs.1, stdmap.find_cons_self]
      simp only [stdmap.find_set, if_true]
    · rw [stdmap.find_cons_of_ne _ _ s h]
      cases stdmap.find l s with
      | none => simp only [stdmap.find_set, if_neg h]
      | some v => rfl

theorem emitcolors_find (sum : stdmap qvec3f) (b : qvec3f) (hs : sum.keys.Nodup) (s : Int) :
    (emitcolors sum b).find s = (sum.find s).map fun v => fun k => v k * b k := by
  unfold emitcolors
  rw [emitcolors_from sum b hs [] s]
  cases sum.find s <;> rfl

theorem emitcolors_sorted (sum : stdmap qvec3f) (b : qvec3f) :
    (emitcolors sum b).keys.Pairwise (fun x y => x < y) := by
  unfold emitcolors
  have key : ∀ em : stdmap qvec3f, em.keys.Pairwise (fun x y => x < y) →
      (sum.foldl (fun emitcolors styleColor =>
        emitcolors.set styleColor.1 (fun k => styleColor.2 k * b k)) em).keys.Pairwise
        (fun x y => x < y) := by
    induction sum with
    | nil => exact fun em h => h
    | cons a l ih =>
      intro em h
      rw [List.foldl_cons]
      exact ih _ (stdmap.keys_set_sorted em _ _ h)
  exact key [] (by simp [stdmap.keys])

/-- The sampled maps of the patches of a face have distinct keys when the
sampler returns maps. -/
theorem patches_nodup (env : Collaborators) (face : mface_ptr)
    (hmap : ∀ pos normal, (env.GetDirectLighting pos normal).keys.Nodup) :
    ∀ p ∈ patches env face, p.lightByStyle.keys.Nodup := by
  intro p hp
  unfold patches at hp
  obtain ⟨w, -, rfl⟩ := List.mem_map.mp hp
  exact hmap _ _

end MakeBounceLightsThread

theorem sampleLevel_sampler_keys (pos normal : qvec3d) :
    (sampleLevel.GetDirectLighting pos normal).keys.Nodup := by
  show (if pos 0 = 2 then _ else _ : stdmap qvec3f).keys.Nodup
  split_ifs <;> decide

/-- C10: when every patch of a face reports the same colour `c` for a style
`s` and the total patch area is at least 1, the normalised colour for `s`,
before the texture blend, is `c / 255`, whatever the number of patches and
their areas are; for `c = (255, 255, 255)` it is `(1, 1, 1)`. -/
theorem uniform_light_normalized (env : Collaborators) (face : mface_ptr) (s : Int) (c : qvec3f)
    (hmap : ∀ pos normal, (env.GetDirectLighting pos normal).keys.Nodup)
    (hc : ∀ p ∈ MakeBounceLightsThread.patches env face, p.lightByStyle.find s = some c)
    (harea : 1 ≤ MakeBounceLightsThread.totalarea env face) :
    ∃ v, (MakeBounceLightsThread.normalizedSum env face).find s = some v ∧
      (∀ k, v k = c k / 255) ∧ ((∀ k, c k = 255) → ∀ k, v k = 1) := by
  obtain ⟨h1, -, h3, h4⟩ := MakeBounceLightsThread.accumulate_spec env
    (MakeBounceLightsThread.patches env face)
    (MakeBounceLightsThread.patches_nodup env face hmap)
  have hT : MakeBounceLightsThread.totalarea env face =
      ((MakeBounceLightsThread.patches env face).map fun p => env.area p.w).sum := h1
  have hne : MakeBounceLightsThread.patches env face ≠ [] := by
    intro hnil
    rw [hT, hnil] at harea
    simp at harea
    exact absurd harea (by norm_num)
  obtain ⟨p0, hp0⟩ := List.exists_mem_of_ne_nil _ hne
  have hkey : s ∈ (MakeBounceLightsThread.accumulate env
      (MakeBounceLightsThread.patches env face)).1.keys :=
    (h3 s).mpr ⟨p0, hp0, (stdmap.mem_keys_iff _ _).mpr ⟨c, hc p0 hp0⟩⟩
  obtain ⟨v0, hv0⟩ := (stdmap.mem_keys_iff _ _).mp hkey
  have hsum : ∀ k, v0 k = c k * MakeBounceLightsThread.totalarea env face := by
    intro k
    have hi := h4 s k
    rw [stdmap.index_of_find hv0] at hi
    rw [hi, hT, ← List.sum_map_mul_left]
    congr 1
    apply List.map_congr_left
    intro p hp
    rw [stdmap.index_of_find (hc p hp)]
  have hval : ∀ k, v0 k * (1 / MakeBounceLightsThread.totalarea env face) / 255 = c k / 255 := by
    intro k
    have hpos : MakeBounceLightsThread.totalarea env face ≠ 0 := by
      intro h0
      rw [h0] at harea
      exact absurd harea (by norm_num)
    rw [hsum k]
    field_simp
  refine ⟨fun k => v0 k * (1 / MakeBounceLightsThread.totalarea env face) / 255, ?_, hval, ?_⟩
  · unfold MakeBounceLightsThread.normalizedSum
    rw [MakeBounceLightsThread.normalized_find, hv0]
    rfl
  · intro h255 k
    show v0 k * (1 / MakeBounceLightsThread.totalarea env face) / 255 = 1
    rw [hval k, h255 k]
    norm_num

/-- Witness of C10: face 0 of the sample level, lit at 255 on style 0. -/
theorem uniform_light_normalized_witness :
    ∃ v, (MakeBounceLightsThread.normalizedSum sampleLevel 0).find 0 = some v ∧
      (∀ k, v k = (![255, 255, 255] : qvec3f) k / 255) ∧
      ((∀ k, (![255, 255, 255] : qvec3f) k = 255) → ∀ k, v k = 1) :=
  uniform_light_normalized sampleLevel 0 0 ![255, 255, 255] sampleLevel_sampler_keys
    (by
      intro p hp
      simp only [MakeBounceLightsThread.patches, sampleLevel, List.map_cons, List.map_nil,
        List.mem_singleton] at hp
      subst hp
      simp [MakePatch, stdmap.find, List.lookup])
    (by decide!)

/-! ## Claim on the octree -/

/-- C1: for every list of (box, payload) pairs and every query box `Q`,
`makeOctree(objects)` is built without a failed assertion and
`queryTouchingBBox(Q)` on it contains a payload `t` exactly when some listed
pair `(b, t)` has `b` not disjoint from `Q`; a `Q` disjoint from every listed
box gives the empty result. `bboxOctant` is any function whose eight
sub-boxes together cover the parent box. -/
theorem makeOctree_query_sound {T : Type} [LinearOrder T] (bboxOctant : aabb3 → Nat → aabb3)
    (hcover : ∀ (box : aabb3) (p : qvec 3), box.containsPoint p = true →
      ∃ i, i < 8 ∧ (bboxOctant box i).containsPoint p = true)
    (objects : List (aabb3 × T)) (hobj : ∀ o ∈ objects, o.1.Fixed)
    (Q : aabb3) (hQ : Q.Fixed) :
    ∃ tree, makeOctree bboxOctant objects = some tree ∧
      (∀ t, t ∈ tree.queryTouchingBBox Q ↔ ∃ b, (b, t) ∈ objects ∧ b.disjoint Q = false) ∧
      ((∀ o ∈ objects, o.1.disjoint Q = true) → tree.queryTouchingBBox Q = []) := by
  have key : ∃ tree, makeOctree bboxOctant objects = some tree ∧
      ∀ t, t ∈ tree.queryTouchingBBox Q ↔ ∃ b, (b, t) ∈ objects ∧ b.disjoint Q = false := by
    cases objects with
    | nil =>
      refine ⟨octree_node_t.mk 0 (aabb.new (qvec.splat 3 0) (qvec.splat 3 0)).copy true [] [],
        ?_, ?_⟩
      · simp [makeOctree, octree_node_t.create, MAX_OCTREE_DEPTH]
      · intro t
        rw [octree_node_t.mem_queryTouchingBBox, octree_node_t.hit_leaf]
        simp
    | cons first rest =>
      obtain ⟨h1, h2, h3⟩ := octree_node_t.union_fold_spec (first :: rest) first.1.copy
        (aabb.copy_fixed _) hobj
      have hroot : octree_node_t.Inv (octree_node_t.mk 0
          ((first :: rest).foldl (fun box pr => box.unionWith pr.1) first.1.copy).copy
          true ([] : List (aabb3 × T)) []) := by
        rw [octree_node_t.inv_mk]
        exact ⟨aabb.copy_fixed _, by simp, by simp, by simp, by simp⟩
      obtain ⟨tree, h4, -, -, h5⟩ := octree_node_t.insertAll_spec bboxOctant hcover
        (first :: rest) _ hroot (fun o ho => by
          refine ⟨hobj o ho, ?_⟩
          rw [octree_node_t.m_bbox_mk, aabb.copy_of_fixed _ h1, aabb.contains_three_iff]
          exact h3 o ho)
      refine ⟨tree, ?_, ?_⟩
      · simp only [makeOctree, octree_node_t.create, MAX_OCTREE_DEPTH]
        simpa using h4
      · intro t
        rw [octree_node_t.mem_queryTouchingBBox, h5 Q hQ t, octree_node_t.hit_leaf]
        simp only [List.not_mem_nil, false_and, exists_false, false_or]
        constructor
        · rintro ⟨o, ho, rfl, hp⟩
          refine ⟨o.1, ho, ?_⟩
          exact (aabb.not_disjoint_iff_common_point o.1 Q (hobj o ho) hQ).mpr hp
        · rintro ⟨b, hb, hd⟩
          exact ⟨(b, t), hb, rfl,
            (aabb.not_disjoint_iff_common_point b Q (hobj _ hb) hQ).mp hd⟩
  obtain ⟨tree, h1, h2⟩ := key
  refine ⟨tree, h1, h2, ?_⟩
  intro hall
  apply List.eq_nil_iff_forall_not_mem.mpr
  intro t ht
  obtain ⟨b, hb, hd⟩ := (h2 t).mp ht
  have := hall (b, t) hb
  simp only at this
  rw [this] at hd
  exact absurd hd (by simp)

/-- Witness of C1: three boxes under the halving octants, queried around the
corner where two of them meet. -/
theorem makeOctree_query_sound_witness :
    ∃ tree,
      makeOctree bboxOctantHalves
        ([(⟨![0, 0, 0], ![1, 1, 1]⟩, 7), (⟨![4, 4, 4], ![8, 8, 8]⟩, 9),
          (⟨![2, 2, 2], ![2, 2, 2]⟩, 3)] : List (aabb3 × Nat)) = some tree ∧
      (∀ t, t ∈ tree.queryTouchingBBox ⟨![1, 1, 1], ![3, 3, 3]⟩ ↔
        ∃ b, (b, t) ∈ ([(⟨![0, 0, 0], ![1, 1, 1]⟩, 7), (⟨![4, 4, 4], ![8, 8, 8]⟩, 9),
          (⟨![2, 2, 2], ![2, 2, 2]⟩, 3)] : List (aabb3 × Nat)) ∧
          b.disjoint ⟨![1, 1, 1], ![3, 3, 3]⟩ = false) ∧
      ((∀ o ∈ ([(⟨![0, 0, 0], ![1, 1, 1]⟩, 7), (⟨![4, 4, 4], ![8, 8, 8]⟩, 9),
          (⟨![2, 2, 2], ![2, 2, 2]⟩, 3)] : List (aabb3 × Nat)),
          o.1.disjoint ⟨![1, 1, 1], ![3, 3, 3]⟩ = true) →
        tree.queryTouchingBBox ⟨![1, 1, 1], ![3, 3, 3]⟩ = []) :=
  makeOctree_query_sound bboxOctantHalves bboxOctantHalves_cover _
    (by
      intro o ho
      simp only [List.mem_cons, List.mem_singleton, List.not_mem_nil, or_false] at ho
      rcases ho with rfl | rfl | rfl <;> decide)
    ⟨![1, 1, 1], ![3, 3, 3]⟩ (by decide)

/-! ## Claims on boxes -/

/-- C2: the constructor keeps `mins`, sets `maxs[i]` to `max(maxs[i], mins[i])`,
hence `maxs[i] >= mins[i]` on every axis, also for inverted input; and every
box returned by `expand`, `unionWith`, `intersectWith` and `grow` satisfies
`maxs[i] >= mins[i]` on every axis. -/
theorem aabb_fix_invariant (N : Nat) (mins maxs : qvec N) :
    (aabb.new mins maxs).m_mins = mins ∧
    (∀ i, (aabb.new mins maxs).m_maxs i = max (maxs i) (mins i)) ∧
    (∀ i, (aabb.new mins maxs).m_maxs i ≥ (aabb.new mins maxs).m_mins i) ∧
    ∀ (a b : aabb N) (pt size : qvec N),
      (∀ i, (a.expand pt).m_maxs i ≥ (a.expand pt).m_mins i) ∧
      (∀ i, (a.unionWith b).m_maxs i ≥ (a.unionWith b).m_mins i) ∧
      (∀ i, (a.intersectWith b).2.m_maxs i ≥ (a.intersectWith b).2.m_mins i) ∧
      (∀ i, (a.grow size).m_maxs i ≥ (a.grow size).m_mins i) :=
  ⟨rfl, fun i => aabb.fix_maxs _ i, fun i => aabb.new_fixed mins maxs i,
    fun a b pt size => ⟨fun i => aabb.expand_fixed a pt i, fun i => aabb.unionWith_fixed a b i,
      fun i => aabb.intersectWith_fixed a b i, fun i => aabb.grow_fixed a size i⟩⟩

/-- C3: for 3-D boxes `a` and `b`, `a.intersectWith(b)` has `first = false`
exactly when `a.disjoint(b)`; otherwise it is `true` with the box of the
componentwise maximum of the mins and minimum of the maxs. -/
theorem intersectWith_contract (a b : aabb3) (ha : a.Fixed) (hb : b.Fixed) :
    ((a.intersectWith b).1 = false ↔ a.disjoint b = true) ∧
    (a.disjoint b = false →
      a.intersectWith b =
        (true, { m_mins := fun i => max (a.m_mins i) (b.m_mins i)
                 m_maxs := fun i => min (a.m_maxs i) (b.m_maxs i) })) := by
  refine ⟨?_, aabb.intersectWith_of_not_disjoint a b ha hb⟩
  cases h : a.disjoint b
  · rw [aabb.intersectWith_of_not_disjoint a b ha hb h]
    simp
  · rw [aabb.intersectWith_of_disjoint a b ha hb h]
    simp

/-- Witness of C3 on two overlapping unit-scale boxes. -/
theorem intersectWith_contract_witness :
    ((aabb.intersectWith (⟨![0, 0, 0], ![2, 2, 2]⟩ : aabb3) ⟨![1, 1, 1], ![3, 3, 3]⟩).1 = false ↔
      aabb.disjoint (⟨![0, 0, 0], ![2, 2, 2]⟩ : aabb3) ⟨![1, 1, 1], ![3, 3, 3]⟩ = true) ∧
    (aabb.disjoint (⟨![0, 0, 0], ![2, 2, 2]⟩ : aabb3) ⟨![1, 1, 1], ![3, 3, 3]⟩ = false →
      aabb.intersectWith (⟨![0, 0, 0], ![2, 2, 2]⟩ : aabb3) ⟨![1, 1, 1], ![3, 3, 3]⟩ =
        (true, { m_mins := fun i => max ((![0, 0, 0] : qvec3f) i) ((![1, 1, 1] : qvec3f) i)
                 m_maxs := fun i => min ((![2, 2, 2] : qvec3f) i) ((![3, 3, 3] : qvec3f) i) })) :=
  intersectWith_contract ⟨![0, 0, 0], ![2, 2, 2]⟩ ⟨![1, 1, 1], ![3, 3, 3]⟩ (by decide) (by decide)

/-! ## Touching boxes -/

/-- C20: for boxes `a` and `b`, `a.disjoint(b)` is false if and only if some
point lies in both; two boxes that only touch, the maxs of one being the mins
of the other on some axes (all of them for a shared corner, fewer for an edge
or a side) while they overlap on the others, are not disjoint; and
`a.disjoint(b) = b.disjoint(a)`. -/
theorem disjoint_iff_no_common_point {N : Nat} (a b : aabb N) (ha : a.Fixed) (hb : b.Fixed) :
    (a.disjoint b = false ↔ ∃ p, a.containsPoint p = true ∧ b.containsPoint p = true) ∧
    ((∀ i, a.m_maxs i = b.m_mins i ∨ (b.m_mins i ≤ a.m_maxs i ∧ a.m_mins i ≤ b.m_maxs i)) →
      a.disjoint b = false) ∧
    a.disjoint b = b.disjoint a := by
  refine ⟨aabb.not_disjoint_iff_common_point a b ha hb, ?_, aabb.disjoint_comm a b⟩
  intro htouch
  rw [aabb.disjoint_eq_false_iff]
  intro i
  rcases htouch i with h | h
  · exact ⟨le_of_eq h.symm, le_trans (ha i) (le_trans (le_of_eq h) (hb i))⟩
  · exact h

/-- Witness of C20: two unit-scale cubes that share the corner (1, 1, 1). -/
theorem disjoint_iff_no_common_point_witness :
    (aabb.disjoint (⟨![0, 0, 0], ![1, 1, 1]⟩ : aabb3) ⟨![1, 1, 1], ![2, 2, 2]⟩ = false ↔
      ∃ p, aabb.containsPoint (⟨![0, 0, 0], ![1, 1, 1]⟩ : aabb3) p = true ∧
        aabb.containsPoint (⟨![1, 1, 1], ![2, 2, 2]⟩ : aabb3) p = true) ∧
    ((∀ i, (![1, 1, 1] : qvec3f) i = (![1, 1, 1] : qvec3f) i ∨
        ((![1, 1, 1] : qvec3f) i ≤ (![1, 1, 1] : qvec3f) i ∧
          (![0, 0, 0] : qvec3f) i ≤ (![2, 2, 2] : qvec3f) i)) →
      aabb.disjoint (⟨![0, 0, 0], ![1, 1, 1]⟩ : aabb3) ⟨![1, 1, 1], ![2, 2, 2]⟩ = false) ∧
    aabb.disjoint (⟨![0, 0, 0], ![1, 1, 1]⟩ : aabb3) ⟨![1, 1, 1], ![2, 2, 2]⟩ =
      aabb.disjoint (⟨![1, 1, 1], ![2, 2, 2]⟩ : aabb3) ⟨![0, 0, 0], ![1, 1, 1]⟩ :=
  disjoint_iff_no_common_point ⟨![0, 0, 0], ![1, 1, 1]⟩ ⟨![1, 1, 1], ![2, 2, 2]⟩
    (by decide) (by decide)

/-! ## The tree of an empty object list -/

/-- C14: for the empty object list `makeOctree` returns a tree of one node, a
leaf at depth 0 with box mins = maxs = (0, 0, 0), no stored objects and no
children, and `queryTouchingBBox(Q)` on it returns the empty list for every
query box `Q`. -/
theorem makeOctree_empty {T : Type} [LinearOrder T] (bboxOctant : aabb3 → Nat → aabb3)
    (Q : aabb3) :
    ∃ tree, makeOctree bboxOctant ([] : List (aabb3 × T)) = some tree ∧
      tree.nodeCount = 1 ∧ tree.m_depth = 0 ∧ tree.m_leafNode = true ∧
      (∀ i, tree.m_bbox.m_mins i = 0 ∧ tree.m_bbox.m_maxs i = 0) ∧
      tree.m_leafObjects = [] ∧ tree.m_children = [] ∧
      tree.queryTouchingBBox Q = [] := by
  refine ⟨octree_node_t.mk 0 (aabb.new (qvec.splat 3 0) (qvec.splat 3 0)).copy true [] [],
    ?_, ?_, rfl, rfl, ?_, rfl, rfl, ?_⟩
  · simp [makeOctree, octree_node_t.create, MAX_OCTREE_DEPTH]
  · simp [octree_node_t.nodeCount]
  · intro i
    simp [octree_node_t.m_bbox, aabb.copy, aabb.new, aabb.fix, qvec.splat]
  · simp [octree_node_t.queryTouchingBBox, octree_node_t.queryTouchingBBoxInto]

/-! ## The order of a query result -/

theorem stdset_insert_sorted {T : Type} [LinearOrder T] (x : T) (s : List T)
    (h : s.Sorted (fun a b => a < b)) : (stdset_insert x s).Sorted (fun a b => a < b) := by
  unfold stdset_insert
  split_ifs with hx
  · exact h
  · have hle : (List.orderedInsert (fun a b => a ≤ b) x s).Sorted (fun a b => a ≤ b) :=
      List.Sorted.orderedInsert x s h.le_of_lt
    have hnd : (List.orderedInsert (fun a b => a ≤ b) x s).Nodup :=
      (List.perm_orderedInsert (fun a b => a ≤ b) x s).nodup_iff.mpr
        (List.nodup_cons.mpr ⟨hx, h.nodup⟩)
    exact hle.lt_of_le hnd

namespace octree_node_t

variable {T : Type}

theorem leaf_fold_sorted [LinearOrder T] (query : aabb3) (objs : List (aabb3 × T))
    (dest : List T) (h : dest.Sorted (fun a b => a < b)) :
    (objs.foldl (fun dest boxObjPair =>
      if query.disjoint boxObjPair.1 = false then stdset_insert boxObjPair.2 dest else dest)
      dest).Sorted (fun a b => a < b) := by
  induction objs generalizing dest with
  | nil => exact h
  | cons a l ih =>
    rw [List.foldl_cons]
    apply ih
    split_ifs
    · exact stdset_insert_sorted _ _ h
    · exact h

theorem queryChildren_sorted [LinearOrder T] (cs : List (octree_node_t T))
    (hcs : ∀ c ∈ cs, ∀ (query : aabb3) (dest : List T), dest.Sorted (fun a b => a < b) →
      (queryTouchingBBoxInto c query dest).Sorted (fun a b => a < b))
    (query : aabb3) (dest : List T) (h : dest.Sorted (fun a b => a < b)) :
    (queryChildren cs query dest).Sorted (fun a b => a < b) := by
  induction cs generalizing dest with
  | nil => simpa [queryChildren] using h
  | cons a l ih =>
    rw [queryChildren]
    apply ih (fun c hc => hcs c (List.mem_cons_of_mem _ hc))
    split_ifs
    · exact hcs a (List.mem_cons_self _ _) _ _ h
    · exact h

/-- The private query keeps the set in strictly increasing order. -/
theorem queryTouchingBBoxInto_sorted [LinearOrder T] (n : octree_node_t T) (query : aabb3)
    (dest : List T) (h : dest.Sorted (fun a b => a < b)) :
    (queryTouchingBBoxInto n query dest).Sorted (fun a b => a < b) := by
  generalize hw : n.weight = w
  induction w using Nat.strong_induction_on generalizing n query dest with
  | _ w ih =>
    cases n with
    | mk d b l o cs =>
      cases l
      · simp only [queryTouchingBBoxInto, Bool.false_eq_true, if_false]
        apply queryChildren_sorted _ _ _ _ h
        intro c hc query1 dest1 h1
        exact ih c.weight (hw ▸ weight_child_lt d b false o cs c hc) c query1 dest1 h1 rfl
      · simp only [queryTouchingBBoxInto, if_true]
        exact leaf_fold_sorted query o dest h

end octree_node_t

/-- C15: for every octree and every query box, the list returned by
`queryTouchingBBox` is strictly increasing in the order of the payload type,
so no payload occurs in it twice. -/
theorem queryTouchingBBox_strictly_increasing {T : Type} [LinearOrder T]
    (n : octree_node_t T) (query : aabb3) :
    (n.queryTouchingBBox query).Sorted (fun a b => a < b) ∧
    (n.queryTouchingBBox query).Nodup := by
  have h : (n.queryTouchingBBox query).Sorted (fun a b => a < b) :=
    octree_node_t.queryTouchingBBoxInto_sorted n query [] List.sorted_nil
  exact ⟨h, h.nodup⟩

/-! ## The componentwise maximum colour -/

/-- The loop that computes `componentwiseMaxColor`, from any intermediate
value: the result bounds the start value and every colour, and is one of
them. -/
theorem componentwiseMax_fold (m : stdmap qvec3f) (acc : qvec3f) (k : Fin 3) :
    acc k ≤ m.foldl
      (fun acc styleColor => fun i => if styleColor.2 i > acc i then styleColor.2 i else acc i)
      acc k ∧
    (∀ styleColor ∈ m, styleColor.2 k ≤ m.foldl
      (fun acc styleColor => fun i => if styleColor.2 i > acc i then styleColor.2 i else acc i)
      acc k) ∧
    (m.foldl
      (fun acc styleColor => fun i => if styleColor.2 i > acc i then styleColor.2 i else acc i)
      acc k = acc k ∨
     ∃ styleColor ∈ m, m.foldl
      (fun acc styleColor => fun i => if styleColor.2 i > acc i then styleColor.2 i else acc i)
      acc k = styleColor.2 k) := by
  induction m generalizing acc with
  | nil => simp
  | cons a l ih =>
    rw [List.foldl_cons]
    obtain ⟨h1, h2, h3⟩ := ih (fun i => if a.2 i > acc i then a.2 i else acc i)
    have hstep : acc k ≤ (if a.2 k > acc k then a.2 k else acc k) ∧
        a.2 k ≤ (if a.2 k > acc k then a.2 k else acc k) := by
      split_ifs with h
      · exact ⟨le_of_lt h, le_refl _⟩
      · exact ⟨le_refl _, not_lt.mp h⟩
    refine ⟨le_trans hstep.1 h1, ?_, ?_⟩
    · intro x hx
      rcases List.mem_cons.mp hx with rfl | hx1
      · exact le_trans hstep.2 h1
      · exact h2 x hx1
    · rcases h3 with h | ⟨x, hx, h⟩
      · by_cases hgt : a.2 k > acc k
        · right
          refine ⟨a, List.mem_cons_self _ _, ?_⟩
          rw [h]
          simp only [hgt, if_true]
        · left
          rw [h]
          simp only [hgt, if_false]
      · exact Or.inr ⟨x, List.mem_cons_of_mem _ hx, h⟩

/-- C17: the bounce light that a successful `AddBounceLight` appends carries
the colour map it was given and, in every channel `k`, the maximum over all
styles of `colorByStyle[s][k]` as `componentwiseMaxColor[k]` (0 for the empty
map); hence no colour exceeds it. -/
theorem componentwiseMaxColor_is_max (env : Collaborators) (pos : qvec3d)
    (colorByStyle : stdmap qvec3f) (surfnormal : qvec3d) (area : ℚ) (face : mface_ptr)
    (st st1 : Registry)
    (h : AddBounceLight env pos colorByStyle surfnormal area face st = some st1) :
    ∃ l, st1.radlights = st.radlights ++ [l] ∧ l.colorByStyle = colorByStyle ∧
      ∀ k,
        (∀ styleColor ∈ colorByStyle, styleColor.2 k ≤ l.componentwiseMaxColor k) ∧
        (colorByStyle = [] → l.componentwiseMaxColor k = 0) ∧
        (colorByStyle ≠ [] →
          ∃ styleColor ∈ colorByStyle, l.componentwiseMaxColor k = styleColor.2 k) := by
  have hnonneg := ((AddBounceLight_some_iff env pos colorByStyle surfnormal area face st).mp
    ⟨st1, h⟩).1
  refine ⟨_, (AddBounceLight_spec env pos colorByStyle surfnormal area face st st1 h).1, rfl, ?_⟩
  intro k
  obtain ⟨-, h2, h3⟩ := componentwiseMax_fold colorByStyle (qvec.splat 3 0) k
  refine ⟨h2, ?_, ?_⟩
  · intro hnil
    subst hnil
    rfl
  · intro hne
    rcases h3 with h0 | h0
    · obtain ⟨x, hx⟩ := List.exists_mem_of_ne_nil _ hne
      refine ⟨x, hx, ?_⟩
      show componentwiseMaxColor colorByStyle k = x.2 k
      have hle : x.2 k ≤ componentwiseMaxColor colorByStyle k := h2 x hx
      have h00 : componentwiseMaxColor colorByStyle k = 0 := h0
      rw [h00] at hle ⊢
      exact le_antisymm (hnonneg x hx k) hle
    · exact h0

/-- Witness of C17: two styles, registered for face 0 of the sample level. -/
theorem componentwiseMaxColor_is_max_witness :
    ∃ st1 l,
      AddBounceLight sampleLevel ![0, 0, 1] [(0, ![1, 0, 2]), (3, ![0, 5, 1])] ![0, 0, 1] 4 0
        Registry.empty = some st1 ∧
      st1.radlights = Registry.empty.radlights ++ [l] ∧
      l.colorByStyle = [(0, ![1, 0, 2]), (3, ![0, 5, 1])] ∧
      ∀ k,
        (∀ styleColor ∈ ([(0, ![1, 0, 2]), (3, ![0, 5, 1])] : stdmap qvec3f),
          styleColor.2 k ≤ l.componentwiseMaxColor k) ∧
        (([(0, ![1, 0, 2]), (3, ![0, 5, 1])] : stdmap qvec3f) = [] →
          l.componentwiseMaxColor k = 0) ∧
        (([(0, ![1, 0, 2]), (3, ![0, 5, 1])] : stdmap qvec3f) ≠ [] →
          ∃ styleColor ∈ ([(0, ![1, 0, 2]), (3, ![0, 5, 1])] : stdmap qvec3f),
            l.componentwiseMaxColor k = styleColor.2 k) := by
  cases h : AddBounceLight sampleLevel ![0, 0, 1] [(0, ![1, 0, 2]), (3, ![0, 5, 1])] ![0, 0, 1]
      4 0 Registry.empty with
  | none =>
    simp [AddBounceLight] at h
  | some st1 =>
    obtain ⟨l, h1, h2, h3⟩ := componentwiseMaxColor_is_max sampleLevel _ _ _ _ 0
      Registry.empty st1 h
    exact ⟨st1, l, rfl, h1, h2, h3⟩

/-! ## Assertions during an insert -/

namespace octree_node_t

variable {T : Type}

theorem shapeList_iff (cs : List (octree_node_t T)) : ShapeList cs ↔ ∀ c ∈ cs, Shape c := by
  induction cs with
  | nil => simp [ShapeList]
  | cons a l ih => simp [ShapeList, ih]

theorem shape_mk (d : Int) (b : aabb3) (l : Bool) (o : List (aabb3 × T))
    (cs : List (octree_node_t T)) :
    Shape (mk d b l o cs) ↔
      b.Fixed ∧ (l = true → cs = [] ∧ (d < MAX_OCTREE_DEPTH → o = [])) ∧
      (l = false → o = []) ∧ ∀ c ∈ cs, Shape c := by
  rw [Shape, shapeList_iff]

/-- The loop of `insert` over children of the right shape: no assertion fails
and the children keep their shape, box and depth. -/
theorem insert_children_shape (bboxOctant : aabb3 → Nat → aabb3) (obj : T) (objBox : aabb3)
    (hb : objBox.Fixed) (cs : List (octree_node_t T))
    (h : ∀ c ∈ cs, Shape c ∧ ∀ b : aabb3, b.Fixed → c.m_bbox.contains b = some true →
      ∃ c1, insert bboxOctant c b obj = some c1 ∧ Shape c1 ∧ c1.m_bbox = c.m_bbox ∧
        c1.m_depth = c.m_depth) :
    ∃ cs1,
      forChildren (fun c =>
        if (objBox.intersectWith c.m_bbox).1
          then insert bboxOctant c (objBox.intersectWith c.m_bbox).2 obj else some c) cs
        = some cs1 ∧
      (∀ c ∈ cs1, Shape c) ∧ cs1.map m_bbox = cs.map m_bbox ∧
      cs1.map m_depth = cs.map m_depth := by
  induction cs with
  | nil => exact ⟨[], rfl, by simp, rfl, rfl⟩
  | cons a l ih =>
    obtain ⟨l1, hl1, hl2, hl3, hl4⟩ := ih (fun c hc => h c (List.mem_cons_of_mem _ hc))
    obtain ⟨hsa, hPa⟩ := h a (List.mem_cons_self _ _)
    have hfa : a.m_bbox.Fixed := by
      cases a with
      | mk d b l o cs => exact ((shape_mk d b l o cs).mp hsa).1
    have hstep : ∃ a1,
        (if (objBox.intersectWith a.m_bbox).1
          then insert bboxOctant a (objBox.intersectWith a.m_bbox).2 obj else some a) = some a1 ∧
        Shape a1 ∧ a1.m_bbox = a.m_bbox ∧ a1.m_depth = a.m_depth := by
      cases hr : (objBox.intersectWith a.m_bbox).1
      · exact ⟨a, by simp, hsa, rfl, rfl⟩
      · obtain ⟨a1, h1, h2, h3, h4⟩ := hPa (objBox.intersectWith a.m_bbox).2
          (aabb.intersectWith_fixed _ _) (aabb.contains_intersectWith objBox a.m_bbox hb hfa hr)
        exact ⟨a1, by simpa using h1, h2, h3, h4⟩
    obtain ⟨a1, ha1, ha2, ha3, ha4⟩ := hstep
    refine ⟨a1 :: l1, ?_, ?_, ?_, ?_⟩
    · simp only [forChildren, ha1, hl1]
    · intro c hc
      rcases List.mem_cons.mp hc with rfl | hc1
      · exact ha2
      · exact hl2 c hc1
    · simp only [List.map_cons, ha3, hl3]
    · simp only [List.map_cons, ha4, hl4]

/-- On a tree of the right shape an `insert` of a box inside the node's box
passes every assertion, and keeps the shape, the box and the depth of the
node. -/
theorem insert_shape (bboxOctant : aabb3 → Nat → aabb3) (obj : T) (n : octree_node_t T)
    (hs : Shape n) (objBox : aabb3) (hb : objBox.Fixed)
    (hin : n.m_bbox.contains objBox = some true) :
    ∃ n1, insert bboxOctant n objBox obj = some n1 ∧ Shape n1 ∧ n1.m_bbox = n.m_bbox ∧
      n1.m_depth = n.m_depth := by
  generalize hw : n.weight = w
  induction w using Nat.strong_induction_on generalizing n objBox with
  | _ w ih =>
    rw [insert_eq, if_pos hin]
    cases n with
    | mk d b l o cs =>
      rw [shape_mk] at hs
      obtain ⟨hbf, hleaf, hinner, hcs⟩ := hs
      rw [m_bbox_mk] at hin
      cases l
      · have ho := hinner rfl
        subst ho
        have hconv : convertLeaf bboxOctant (mk d b false [] cs) = some (mk d b false [] cs) := by
          simp [convertLeaf, m_leafNode_mk]
        rw [hconv]
        simp only [m_leafNode_mk, Bool.false_eq_true, if_false, m_children_mk, m_depth_mk,
          m_bbox_mk, m_leafObjects_mk]
        obtain ⟨cs1, h1, h2, -, -⟩ := insert_children_shape bboxOctant obj objBox hb cs
          (fun c hc => ⟨hcs c hc, fun b1 hb1 hin1 =>
            ih c.weight (hw ▸ weight_child_lt d b false [] cs c hc) c (hcs c hc) b1 hb1 hin1
              rfl⟩)
        rw [h1]
        refine ⟨_, rfl, ?_, rfl, rfl⟩
        rw [shape_mk]
        exact ⟨hbf, by simp, fun _ => rfl, h2⟩
      · obtain ⟨hcnil, hoempty⟩ := hleaf rfl
        subst hcnil
        by_cases hd : d < MAX_OCTREE_DEPTH
        · have ho := hoempty hd
          subst ho
          have hconv : convertLeaf bboxOctant (mk d b true [] [] : octree_node_t T) =
              some (mk d b false []
                ((List.range' 0 8).map fun j => mk (d + 1) (bboxOctant b j).copy true [] [])) := by
            unfold convertLeaf
            simp only [m_leafNode_mk, m_depth_mk, hd, decide_True, Bool.and_self, if_true]
            exact toNode_of_leaf bboxOctant (mk d b true [] []) hd rfl rfl rfl
          have hkids : ∀ c ∈ (List.range' 0 8).map
              (fun j => (mk (d + 1) (bboxOctant b j).copy true [] [] : octree_node_t T)),
              Shape c ∧ ∀ b1 : aabb3, b1.Fixed → c.m_bbox.contains b1 = some true →
                ∃ c1, insert bboxOctant c b1 obj = some c1 ∧ Shape c1 ∧ c1.m_bbox = c.m_bbox ∧
                  c1.m_depth = c.m_depth := by
            intro c hc
            have hlt := weight_children_lt bboxOctant (mk d b true [] [] : octree_node_t T) _
              hconv c hc
            obtain ⟨j, -, rfl⟩ := List.mem_map.mp hc
            have hi : Shape (mk (d + 1) (bboxOctant b j).copy true [] [] : octree_node_t T) := by
              rw [shape_mk]
              exact ⟨aabb.copy_fixed _, by simp, by simp, by simp⟩
            exact ⟨hi, fun b1 hb1 hin1 => ih _ (hw ▸ hlt) _ hi b1 hb1 hin1 rfl⟩
          rw [hconv]
          simp only [m_leafNode_mk, Bool.false_eq_true, if_false, m_children_mk, m_depth_mk,
            m_bbox_mk, m_leafObjects_mk]
          obtain ⟨cs1, h1, h2, -, -⟩ := insert_children_shape bboxOctant obj objBox hb _ hkids
          rw [h1]
          refine ⟨_, rfl, ?_, rfl, rfl⟩
          rw [shape_mk]
          exact ⟨hbf, by simp, fun _ => rfl, h2⟩
        · have hconv : convertLeaf bboxOctant (mk d b true o []) = some (mk d b true o []) := by
            simp [convertLeaf, m_leafNode_mk, m_depth_mk, hd]
          rw [hconv]
          simp only [m_leafNode_mk, if_true, m_children_mk, m_depth_mk, m_bbox_mk,
            m_leafObjects_mk]
          refine ⟨_, rfl, ?_, rfl, rfl⟩
          rw [shape_mk]
          exact ⟨hbf, fun _ => ⟨rfl, fun h => absurd h hd⟩, by simp, by simp⟩

end octree_node_t

namespace octree_node_t

variable {T : Type}

theorem contains_ne_true_iff (a b : aabb3) : a.contains b ≠ some true ↔ a.contains b = some false := by
  rw [aabb.contains_three]
  cases decide (∀ i, a.m_mins i ≤ b.m_mins i ∧ b.m_maxs i ≤ a.m_maxs i) <;> simp

theorem insert_none_of_not_contained (bboxOctant : aabb3 → Nat → aabb3) (n : octree_node_t T)
    (objBox : aabb3) (obj : T) (h : n.m_bbox.contains objBox ≠ some true) :
    insert bboxOctant n objBox obj = none := by
  rw [insert_eq, if_neg h]

/-- A sequence of successful inserts keeps the shape, the box and the depth
of the root. -/
theorem insertAll_shape (bboxOctant : aabb3 → Nat → aabb3) (objects : List (aabb3 × T))
    (hobj : ∀ o ∈ objects, o.1.Fixed) (res root : octree_node_t T) (hs : Shape res)
    (h : insertAll bboxOctant objects res = some root) :
    Shape root ∧ root.m_bbox = res.m_bbox ∧ root.m_depth = res.m_depth := by
  induction objects generalizing res with
  | nil =>
    simp only [insertAll, Option.some.injEq] at h
    subst h
    exact ⟨hs, rfl, rfl⟩
  | cons a l ih =>
    simp only [insertAll] at h
    by_cases hin : res.m_bbox.contains a.1 = some true
    · obtain ⟨res1, h1, h2, h3, h4⟩ := insert_shape bboxOctant a.2 res hs a.1
        (hobj a (List.mem_cons_self _ _)) hin
      rw [h1] at h
      obtain ⟨h5, h6, h7⟩ := ih (fun o ho => hobj o (List.mem_cons_of_mem _ ho)) res1 h2 h
      exact ⟨h5, h6.trans h3, h7.trans h4⟩
    · rw [insert_none_of_not_contained bboxOctant res a.1 a.2 hin] at h
      exact absurd h (by simp)

theorem shape_create (box : aabb3) (depth : Int) (r0 : octree_node_t T)
    (h : create box depth = some r0) : Shape r0 ∧ r0.m_depth = depth := by
  unfold create at h
  split_ifs at h
  simp only [Option.some.injEq] at h
  subst h
  refine ⟨?_, rfl⟩
  rw [shape_mk]
  exact ⟨aabb.copy_fixed _, by simp, by simp, by simp⟩

end octree_node_t

/-- C13: for a root constructed at depth 0 and any sequence of earlier
successful inserts, `insert(objBox, obj)` ends in a failed assertion if and
only if the root's box does not contain `objBox`; when it does, no assertion
fails anywhere in the recursion and the insert returns. This holds for every
`bboxOctant`. -/
theorem insert_fails_iff_not_contained {T : Type} (bboxOctant : aabb3 → Nat → aabb3)
    (box : aabb3) (earlier : List (aabb3 × T)) (hearlier : ∀ o ∈ earlier, o.1.Fixed)
    (r0 root : octree_node_t T) (h0 : octree_node_t.create box 0 = some r0)
    (h1 : octree_node_t.insertAll bboxOctant earlier r0 = some root)
    (objBox : aabb3) (hb : objBox.Fixed) (obj : T) :
    (octree_node_t.insert bboxOctant root objBox obj = none ↔
      root.m_bbox.contains objBox = some false) ∧
    (root.m_bbox.contains objBox = some true →
      ∃ root1, octree_node_t.insert bboxOctant root objBox obj = some root1) := by
  have hs := (octree_node_t.insertAll_shape bboxOctant earlier hearlier r0 root
    (octree_node_t.shape_create box 0 r0 h0).1 h1).1
  have hok : root.m_bbox.contains objBox = some true →
      ∃ root1, octree_node_t.insert bboxOctant root objBox obj = some root1 := by
    intro hin
    obtain ⟨root1, h2, -⟩ := octree_node_t.insert_shape bboxOctant obj root hs objBox hb hin
    exact ⟨root1, h2⟩
  refine ⟨?_, hok⟩
  constructor
  · intro hnone
    rw [← octree_node_t.contains_ne_true_iff]
    intro hin
    obtain ⟨root1, h2⟩ := hok hin
    rw [hnone] at h2
    exact absurd h2 (by simp)
  · intro hout
    apply octree_node_t.insert_none_of_not_contained
    rw [hout]
    simp

/-- Witness of C13: a root over the cube from 0 to 8 after one insert, under
the halving octants. -/
theorem insert_fails_iff_not_contained_witness :
    ∃ r0 root : octree_node_t Nat,
      octree_node_t.create ⟨![0, 0, 0], ![8, 8, 8]⟩ 0 = some r0 ∧
      octree_node_t.insertAll bboxOctantHalves [(⟨![0, 0, 0], ![1, 1, 1]⟩, 7)] r0 = some root ∧
      (octree_node_t.insert bboxOctantHalves root ⟨![4, 4, 4], ![9, 9, 9]⟩ 5 = none ↔
        root.m_bbox.contains ⟨![4, 4, 4], ![9, 9, 9]⟩ = some false) ∧
      (root.m_bbox.contains ⟨![4, 4, 4], ![9, 9, 9]⟩ = some true →
        ∃ root1, octree_node_t.insert bboxOctantHalves root ⟨![4, 4, 4], ![9, 9, 9]⟩ 5 =
          some root1) := by
  have h0 : octree_node_t.create ⟨![0, 0, 0], ![8, 8, 8]⟩ 0 =
      some (octree_node_t.mk 0 (aabb.copy ⟨![0, 0, 0], ![8, 8, 8]⟩) true
        ([] : List (aabb3 × Nat)) []) := by
    simp [octree_node_t.create, MAX_OCTREE_DEPTH]
  cases h1 : octree_node_t.insertAll bboxOctantHalves [(⟨![0, 0, 0], ![1, 1, 1]⟩, 7)]
      (octree_node_t.mk 0 (aabb.copy ⟨![0, 0, 0], ![8, 8, 8]⟩) true
        ([] : List (aabb3 × Nat)) []) with
  | none =>
    have hs : (octree_node_t.insertAll bboxOctantHalves [(⟨![0, 0, 0], ![1, 1, 1]⟩, 7)]
        (octree_node_t.mk 0 (aabb.copy ⟨![0, 0, 0], ![8, 8, 8]⟩) true
          ([] : List (aabb3 × Nat)) [])).isSome = true := by decide!
    rw [h1] at hs
    exact absurd hs (by simp)
  | some root =>
    obtain ⟨h2, h3⟩ := insert_fails_iff_not_contained bboxOctantHalves
      ⟨![0, 0, 0], ![8, 8, 8]⟩ [(⟨![0, 0, 0], ![1, 1, 1]⟩, 7)]
      (by
        intro o ho
        rw [List.mem_singleton] at ho
        subst ho
        decide)
      _ root h0 h1 ⟨![4, 4, 4], ![9, 9, 9]⟩ (by decide) 5
    exact ⟨_, root, h0, h1, h2, h3⟩

/-! ## The first insert into a leaf -/

namespace octree_node_t

variable {T : Type}

theorem contains_intersectWith_left (a c : aabb3) (ha : a.Fixed) (hc : c.Fixed)
    (h : (a.intersectWith c).1 = true) : a.contains (a.intersectWith c).2 = some true := by
  rw [aabb.contains_three_iff]
  cases hd : a.disjoint c
  · rw [aabb.intersectWith_of_not_disjoint a c ha hc hd]
    intro i
    exact ⟨le_max_left _ _, min_le_left _ _⟩
  · rw [aabb.intersectWith_of_disjoint a c ha hc hd] at h
    exact absurd h (by simp)

theorem mem_storedList (cs : List (octree_node_t T)) (x : Int × aabb3 × T) :
    x ∈ storedList cs ↔ ∃ c ∈ cs, x ∈ stored c := by
  induction cs with
  | nil => simp [storedList]
  | cons a l ih => simp [storedList, ih]

/-- Whatever a child holds after the loop over the children, it holds as the
result of the loop body on the child it replaces. -/
theorem forChildren_stored (body : octree_node_t T → Option (octree_node_t T))
    (cs cs1 : List (octree_node_t T)) (h : forChildren body cs = some cs1)
    (x : Int × aabb3 × T) (hx : x ∈ storedList cs1) :
    ∃ c ∈ cs, ∃ c1, body c = some c1 ∧ x ∈ stored c1 := by
  induction cs generalizing cs1 with
  | nil =>
    simp only [forChildren, Option.some.injEq] at h
    subst h
    simp [storedList] at hx
  | cons a l ih =>
    simp only [forChildren] at h
    cases ha : body a with
    | none => simp [ha] at h
    | some a1 =>
      rw [ha] at h
      cases hl : forChildren body l with
      | none => simp [hl] at h
      | some l1 =>
        rw [hl] at h
        simp only [Option.some.injEq] at h
        subst h
        simp only [storedList, List.mem_append] at hx
        rcases hx with hx | hx
        · exact ⟨a, List.mem_cons_self _ _, a1, ha, hx⟩
        · obtain ⟨c, hc, c1, hbody, hmem⟩ := ih l1 hl hx
          exact ⟨c, List.mem_cons_of_mem _ hc, c1, hbody, hmem⟩

/-- An insert into an empty leaf stores the payload at the maximum depth
only, each time with a box inside the inserted box. -/
theorem insert_leaf_stored (bboxOctant : aabb3 → Nat → aabb3) (obj : T) (k : Nat) :
    ∀ (d : Int) (b objBox : aabb3), (MAX_OCTREE_DEPTH - d).toNat = k → d ≤ MAX_OCTREE_DEPTH →
      objBox.Fixed → ∀ n1, insert bboxOctant (mk d b true [] []) objBox obj = some n1 →
      ∀ x ∈ stored n1, x.1 = MAX_OCTREE_DEPTH ∧ x.2.2 = obj ∧
        objBox.contains x.2.1 = some true := by
  induction k with
  | zero =>
    intro d b objBox hk hd hb n1 h x hx
    have hdeq : d = MAX_OCTREE_DEPTH := by omega
    rw [insert_eq] at h
    by_cases hin : (mk d b true [] [] : octree_node_t T).m_bbox.contains objBox = some true
    · rw [if_pos hin] at h
      have hconv : convertLeaf bboxOctant (mk d b true [] [] : octree_node_t T) =
          some (mk d b true [] []) := by
        unfold convertLeaf
        rw [if_neg]
        simp only [m_leafNode_mk, m_depth_mk, hdeq, lt_self_iff_false, decide_False,
          Bool.and_false, Bool.false_eq_true, not_false_eq_true]
      rw [hconv] at h
      simp only [m_leafNode_mk, if_true, m_depth_mk, m_bbox_mk, m_leafObjects_mk,
        m_children_mk, List.nil_append, Option.some.injEq] at h
      subst h
      simp only [stored, storedList, List.map_cons, List.map_nil, List.append_nil,
        List.mem_singleton] at hx
      subst hx
      refine ⟨hdeq, rfl, ?_⟩
      rw [aabb.contains_three_iff]
      exact fun i => ⟨le_refl _, le_refl _⟩
    · rw [if_neg hin] at h
      exact absurd h (by simp)
  | succ k ih =>
    intro d b objBox hk hd hb n1 h x hx
    have hdlt : d < MAX_OCTREE_DEPTH := by omega
    rw [insert_eq] at h
    by_cases hin : (mk d b true [] [] : octree_node_t T).m_bbox.contains objBox = some true
    · rw [if_pos hin] at h
      have hconv : convertLeaf bboxOctant (mk d b true [] [] : octree_node_t T) =
          some (mk d b false []
            ((List.range' 0 8).map fun j => mk (d + 1) (bboxOctant b j).copy true [] [])) := by
        unfold convertLeaf
        simp only [m_leafNode_mk, m_depth_mk, hdlt, decide_True, Bool.and_self, if_true]
        exact toNode_of_leaf bboxOctant (mk d b true [] []) hdlt rfl rfl rfl
      rw [hconv] at h
      simp only [m_leafNode_mk, Bool.false_eq_true, if_false, m_children_mk, m_depth_mk,
        m_bbox_mk, m_leafObjects_mk] at h
      cases hfc : forChildren (fun c =>
          if (objBox.intersectWith c.m_bbox).1
            then insert bboxOctant c (objBox.intersectWith c.m_bbox).2 obj else some c)
          ((List.range' 0 8).map fun j =>
            (mk (d + 1) (bboxOctant b j).copy true [] [] : octree_node_t T)) with
      | none => simp [hfc] at h
      | some cs1 =>
        rw [hfc] at h
        simp only [Option.some.injEq] at h
        subst h
        simp only [stored, List.map_nil, List.nil_append] at hx
        obtain ⟨c, hc, c1, hbody, hmem⟩ := forChildren_stored _ _ _ hfc x hx
        obtain ⟨j, -, rfl⟩ := List.mem_map.mp hc
        simp only [m_bbox_mk] at hbody
        by_cases hint : (objBox.intersectWith (bboxOctant b j).copy).1 = true
        · rw [if_pos hint] at hbody
          obtain ⟨h1, h2, h3⟩ := ih (d + 1) (bboxOctant b j).copy
            (objBox.intersectWith (bboxOctant b j).copy).2 (by omega) (by omega)
            (aabb.intersectWith_fixed _ _) c1 hbody x hmem
          refine ⟨h1, h2, ?_⟩
          have h4 := contains_intersectWith_left objBox (bboxOctant b j).copy hb
            (aabb.copy_fixed _) hint
          rw [aabb.contains_three_iff] at h3 h4 ⊢
          exact fun i => ⟨le_trans (h4 i).1 (h3 i).1, le_trans (h3 i).2 (h4 i).2⟩
        · rw [if_neg hint] at hbody
          simp only [Option.some.injEq] at hbody
          subst hbody
          simp [stored, storedList] at hmem
    · rw [if_neg hin] at h
      exact absurd h (by simp)

end octree_node_t

/-- C12, as the code has it: an insert into a leaf below the maximum depth
(which holds no object and has no children) converts the leaf at once into an
inner node with 8 octant children one level deeper and stores nothing in the
node itself; the conversion does not wait for a second object. The object is
handed on: each child whose box the inserted box intersects receives the
object with the box clipped to the child's box, the other children stay empty
leaves. Throughout the resulting tree the only stored entries are entries of
this object, each in a node at the maximum depth and with a box inside the
inserted box; and when the octants cover their parent, a query finds the
object exactly when the query box touches the inserted box, so the object is
not lost. -/
theorem insert_converts_shallow_leaf {T : Type} [LinearOrder T]
    (bboxOctant : aabb3 → Nat → aabb3)
    (d : Int) (b objBox : aabb3) (obj : T) (hd : d < MAX_OCTREE_DEPTH) (hb : objBox.Fixed)
    (hin : b.contains objBox = some true) :
    ∃ cs, octree_node_t.insert bboxOctant (octree_node_t.mk d b true [] []) objBox obj =
        some (octree_node_t.mk d b false [] cs) ∧
      cs.length = 8 ∧
      cs.map octree_node_t.m_bbox = (List.range' 0 8).map (fun j => (bboxOctant b j).copy) ∧
      (∀ c ∈ cs, c.m_depth = d + 1) ∧
      octree_node_t.forChildren (fun c =>
          if (objBox.intersectWith c.m_bbox).1
            then octree_node_t.insert bboxOctant c (objBox.intersectWith c.m_bbox).2 obj
            else some c)
        ((List.range' 0 8).map fun j =>
          octree_node_t.mk (d + 1) (bboxOctant b j).copy true [] []) = some cs ∧
      (∀ x ∈ octree_node_t.stored (octree_node_t.mk d b false [] cs),
        x.1 = MAX_OCTREE_DEPTH ∧ x.2.2 = obj ∧ objBox.contains x.2.1 = some true) ∧
      (b.Fixed →
        (∀ (box : aabb3) (p : qvec 3), box.containsPoint p = true →
          ∃ i, i < 8 ∧ (bboxOctant box i).containsPoint p = true) →
        ∀ Q : aabb3, Q.Fixed → ∀ t,
          t ∈ (octree_node_t.mk d b false [] cs).queryTouchingBBox Q ↔
            t = obj ∧ objBox.disjoint Q = false) := by
  have hconv : octree_node_t.convertLeaf bboxOctant
      (octree_node_t.mk d b true [] [] : octree_node_t T) =
      some (octree_node_t.mk d b false []
        ((List.range' 0 8).map fun j =>
          octree_node_t.mk (d + 1) (bboxOctant b j).copy true [] [])) := by
    unfold octree_node_t.convertLeaf
    simp only [octree_node_t.m_leafNode_mk, octree_node_t.m_depth_mk, hd, decide_True,
      Bool.and_self, if_true]
    exact octree_node_t.toNode_of_leaf bboxOctant (octree_node_t.mk d b true [] []) hd rfl rfl rfl
  have hkids : ∀ c ∈ (List.range' 0 8).map
      (fun j => (octree_node_t.mk (d + 1) (bboxOctant b j).copy true [] [] : octree_node_t T)),
      octree_node_t.Shape c ∧ ∀ b1 : aabb3, b1.Fixed → c.m_bbox.contains b1 = some true →
        ∃ c1, octree_node_t.insert bboxOctant c b1 obj = some c1 ∧ octree_node_t.Shape c1 ∧
          c1.m_bbox = c.m_bbox ∧ c1.m_depth = c.m_depth := by
    intro c hc
    obtain ⟨j, -, rfl⟩ := List.mem_map.mp hc
    have hi : octree_node_t.Shape
        (octree_node_t.mk (d + 1) (bboxOctant b j).copy true [] [] : octree_node_t T) := by
      rw [octree_node_t.shape_mk]
      exact ⟨aabb.copy_fixed _, by simp, by simp, by simp⟩
    exact ⟨hi, fun b1 hb1 hin1 => octree_node_t.insert_shape bboxOctant obj _ hi b1 hb1 hin1⟩
  obtain ⟨cs1, h1, -, h3, h4⟩ :=
    octree_node_t.insert_children_shape bboxOctant obj objBox hb _ hkids
  have hins : octree_node_t.insert bboxOctant (octree_node_t.mk d b true [] []) objBox obj =
      some (octree_node_t.mk d b false [] cs1) := by
    rw [octree_node_t.insert_eq, octree_node_t.m_bbox_mk, if_pos hin, hconv]
    simp only [octree_node_t.m_leafNode_mk, Bool.false_eq_true, if_false,
      octree_node_t.m_children_mk, octree_node_t.m_depth_mk, octree_node_t.m_bbox_mk,
      octree_node_t.m_leafObjects_mk]
    rw [h1]
  refine ⟨cs1, hins, ?_, ?_, ?_, h1, ?_, ?_⟩
  · have := congrArg List.length h3
    simpa using this
  · rw [h3, List.map_map]
    rfl
  · intro c hc
    have hmem : c.m_depth ∈ cs1.map octree_node_t.m_depth := List.mem_map_of_mem _ hc
    rw [h4, List.map_map] at hmem
    obtain ⟨j, -, hj⟩ := List.mem_map.mp hmem
    exact hj.symm
  · exact octree_node_t.insert_leaf_stored bboxOctant obj _ d b objBox rfl (le_of_lt hd) hb
      _ hins
  · intro hbfix hcover Q hQ t
    have hInv : octree_node_t.Inv (octree_node_t.mk d b true [] [] : octree_node_t T) := by
      rw [octree_node_t.inv_mk]
      exact ⟨hbfix, by simp, by simp, by simp, by simp⟩
    obtain ⟨c1, e1, -, -, e4⟩ := octree_node_t.insert_spec bboxOctant hcover obj _ hInv objBox
      hb hin
    rw [hins, Option.some.injEq] at e1
    subst e1
    rw [octree_node_t.mem_queryTouchingBBox, e4 Q hQ t, octree_node_t.hit_leaf,
      aabb.not_disjoint_iff_common_point objBox Q hb hQ]
    simp

/-- Witness of C12 as amended: a depth-0 leaf over the cube from 0 to 8, with
the octants that halve a box on every axis, which cover it. -/
theorem insert_converts_shallow_leaf_witness :
    ∃ cs, octree_node_t.insert bboxOctantHalves
        (octree_node_t.mk 0 ⟨![0, 0, 0], ![8, 8, 8]⟩ true [] []) ⟨![1, 1, 1], ![2, 2, 2]⟩
        (7 : Nat) = some (octree_node_t.mk 0 ⟨![0, 0, 0], ![8, 8, 8]⟩ false [] cs) ∧
      cs.length = 8 ∧
      cs.map octree_node_t.m_bbox =
        (List.range' 0 8).map (fun j => (bboxOctantHalves ⟨![0, 0, 0], ![8, 8, 8]⟩ j).copy) ∧
      (∀ c ∈ cs, c.m_depth = 0 + 1) ∧
      octree_node_t.forChildren (fun c =>
          if ((⟨![1, 1, 1], ![2, 2, 2]⟩ : aabb3).intersectWith c.m_bbox).1
            then octree_node_t.insert bboxOctantHalves c
              ((⟨![1, 1, 1], ![2, 2, 2]⟩ : aabb3).intersectWith c.m_bbox).2 7
            else some c)
        ((List.range' 0 8).map fun j =>
          octree_node_t.mk (0 + 1) (bboxOctantHalves ⟨![0, 0, 0], ![8, 8, 8]⟩ j).copy
            true [] []) = some cs ∧
      (∀ x ∈ octree_node_t.stored (octree_node_t.mk 0 ⟨![0, 0, 0], ![8, 8, 8]⟩ false [] cs),
        x.1 = MAX_OCTREE_DEPTH ∧ x.2.2 = 7 ∧
          (⟨![1, 1, 1], ![2, 2, 2]⟩ : aabb3).contains x.2.1 = some true) ∧
      (∀ Q : aabb3, Q.Fixed → ∀ t,
        t ∈ (octree_node_t.mk 0 ⟨![0, 0, 0], ![8, 8, 8]⟩ false [] cs).queryTouchingBBox Q ↔
          t = 7 ∧ (⟨![1, 1, 1], ![2, 2, 2]⟩ : aabb3).disjoint Q = false) := by
  obtain ⟨cs, h1, h2, h3, h4, h5, h6, h7⟩ :=
    insert_converts_shallow_leaf bboxOctantHalves 0 ⟨![0, 0, 0], ![8, 8, 8]⟩
      ⟨![1, 1, 1], ![2, 2, 2]⟩ 7 (by decide) (by decide) (by decide!)
  exact ⟨cs, h1, h2, h3, h4, h5, h6, h7 (by decide) bboxOctantHalves_cover⟩

/-- C12 as stated fails: after the first insert into a depth-0 leaf the node
is no longer a leaf and its own object list is empty; the object, whose box
touches the cuts at 1 and at 2 on every axis, sits in 27 leaves at depth 3,
and a query around it finds it. -/
theorem first_insert_not_stored_counterexample :
    (octree_node_t.insert bboxOctantHalves
      (octree_node_t.mk 0 ⟨![0, 0, 0], ![8, 8, 8]⟩ true [] []) ⟨![1, 1, 1], ![2, 2, 2]⟩
      (7 : Nat)).map (fun n => (n.m_leafNode, n.m_leafObjects.length, n.m_children.length)) =
      some (false, 0, 8) ∧
    (octree_node_t.insert bboxOctantHalves
      (octree_node_t.mk 0 ⟨![0, 0, 0], ![8, 8, 8]⟩ true [] []) ⟨![1, 1, 1], ![2, 2, 2]⟩
      (7 : Nat)).map (fun n => n.stored.map fun x => (x.1, x.2.2)) =
      some (List.replicate 27 (3, 7)) ∧
    (octree_node_t.insert bboxOctantHalves
      (octree_node_t.mk 0 ⟨![0, 0, 0], ![8, 8, 8]⟩ true [] []) ⟨![1, 1, 1], ![2, 2, 2]⟩
      (7 : Nat)).map (fun n => n.queryTouchingBBox ⟨![0, 0, 0], ![1, 1, 1]⟩) = some [7] := by
  refine ⟨?_, ?_, ?_⟩ <;> decide!

/-! ## The face-index map after a pass over the faces -/

/-- One successful call of `MakeBounceLightsThread`: the record of the face
is appended and indexed under its number when the face passes the tests, and
nothing changes otherwise. -/
theorem MakeBounceLightsThread_step (env : Collaborators) (face : mface_ptr) (st st1 : Registry)
    (h : MakeBounceLightsThread env face st = some st1) :
    (st1.radlights = if MakeBounceLightsThread.Passes env face
      then st.radlights ++ [MakeBounceLightsThread.recordOf env face] else st.radlights) ∧
    ∀ f, BounceLightsForFaceNum st1 f =
      if f = Face_GetNum face ∧ MakeBounceLightsThread.Passes env face
      then BounceLightsForFaceNum st f ++ [(st.radlights.length : Int)]
      else BounceLightsForFaceNum st f := by
  by_cases hp : MakeBounceLightsThread.Passes env face
  · rw [MakeBounceLightsThread_accepted env face st hp] at h
    obtain ⟨h1, h2⟩ := AddBounceLight_spec env _ _ _ _ face st st1 h
    refine ⟨by rw [if_pos hp]; exact h1, ?_⟩
    intro f
    rw [h2 f]
    by_cases hf : f = Face_GetNum face
    · rw [if_pos hf, if_pos ⟨hf, hp⟩]
    · rw [if_neg hf, if_neg (fun hc => hf hc.1)]
  · rw [MakeBounceLightsThread_rejected env face st hp] at h
    simp only [Option.some.injEq] at h
    subst h
    refine ⟨by rw [if_neg hp], ?_⟩
    intro f
    rw [if_neg (fun hc => hp hc.2)]

/-- A pass over pairwise distinct faces whose numbers are not indexed yet. -/
theorem runThreads_distinct (env : Collaborators) (faces : List mface_ptr) (st st1 : Registry)
    (hnd : faces.Nodup) (hfresh : ∀ face ∈ faces, BounceLightsForFaceNum st (Face_GetNum face) = [])
    (h : runThreads env faces st = some st1) :
    (∀ f, (∀ face ∈ faces, Face_GetNum face ≠ f) →
      BounceLightsForFaceNum st1 f = BounceLightsForFaceNum st f) ∧
    ∀ face ∈ faces, (BounceLightsForFaceNum st1 (Face_GetNum face)).length =
      if MakeBounceLightsThread.Passes env face then 1 else 0 := by
  induction faces generalizing st with
  | nil =>
    simp only [runThreads, Option.some.injEq] at h
    subst h
    exact ⟨fun f _ => rfl, by simp⟩
  | cons face rest ih =>
    simp only [runThreads] at h
    cases hcall : MakeBounceLightsThread env face st with
    | none => simp [hcall] at h
    | some st2 =>
      rw [hcall] at h
      obtain ⟨-, hidx⟩ := MakeBounceLightsThread_step env face st st2 hcall
      rw [List.nodup_cons] at hnd
      have hne : ∀ g ∈ rest, Face_GetNum g ≠ Face_GetNum face := by
        intro g hg heq
        have : g = face := by
          unfold Face_GetNum at heq
          exact_mod_cast heq
        exact hnd.1 (this ▸ hg)
      have hfresh2 : ∀ g ∈ rest, BounceLightsForFaceNum st2 (Face_GetNum g) = [] := by
        intro g hg
        rw [hidx, if_neg (fun hc => hne g hg hc.1)]
        exact hfresh g (List.mem_cons_of_mem _ hg)
      obtain ⟨h1, h2⟩ := ih st2 hnd.2 hfresh2 h
      refine ⟨?_, ?_⟩
      · intro f hf
        rw [h1 f (fun g hg => hf g (List.mem_cons_of_mem _ hg)), hidx,
          if_neg (fun hc => hf face (List.mem_cons_self _ _) hc.1.symm)]
      · intro g hg
        rcases List.mem_cons.mp hg with rfl | hg1
        · rw [h1 _ (fun g1 hg1 => hne g1 hg1), hidx, hfresh g (List.mem_cons_self _ _)]
          by_cases hp : MakeBounceLightsThread.Passes env g
          · simp [hp]
          · simp [hp]
        · exact h2 g hg1

/-- C16: after `MakeBounceLights` has run once from the empty registry,
`BounceLightsForFaceNum(f)` has exactly one entry when `f` is the number of a
face that passed every rejection test and is empty otherwise, also for a
number that belongs to no face; and a call of `BounceLightsForFaceNum`
returns that list and leaves the registry as it was. -/
theorem MakeBounceLights_index_lists (env : Collaborators) (st : Registry)
    (h : MakeBounceLights env Registry.empty = some st) (f : Int) :
    ((∃ face, face < env.numfaces ∧ Face_GetNum face = f ∧
        MakeBounceLightsThread.Passes env face) →
      (BounceLightsForFaceNum st f).length = 1) ∧
    ((¬ ∃ face, face < env.numfaces ∧ Face_GetNum face = f ∧
        MakeBounceLightsThread.Passes env face) →
      BounceLightsForFaceNum st f = []) ∧
    (BounceLightsForFaceNum.call st f).1 = BounceLightsForFaceNum st f ∧
    (BounceLightsForFaceNum.call st f).2 = st := by
  unfold MakeBounceLights at h
  have hempty : ∀ g : Int, BounceLightsForFaceNum Registry.empty g = [] := by
    intro g
    simp [BounceLightsForFaceNum, Registry.empty, stdmap.find]
  obtain ⟨h1, h2⟩ := runThreads_distinct env (List.range env.numfaces) Registry.empty st
    (List.nodup_range _) (fun face _ => hempty _) h
  refine ⟨?_, ?_, ?_, ?_⟩
  · rintro ⟨face, hlt, rfl, hp⟩
    rw [h2 face (List.mem_range.mpr hlt), if_pos hp]
  · intro hno
    by_cases hf : ∃ face ∈ List.range env.numfaces, Face_GetNum face = f
    · obtain ⟨face, hmem, rfl⟩ := hf
      have hnp : ¬ MakeBounceLightsThread.Passes env face :=
        fun hp => hno ⟨face, List.mem_range.mp hmem, rfl, hp⟩
      have := h2 face hmem
      rw [if_neg hnp] at this
      exact List.length_eq_zero.mp this
    · rw [h1 f (fun face hmem heq => hf ⟨face, hmem, heq⟩)]
      exact hempty f
  · unfold BounceLightsForFaceNum.call BounceLightsForFaceNum
    cases st.radlightsByFacenum.find f <;> rfl
  · unfold BounceLightsForFaceNum.call
    cases st.radlightsByFacenum.find f <;> rfl

/-- Witness of C16: the bright level, asked for face number 2. -/
theorem MakeBounceLights_index_lists_witness :
    ∃ st, MakeBounceLights brightLevel Registry.empty = some st ∧
      ((∃ face, face < brightLevel.numfaces ∧ Face_GetNum face = 2 ∧
          MakeBounceLightsThread.Passes brightLevel face) →
        (BounceLightsForFaceNum st 2).length = 1) ∧
      ((¬ ∃ face, face < brightLevel.numfaces ∧ Face_GetNum face = 2 ∧
          MakeBounceLightsThread.Passes brightLevel face) →
        BounceLightsForFaceNum st 2 = []) ∧
      (BounceLightsForFaceNum.call st 2).1 = BounceLightsForFaceNum st 2 ∧
      (BounceLightsForFaceNum.call st 2).2 = st := by
  cases h : MakeBounceLights brightLevel Registry.empty with
  | none =>
    have hs : (MakeBounceLights brightLevel Registry.empty).isSome = true := by decide!
    rw [h] at hs
    exact absurd hs (by simp)
  | some st =>
    exact ⟨st, rfl, MakeBounceLights_index_lists brightLevel st h 2⟩

/-! ## The order in which the faces are visited -/

/-- One successful call of `MakeBounceLightsThread`, seen through the records
listed for a face number. -/
theorem recordsForFaceNum_step (env : Collaborators) (face : mface_ptr) (st st1 : Registry)
    (hv : ∀ f, ∀ i ∈ BounceLightsForFaceNum st f, 0 ≤ i ∧ i < (st.radlights.length : Int))
    (h : MakeBounceLightsThread env face st = some st1) :
    (∀ f, ∀ i ∈ BounceLightsForFaceNum st1 f, 0 ≤ i ∧ i < (st1.radlights.length : Int)) ∧
    ∀ f, recordsForFaceNum st1 f =
      recordsForFaceNum st f ++
        if Face_GetNum face = f ∧ MakeBounceLightsThread.Passes env face
        then [MakeBounceLightsThread.recordOf env face] else [] := by
  obtain ⟨hrad, hidx⟩ := MakeBounceLightsThread_step env face st st1 h
  by_cases hp : MakeBounceLightsThread.Passes env face
  · rw [if_pos hp] at hrad
    constructor
    · intro f i hi
      rw [hrad, List.length_append, List.length_singleton]
      rw [hidx f] at hi
      split_ifs at hi
      · rcases List.mem_append.mp hi with h1 | h1
        · have := hv f i h1
          exact ⟨this.1, by push_cast; omega⟩
        · rw [List.mem_singleton] at h1
          subst h1
          exact ⟨by omega, by push_cast; omega⟩
      · have := hv f i hi
        exact ⟨this.1, by push_cast; omega⟩
    · intro f
      have hold : (BounceLightsForFaceNum st f).filterMap
            (fun i => (st.radlights ++ [MakeBounceLightsThread.recordOf env face])[i.toNat]?) =
          (BounceLightsForFaceNum st f).filterMap (fun i => st.radlights[i.toNat]?) := by
        apply List.filterMap_congr
        intro i hi
        have := hv f i hi
        rw [List.getElem?_append_left (by omega)]
      unfold recordsForFaceNum BounceLights
      rw [hrad, hidx f]
      by_cases hf : f = Face_GetNum face
      · rw [if_pos ⟨hf, hp⟩, if_pos ⟨hf.symm, hp⟩, List.filterMap_append, hold]
        congr 1
        simp
      · rw [if_neg (fun hc => hf hc.1), if_neg (fun hc => hf hc.1.symm), hold,
          List.append_nil]
  · rw [if_neg hp] at hrad
    have hsame : ∀ f, BounceLightsForFaceNum st1 f = BounceLightsForFaceNum st f := by
      intro f
      rw [hidx f, if_neg (fun hc => hp hc.2)]
    constructor
    · intro f i hi
      rw [hrad]
      exact hv f i (hsame f ▸ hi)
    · intro f
      unfold recordsForFaceNum BounceLights
      rw [hrad, hsame f, if_neg (fun hc => hp hc.2), List.append_nil]

/-- The records listed for a face number after a pass: one for each visit of
a face of that number that passes the tests. -/
theorem recordsForFaceNum_run (env : Collaborators) (faces : List mface_ptr) (st st1 : Registry)
    (hv : ∀ f, ∀ i ∈ BounceLightsForFaceNum st f, 0 ≤ i ∧ i < (st.radlights.length : Int))
    (h : runThreads env faces st = some st1) (f : Int) :
    recordsForFaceNum st1 f =
      recordsForFaceNum st f ++
        (faces.filter fun g =>
          decide (Face_GetNum g = f ∧ MakeBounceLightsThread.Passes env g)).map
          (MakeBounceLightsThread.recordOf env) := by
  induction faces generalizing st with
  | nil =>
    simp only [runThreads, Option.some.injEq] at h
    subst h
    simp
  | cons face rest ih =>
    simp only [runThreads] at h
    cases hcall : MakeBounceLightsThread env face st with
    | none => simp [hcall] at h
    | some st2 =>
      rw [hcall] at h
      obtain ⟨hv2, hrec⟩ := recordsForFaceNum_step env face st st2 hv hcall
      rw [ih st2 hv2 h, hrec f, List.filter_cons]
      by_cases hc : Face_GetNum face = f ∧ MakeBounceLightsThread.Passes env face
      · simp [hc]
      · simp [hc]

/-- C18: for a fixed level, configuration and sampler, two passes of
`MakeBounceLightsThread` over the same faces in different orders, each from
the empty registry, list for every face number the same number of records,
and the same records: position, emitted colours per style, componentwise
maximum colour, normal, area and every other field agree. -/
theorem pass_order_independent (env : Collaborators) (faces1 faces2 : List mface_ptr)
    (hperm : faces1.Perm faces2) (st1 st2 : Registry)
    (h1 : runThreads env faces1 Registry.empty = some st1)
    (h2 : runThreads env faces2 Registry.empty = some st2) (f : Int) :
    (recordsForFaceNum st1 f).length = (recordsForFaceNum st2 f).length ∧
    recordsForFaceNum st1 f = recordsForFaceNum st2 f ∧
    ∀ l ∈ recordsForFaceNum st1 f, ∃ face, Face_GetNum face = f ∧
      l.pos = (fun i => env.center (env.from_face face) i +
        (env.plane (env.from_face face)).normal i) ∧
      l.colorByStyle = MakeBounceLightsThread.emitted env face ∧
      l.componentwiseMaxColor = componentwiseMaxColor (MakeBounceLightsThread.emitted env face) ∧
      l.surfnormal = (env.plane (env.from_face face)).normal ∧
      l.area = env.area (env.from_face face) := by
  have hv : ∀ g, ∀ i ∈ BounceLightsForFaceNum Registry.empty g,
      0 ≤ i ∧ i < (Registry.empty.radlights.length : Int) := by
    intro g i hi
    simp [BounceLightsForFaceNum, Registry.empty, stdmap.find] at hi
  have hnil : recordsForFaceNum Registry.empty f = [] := by
    simp [recordsForFaceNum, BounceLightsForFaceNum, Registry.empty, stdmap.find]
  have e1 := recordsForFaceNum_run env faces1 Registry.empty st1 hv h1 f
  have e2 := recordsForFaceNum_run env faces2 Registry.empty st2 hv h2 f
  rw [hnil, List.nil_append] at e1 e2
  have hfilter := hperm.filter
    (fun g => decide (Face_GetNum g = f ∧ MakeBounceLightsThread.Passes env g))
  have hall : ∀ (faces : List mface_ptr),
      (faces.filter fun g =>
        decide (Face_GetNum g = f ∧ MakeBounceLightsThread.Passes env g)).map
        (MakeBounceLightsThread.recordOf env) =
      List.replicate (faces.filter fun g =>
        decide (Face_GetNum g = f ∧ MakeBounceLightsThread.Passes env g)).length
        (MakeBounceLightsThread.recordOf env f.toNat) := by
    intro faces
    rw [List.eq_replicate_iff]
    refine ⟨by simp, ?_⟩
    intro l hl
    obtain ⟨g, hg, rfl⟩ := List.mem_map.mp hl
    have hgf := (of_decide_eq_true (List.mem_filter.mp hg).2).1
    have : g = f.toNat := by
      rw [← hgf]
      simp [Face_GetNum]
    rw [this]
  have heq : recordsForFaceNum st1 f = recordsForFaceNum st2 f := by
    rw [e1, e2, hall faces1, hall faces2, hfilter.length_eq]
  refine ⟨by rw [heq], heq, ?_⟩
  intro l hl
  rw [e1] at hl
  obtain ⟨g, hg, rfl⟩ := List.mem_map.mp hl
  exact ⟨g, (of_decide_eq_true (List.mem_filter.mp hg).2).1, rfl, rfl, rfl, rfl, rfl⟩

/-- Witness of C18: faces 0, 2, 3 of the bright level in two orders. -/
theorem pass_order_independent_witness :
    ∃ st1 st2,
      runThreads brightLevel [0, 2, 3] Registry.empty = some st1 ∧
      runThreads brightLevel [3, 2, 0] Registry.empty = some st2 ∧
      (recordsForFaceNum st1 0).length = (recordsForFaceNum st2 0).length ∧
      recordsForFaceNum st1 0 = recordsForFaceNum st2 0 ∧
      ∀ l ∈ recordsForFaceNum st1 0, ∃ face, Face_GetNum face = 0 ∧
        l.pos = (fun i => brightLevel.center (brightLevel.from_face face) i +
          (brightLevel.plane (brightLevel.from_face face)).normal i) ∧
        l.colorByStyle = MakeBounceLightsThread.emitted brightLevel face ∧
        l.componentwiseMaxColor =
          componentwiseMaxColor (MakeBounceLightsThread.emitted brightLevel face) ∧
        l.surfnormal = (brightLevel.plane (brightLevel.from_face face)).normal ∧
        l.area = brightLevel.area (brightLevel.from_face face) := by
  cases h1 : runThreads brightLevel [0, 2, 3] Registry.empty with
  | none =>
    have hs : (runThreads brightLevel [0, 2, 3] Registry.empty).isSome = true := by decide!
    rw [h1] at hs
    exact absurd hs (by simp)
  | some st1 =>
    cases h2 : runThreads brightLevel [3, 2, 0] Registry.empty with
    | none =>
      have hs : (runThreads brightLevel [3, 2, 0] Registry.empty).isSome = true := by decide!
      rw [h2] at hs
      exact absurd hs (by simp)
    | some st2 =>
      exact ⟨st1, st2, rfl, rfl,
        pass_order_independent brightLevel [0, 2, 3] [3, 2, 0] (by decide) st1 st2 h1 h2 0⟩

/-! ## The order in which `dice` delivers the patches -/

/-- Two maps with increasing keys and the same lookups are the same map. -/
theorem stdmap.ext_of_sorted {V : Type} (m1 m2 : stdmap V)
    (h1 : m1.keys.Pairwise (fun a b => a < b)) (h2 : m2.keys.Pairwise (fun a b => a < b))
    (h : ∀ s, m1.find s = m2.find s) : m1 = m2 := by
  induction m1 generalizing m2 with
  | nil =>
    cases m2 with
    | nil => rfl
    | cons b l2 =>
      have := h b.1
      rw [stdmap.find_cons_self] at this
      simp [stdmap.find, List.lookup] at this
  | cons a l1 ih =>
    obtain ⟨ka, va⟩ := a
    cases m2 with
    | nil =>
      have := h ka
      rw [stdmap.find_cons_self] at this
      simp [stdmap.find, List.lookup] at this
    | cons b l2 =>
      obtain ⟨kb, vb⟩ := b
      simp only [stdmap.keys, List.map_cons, List.pairwise_cons] at h1 h2
      have hka : ka ∉ stdmap.keys l1 := fun hm => lt_irrefl _ (h1.1 ka hm)
      have hkb : kb ∉ stdmap.keys l2 := fun hm => lt_irrefl _ (h2.1 kb hm)
      have hk : ka = kb := by
        by_contra hne
        have e1 := h ka
        rw [stdmap.find_cons_self, stdmap.find_cons_of_ne (kb, vb) l2 ka hne] at e1
        have e2 := h kb
        rw [stdmap.find_cons_self,
          stdmap.find_cons_of_ne (ka, va) l1 kb (fun e => hne e.symm)] at e2
        have m1 : ka ∈ stdmap.keys l2 := (stdmap.mem_keys_iff l2 ka).mpr ⟨va, e1.symm⟩
        have m2 : kb ∈ stdmap.keys l1 := (stdmap.mem_keys_iff l1 kb).mpr ⟨vb, e2⟩
        exact lt_asymm (h2.1 ka m1) (h1.1 kb m2)
      subst hk
      have hv : va = vb := by
        have := h ka
        rw [stdmap.find_cons_self, stdmap.find_cons_self] at this
        exact Option.some.inj this
      subst hv
      have htail : l1 = l2 := by
        apply ih l2 h1.2 h2.2
        intro s
        by_cases hs : s = ka
        · subst hs
          rw [(stdmap.find_eq_none_iff l1 s).mpr hka, (stdmap.find_eq_none_iff l2 s).mpr hkb]
        · have := h s
          rw [stdmap.find_cons_of_ne (ka, va) l1 s hs,
            stdmap.find_cons_of_ne (ka, va) l2 s hs] at this
          exact this
      rw [htail]

/-- The loop over the patches gives the same total area and the same sums
for any order of the patches. -/
theorem MakeBounceLightsThread.accumulate_perm (env : Collaborators) (ps1 ps2 : List patch_t)
    (hperm : ps1.Perm ps2) (hps : ∀ p ∈ ps1, p.lightByStyle.keys.Nodup) :
    MakeBounceLightsThread.accumulate env ps1 = MakeBounceLightsThread.accumulate env ps2 := by
  have hps2 : ∀ p ∈ ps2, p.lightByStyle.keys.Nodup := fun p hp => hps p (hperm.mem_iff.mpr hp)
  obtain ⟨a1, a2, a3, a4⟩ := MakeBounceLightsThread.accumulate_spec env ps1 hps
  obtain ⟨b1, b2, b3, b4⟩ := MakeBounceLightsThread.accumulate_spec env ps2 hps2
  have harea : (MakeBounceLightsThread.accumulate env ps1).2 =
      (MakeBounceLightsThread.accumulate env ps2).2 := by
    rw [a1, b1]
    exact (hperm.map _).sum_eq
  have hkeys : ∀ s, s ∈ (MakeBounceLightsThread.accumulate env ps1).1.keys ↔
      s ∈ (MakeBounceLightsThread.accumulate env ps2).1.keys := by
    intro s
    rw [a3, b3]
    constructor
    · rintro ⟨p, hp, hs⟩
      exact ⟨p, hperm.mem_iff.mp hp, hs⟩
    · rintro ⟨p, hp, hs⟩
      exact ⟨p, hperm.mem_iff.mpr hp, hs⟩
  have hsum : (MakeBounceLightsThread.accumulate env ps1).1 =
      (MakeBounceLightsThread.accumulate env ps2).1 := by
    apply stdmap.ext_of_sorted _ _ a2 b2
    intro s
    cases hf1 : (MakeBounceLightsThread.accumulate env ps1).1.find s with
    | none =>
      have hn1 := (stdmap.find_eq_none_iff _ s).mp hf1
      exact ((stdmap.find_eq_none_iff _ s).mpr (fun hm => hn1 ((hkeys s).mpr hm))).symm
    | some v1 =>
      have hm1 : s ∈ (MakeBounceLightsThread.accumulate env ps1).1.keys :=
        (stdmap.mem_keys_iff _ s).mpr ⟨v1, hf1⟩
      obtain ⟨v2, hf2⟩ := (stdmap.mem_keys_iff _ s).mp ((hkeys s).mp hm1)
      rw [hf2]
      congr 1
      funext k
      have e1 := a4 s k
      rw [stdmap.index_of_find hf1] at e1
      have e2 := b4 s k
      rw [stdmap.index_of_find hf2] at e2
      rw [e1, e2]
      exact (hperm.map _).sum_eq
  exact Prod.ext hsum harea

/-- C19: when `dice` delivers the patches of every winding in another order,
the total patch area, the area-weighted colour sums per style, the emitted
colours and the whole effect of `MakeBounceLightsThread` on the registry are
the same, in exact arithmetic. -/
theorem dice_order_irrelevant (env : Collaborators) (dice2 : ℚ → winding_t → List winding_t)
    (hperm : ∀ a w, (dice2 a w).Perm (env.dice a w))
    (hmap : ∀ pos normal, (env.GetDirectLighting pos normal).keys.Nodup)
    (face : mface_ptr) (st : Registry) :
    MakeBounceLightsThread.totalarea { env with dice := dice2 } face =
      MakeBounceLightsThread.totalarea env face ∧
    (MakeBounceLightsThread.accumulate { env with dice := dice2 }
        (MakeBounceLightsThread.patches { env with dice := dice2 } face)).1 =
      (MakeBounceLightsThread.accumulate env (MakeBounceLightsThread.patches env face)).1 ∧
    MakeBounceLightsThread.emitted { env with dice := dice2 } face =
      MakeBounceLightsThread.emitted env face ∧
    MakeBounceLightsThread { env with dice := dice2 } face st =
      MakeBounceLightsThread env face st := by
  have hpatches : (MakeBounceLightsThread.patches { env with dice := dice2 } face).Perm
      (MakeBounceLightsThread.patches env face) :=
    (hperm 64 (env.from_face face)).map (MakePatch env)
  have hnd : ∀ p ∈ MakeBounceLightsThread.patches { env with dice := dice2 } face,
      p.lightByStyle.keys.Nodup :=
    fun p hp => MakeBounceLightsThread.patches_nodup env face hmap p (hpatches.mem_iff.mp hp)
  have hacc : MakeBounceLightsThread.accumulate { env with dice := dice2 }
      (MakeBounceLightsThread.patches { env with dice := dice2 } face) =
      MakeBounceLightsThread.accumulate env (MakeBounceLightsThread.patches env face) :=
    MakeBounceLightsThread.accumulate_perm env _ _ hpatches hnd
  have harea : MakeBounceLightsThread.totalarea { env with dice := dice2 } face =
      MakeBounceLightsThread.totalarea env face := congrArg Prod.snd hacc
  have hnorm : MakeBounceLightsThread.normalizedSum { env with dice := dice2 } face =
      MakeBounceLightsThread.normalizedSum env face := by
    unfold MakeBounceLightsThread.normalizedSum
    rw [hacc, harea]
  have hemit : MakeBounceLightsThread.emitted { env with dice := dice2 } face =
      MakeBounceLightsThread.emitted env face := by
    unfold MakeBounceLightsThread.emitted
    rw [hnorm]
    rfl
  refine ⟨harea, congrArg Prod.fst hacc, hemit, ?_⟩
  have hpass : MakeBounceLightsThread.Passes { env with dice := dice2 } face ↔
      MakeBounceLightsThread.Passes env face := by
    unfold MakeBounceLightsThread.Passes
    rw [harea, hnorm]
    exact Iff.rfl
  by_cases hp : MakeBounceLightsThread.Passes env face
  · rw [MakeBounceLightsThread_accepted env face st hp,
      MakeBounceLightsThread_accepted { env with dice := dice2 } face st (hpass.mpr hp)]
    have e := hemit
    unfold MakeBounceLightsThread.emitted MakeBounceLightsThread.normalizedSum
      MakeBounceLightsThread.totalarea at e
    rw [e]
    rfl
  · rw [MakeBounceLightsThread_rejected env face st hp,
      MakeBounceLightsThread_rejected { env with dice := dice2 } face st
        (fun h => hp (hpass.mp h))]

/-- Witness of C19: the two patches of the split level, delivered in the
opposite order. -/
theorem dice_order_irrelevant_witness :
    MakeBounceLightsThread.totalarea
        { splitLevel with dice := fun _ w => [w.reverse, w] } 0 =
      MakeBounceLightsThread.totalarea splitLevel 0 ∧
    (MakeBounceLightsThread.accumulate { splitLevel with dice := fun _ w => [w.reverse, w] }
        (MakeBounceLightsThread.patches
          { splitLevel with dice := fun _ w => [w.reverse, w] } 0)).1 =
      (MakeBounceLightsThread.accumulate splitLevel
        (MakeBounceLightsThread.patches splitLevel 0)).1 ∧
    MakeBounceLightsThread.emitted { splitLevel with dice := fun _ w => [w.reverse, w] } 0 =
      MakeBounceLightsThread.emitted splitLevel 0 ∧
    MakeBounceLightsThread { splitLevel with dice := fun _ w => [w.reverse, w] } 0
        Registry.empty =
      MakeBounceLightsThread splitLevel 0 Registry.empty :=
  dice_order_irrelevant splitLevel (fun _ w => [w.reverse, w])
    (fun _ w => List.Perm.swap w w.reverse [])
    (fun _ _ => by
      show (stdmap.keys [((0 : Int), (![255, 255, 255] : qvec3f))]).Nodup
      decide)
    0 Registry.empty


/-! ## The registry around one `AddBounceLight` -/

/-- C21: `AddBounceLight` is append-only. When its assertions hold the call
returns, and the bounce-light sequence after it is the sequence before it
followed by exactly one new record; every record that existed before stays at
its index; the list of the record's own face number is the old list followed
by the new record's index, which is the old sequence length; and the entry of
every other face number in the map is what it was. -/
theorem AddBounceLight_append_only (env : Collaborators) (pos : qvec3d)
    (colorByStyle : stdmap qvec3f) (surfnormal : qvec3d) (area : ℚ) (face : mface_ptr)
    (st : Registry) (hcolor : ∀ styleColor ∈ colorByStyle, ∀ k, 0 ≤ styleColor.2 k)
    (harea : 0 < area) :
    ∃ st1, AddBounceLight env pos colorByStyle surfnormal area face st = some st1 ∧
      st1.radlights =
        st.radlights ++ [AddBounceLight.record env pos colorByStyle surfnormal area face] ∧
      st1.radlights.length = st.radlights.length + 1 ∧
      (∀ i, i < st.radlights.length → st1.radlights[i]? = st.radlights[i]?) ∧
      st1.radlightsByFacenum.find (Face_GetNum face) =
        some (BounceLightsForFaceNum st (Face_GetNum face) ++ [(st.radlights.length : Int)]) ∧
      (∀ f, f ≠ Face_GetNum face →
        st1.radlightsByFacenum.find f = st.radlightsByFacenum.find f) := by
  obtain ⟨st1, h⟩ := (AddBounceLight_some_iff env pos colorByStyle surfnormal area face st).mpr
    ⟨hcolor, harea⟩
  refine ⟨st1, h, ?_⟩
  unfold AddBounceLight at h
  split_ifs at h
  simp only [Option.some.injEq] at h
  subst h
  refine ⟨rfl, by simp, ?_, ?_, ?_⟩
  · intro i hi
    exact List.getElem?_append_left hi
  · simp only [stdmap.find_set, if_true, BounceLightsForFaceNum, stdmap.index,
      List.length_append, List.length_singleton, Nat.cast_add, Nat.cast_one,
      add_sub_cancel_right]
    cases st.radlightsByFacenum.find (Face_GetNum face) <;> rfl
  · intro f hf
    simp only [stdmap.find_set, if_neg hf]

/-- Witness of C21: a second light for face 0 of the sample level, added to
a registry that holds one light for face 0. -/
theorem AddBounceLight_append_only_witness :
    ∃ st1, AddBounceLight sampleLevel ![0, 0, 1] [(0, ![1, 1, 0])] ![0, 0, 1] 4 0
        ⟨[AddBounceLight.record sampleLevel ![0, 0, 1] [(0, ![1, 1, 1])] ![0, 0, 1] 4 0],
          [(0, [0])]⟩ = some st1 ∧
      st1.radlights =
        [AddBounceLight.record sampleLevel ![0, 0, 1] [(0, ![1, 1, 1])] ![0, 0, 1] 4 0] ++
          [AddBounceLight.record sampleLevel ![0, 0, 1] [(0, ![1, 1, 0])] ![0, 0, 1] 4 0] ∧
      st1.radlights.length = 1 + 1 ∧
      (∀ i, i < 1 → st1.radlights[i]? =
        [AddBounceLight.record sampleLevel ![0, 0, 1] [(0, ![1, 1, 1])] ![0, 0, 1] 4 0][i]?) ∧
      st1.radlightsByFacenum.find (Face_GetNum 0) = some ([0] ++ [((1 : Nat) : Int)]) ∧
      (∀ f, f ≠ Face_GetNum 0 →
        st1.radlightsByFacenum.find f = stdmap.find [(0, [0])] f) :=
  AddBounceLight_append_only sampleLevel ![0, 0, 1] [(0, ![1, 1, 0])] ![0, 0, 1] 4 0
    ⟨[AddBounceLight.record sampleLevel ![0, 0, 1] [(0, ![1, 1, 1])] ![0, 0, 1] 4 0],
      [(0, [0])]⟩
    (by
      intro styleColor h k
      rw [List.mem_singleton] at h
      subst h
      fin_cases k <;> simp)
    (by norm_num)


/-! ## The union of two boxes and the root box of `makeOctree` -/

theorem aabb.unionWith_mins {N : Nat} (a b : aabb N) (hb : b.Fixed) (i : Fin N) :
    (a.unionWith b).m_mins i = min (a.m_mins i) (b.m_mins i) := by
  unfold aabb.unionWith
  rw [aabb.expand_mins, aabb.expand_mins]
  have := hb i
  rw [min_eq_left (le_trans (min_le_right _ _) this)]

theorem aabb.unionWith_maxs {N : Nat} (a b : aabb N) (hb : b.Fixed) (i : Fin N) :
    (a.unionWith b).m_maxs i = max (a.m_maxs i) (b.m_maxs i) := by
  have h := hb i
  show (aabb.fix _).m_maxs i = _
  rw [aabb.fix_maxs]
  show max (qmax ((aabb.fix _).m_maxs i) (b.m_maxs i))
    (qmin ((a.expand b.m_mins).m_mins i) (b.m_maxs i)) = _
  rw [aabb.fix_maxs, aabb.expand_mins]
  show max (qmax (max (qmax (a.m_maxs i) (b.m_mins i)) (qmin (a.m_mins i) (b.m_mins i)))
    (b.m_maxs i)) (qmin (min (a.m_mins i) (b.m_mins i)) (b.m_maxs i)) = _
  simp only [qmax_eq_max, qmin_eq_min]
  apply le_antisymm
  · refine max_le (max_le (max_le (max_le (le_max_left _ _) (le_trans h (le_max_right _ _)))
      ?_) (le_max_right _ _)) ?_
    · exact le_trans (min_le_right _ _) (le_trans h (le_max_right _ _))
    · exact le_trans (min_le_right _ _) (le_max_right _ _)
  · exact max_le (le_trans (le_trans (le_trans (le_max_left _ _) (le_max_left _ _))
      (le_max_left _ _)) (le_max_left _ _)) (le_trans (le_max_right _ _) (le_max_left _ _))

theorem octree_node_t.insertAll_append {T : Type} (bboxOctant : aabb3 → Nat → aabb3)
    (l1 l2 : List (aabb3 × T)) (res : octree_node_t T) :
    octree_node_t.insertAll bboxOctant (l1 ++ l2) res =
      (octree_node_t.insertAll bboxOctant l1 res).bind
        (octree_node_t.insertAll bboxOctant l2) := by
  induction l1 generalizing res with
  | nil => rfl
  | cons a l ih =>
    simp only [List.cons_append, octree_node_t.insertAll]
    cases octree_node_t.insert bboxOctant res a.1 a.2 with
    | none => rfl
    | some res1 => exact ih res1


/-- A sequence of inserts of fixed boxes that the root's box contains passes
every assertion. -/
theorem octree_node_t.insertAll_some {T : Type} (bboxOctant : aabb3 → Nat → aabb3)
    (objects : List (aabb3 × T)) (res : octree_node_t T) (hs : octree_node_t.Shape res)
    (hobj : ∀ o ∈ objects, o.1.Fixed ∧ res.m_bbox.contains o.1 = some true) :
    ∃ root, octree_node_t.insertAll bboxOctant objects res = some root ∧
      octree_node_t.Shape root ∧ root.m_bbox = res.m_bbox := by
  induction objects generalizing res with
  | nil => exact ⟨res, rfl, hs, rfl⟩
  | cons a l ih =>
    obtain ⟨ha, hin⟩ := hobj a (List.mem_cons_self _ _)
    obtain ⟨res1, h1, h2, h3, -⟩ := octree_node_t.insert_shape bboxOctant a.2 res hs a.1 ha hin
    obtain ⟨root, h4, h5, h6⟩ := ih res1 h2 (fun o ho => by
      rw [h3]
      exact hobj o (List.mem_cons_of_mem _ ho))
    refine ⟨root, ?_, h5, h6.trans h3⟩
    simp only [octree_node_t.insertAll, h1]
    exact h4

/-- C23: for 3-D boxes `a` and `b`, `a.unionWith(b)` has as mins the
componentwise minimum of the two mins and as maxs the componentwise maximum
of the two maxs, so it contains both `a` and `b`. Consequently, for a
non-empty object list `makeOctree` returns a tree whose root box contains the
box of every listed object, and each of its inserts is made on a tree whose
box contains the inserted box, which is the precondition that `insert`
asserts. Boxes are values the constructors of `aabb` produce, with
mins <= maxs on every axis. -/
theorem unionWith_hull_and_root_box {T : Type} (bboxOctant : aabb3 → Nat → aabb3)
    (a b : aabb3) (hb : b.Fixed)
    (first : aabb3 × T) (rest : List (aabb3 × T)) (hobj : ∀ o ∈ first :: rest, o.1.Fixed) :
    (∀ i, (a.unionWith b).m_mins i = min (a.m_mins i) (b.m_mins i) ∧
      (a.unionWith b).m_maxs i = max (a.m_maxs i) (b.m_maxs i)) ∧
    (a.unionWith b).contains a = some true ∧ (a.unionWith b).contains b = some true ∧
    ∃ root, makeOctree bboxOctant (first :: rest) = some root ∧
      (∀ o ∈ first :: rest, root.m_bbox.contains o.1 = some true) ∧
      ∀ (before after : List (aabb3 × T)) (pr : aabb3 × T),
        first :: rest = before ++ pr :: after →
        ∃ r0 res,
          octree_node_t.create
            ((first :: rest).foldl (fun box pr => box.unionWith pr.1) first.1.copy) 0 =
            some r0 ∧
          octree_node_t.insertAll bboxOctant before r0 = some res ∧
          res.m_bbox = root.m_bbox ∧
          res.m_bbox.contains pr.1 = some true := by
  refine ⟨fun i => ⟨aabb.unionWith_mins a b hb i, aabb.unionWith_maxs a b hb i⟩, ?_, ?_, ?_⟩
  · rw [aabb.contains_three_iff]
    intro i
    rw [aabb.unionWith_mins a b hb, aabb.unionWith_maxs a b hb]
    exact ⟨min_le_left _ _, le_max_left _ _⟩
  · rw [aabb.contains_three_iff]
    intro i
    rw [aabb.unionWith_mins a b hb, aabb.unionWith_maxs a b hb]
    exact ⟨min_le_right _ _, le_max_right _ _⟩
  · obtain ⟨h1, -, h3⟩ := octree_node_t.union_fold_spec (first :: rest) first.1.copy
      (aabb.copy_fixed _) hobj
    have hc : octree_node_t.create
        ((first :: rest).foldl (fun box pr => box.unionWith pr.1) first.1.copy) 0 =
        some (octree_node_t.mk 0
          ((first :: rest).foldl (fun box pr => box.unionWith pr.1) first.1.copy).copy
          true ([] : List (aabb3 × T)) []) := by
      simp [octree_node_t.create, MAX_OCTREE_DEPTH]
    have hs := (octree_node_t.shape_create _ _ _ hc).1
    have hin : ∀ o ∈ first :: rest, o.1.Fixed ∧
        (octree_node_t.mk 0
          ((first :: rest).foldl (fun box pr => box.unionWith pr.1) first.1.copy).copy
          true ([] : List (aabb3 × T)) []).m_bbox.contains o.1 = some true := by
      intro o ho
      refine ⟨hobj o ho, ?_⟩
      rw [octree_node_t.m_bbox_mk, aabb.copy_of_fixed _ h1, aabb.contains_three_iff]
      exact h3 o ho
    obtain ⟨root, h4, -, h6⟩ := octree_node_t.insertAll_some bboxOctant (first :: rest) _ hs hin
    refine ⟨root, ?_, ?_, ?_⟩
    · simp only [makeOctree, hc]
      exact h4
    · intro o ho
      rw [h6]
      exact (hin o ho).2
    · intro before after pr hsplit
      obtain ⟨res, h7, -, h9⟩ := octree_node_t.insertAll_some bboxOctant before _ hs
        (fun o ho => hin o (by rw [hsplit]; exact List.mem_append_left _ ho))
      refine ⟨_, res, hc, h7, h9.trans h6.symm, ?_⟩
      rw [h9]
      exact (hin pr (by rw [hsplit]; simp)).2

/-- Witness of C23: two boxes that overlap on one axis only, and a list of
two objects under the halving octants. -/
theorem unionWith_hull_and_root_box_witness :
    (∀ i, ((⟨![0, 0, 0], ![1, 1, 1]⟩ : aabb3).unionWith ⟨![4, -1, 4], ![8, 8, 8]⟩).m_mins i =
        min ((![0, 0, 0] : qvec 3) i) ((![4, -1, 4] : qvec 3) i) ∧
      ((⟨![0, 0, 0], ![1, 1, 1]⟩ : aabb3).unionWith ⟨![4, -1, 4], ![8, 8, 8]⟩).m_maxs i =
        max ((![1, 1, 1] : qvec 3) i) ((![8, 8, 8] : qvec 3) i)) ∧
    ((⟨![0, 0, 0], ![1, 1, 1]⟩ : aabb3).unionWith ⟨![4, -1, 4], ![8, 8, 8]⟩).contains
      ⟨![0, 0, 0], ![1, 1, 1]⟩ = some true ∧
    ((⟨![0, 0, 0], ![1, 1, 1]⟩ : aabb3).unionWith ⟨![4, -1, 4], ![8, 8, 8]⟩).contains
      ⟨![4, -1, 4], ![8, 8, 8]⟩ = some true ∧
    ∃ root, makeOctree bboxOctantHalves
        (((⟨![0, 0, 0], ![1, 1, 1]⟩, 7) : aabb3 × Nat) :: [(⟨![4, -1, 4], ![8, 8, 8]⟩, 9)]) =
        some root ∧
      (∀ o ∈ ((⟨![0, 0, 0], ![1, 1, 1]⟩, 7) : aabb3 × Nat) :: [(⟨![4, -1, 4], ![8, 8, 8]⟩, 9)],
        root.m_bbox.contains o.1 = some true) ∧
      ∀ (before after : List (aabb3 × Nat)) (pr : aabb3 × Nat),
        ((⟨![0, 0, 0], ![1, 1, 1]⟩, 7) : aabb3 × Nat) :: [(⟨![4, -1, 4], ![8, 8, 8]⟩, 9)] =
          before ++ pr :: after →
        ∃ r0 res,
          octree_node_t.create
            ((((⟨![0, 0, 0], ![1, 1, 1]⟩, 7) : aabb3 × Nat) ::
              [(⟨![4, -1, 4], ![8, 8, 8]⟩, 9)]).foldl (fun box pr => box.unionWith pr.1)
              (aabb.copy ⟨![0, 0, 0], ![1, 1, 1]⟩)) 0 = some r0 ∧
          octree_node_t.insertAll bboxOctantHalves before r0 = some res ∧
          res.m_bbox = root.m_bbox ∧
          res.m_bbox.contains pr.1 = some true :=
  unionWith_hull_and_root_box bboxOctantHalves ⟨![0, 0, 0], ![1, 1, 1]⟩
    ⟨![4, -1, 4], ![8, 8, 8]⟩ (by decide) (⟨![0, 0, 0], ![1, 1, 1]⟩, 7)
    [(⟨![4, -1, 4], ![8, 8, 8]⟩, 9)]
    (by
      intro o ho
      simp only [List.mem_cons, List.mem_singleton, List.not_mem_nil, or_false] at ho
      rcases ho with rfl | rfl <;> decide)


/-! ## The assertions of `AddBounceLight` on the call of `MakeBounceLightsThread` -/

namespace MakeBounceLightsThread

end MakeBounceLightsThread


theorem aabb.read_two (v : qvec 2) :
    qvec.read v 0 = some (v 0) ∧ qvec.read v 1 = some (v 1) ∧ qvec.read v 2 = none := by
  refine ⟨rfl, rfl, rfl⟩

/-- C24, what the code does: the loop of `contains` runs over the axes 0, 1
and 2 whatever the dimension is. For `aabb3` it reads stored components only
and returns true exactly when `b.mins[i] >= a.mins[i]` and
`b.maxs[i] <= a.maxs[i]` on every axis. For `aabb2` it never returns true:
when both stored axes pass, the third round reads component 2 of vectors
that store components 0 and 1 only, and otherwise it returns false; so for
the box from (0, 0) to (1, 1), `a.contains(a)` reads outside the vectors. -/
theorem contains_loops_over_three_axes :
    (∀ a b : aabb3, a.contains b =
      some (decide (∀ i, b.m_mins i ≥ a.m_mins i ∧ b.m_maxs i ≤ a.m_maxs i))) ∧
    (∀ a b : aabb2, a.contains b =
      if ∀ i, b.m_mins i ≥ a.m_mins i ∧ b.m_maxs i ≤ a.m_maxs i then none else some false) ∧
    (aabb.new ![0, 0] ![1, 1] : aabb2).contains (aabb.new ![0, 0] ![1, 1]) = none := by
  have two : ∀ a b : aabb2, a.contains b =
      if ∀ i, b.m_mins i ≥ a.m_mins i ∧ b.m_maxs i ≤ a.m_maxs i then none else some false := by
    intro a b
    obtain ⟨a0, a1, a2⟩ := aabb.read_two a.m_mins
    obtain ⟨A0, A1, A2⟩ := aabb.read_two a.m_maxs
    obtain ⟨b0, b1, b2⟩ := aabb.read_two b.m_mins
    obtain ⟨B0, B1, B2⟩ := aabb.read_two b.m_maxs
    simp only [aabb.contains, aabb.containsFrom, a0, a1, a2, A0, A1, b0, b1, b2, B0, B1,
      Fin.forall_fin_succ, Fin.succ_zero_eq_one, gt_iff_lt, ge_iff_le]
    by_cases h0 : b.m_mins 0 < a.m_mins 0
    · simp [h0, not_le.mpr h0]
    by_cases h0' : a.m_maxs 0 < b.m_maxs 0
    · simp [h0, h0', not_le.mpr h0']
    by_cases h1 : b.m_mins 1 < a.m_mins 1
    · simp [h0, h0', h1, not_le.mpr h1]
    by_cases h1' : a.m_maxs 1 < b.m_maxs 1
    · simp [h0, h0', h1, h1', not_le.mpr h1']
    simp [h0, h0', h1, h1', not_lt.mp h0, not_lt.mp h0', not_lt.mp h1, not_lt.mp h1']
  refine ⟨fun a b => aabb.contains_three a b, two, ?_⟩
  rw [two, if_pos]
  intro i
  exact ⟨le_refl _, le_refl _⟩


/-! ## The work counter of `threads.cc` -/

theorem wrapInt_of_range (x : Int) (h0 : -2 ^ 31 ≤ x) (h1 : x < 2 ^ 31) : wrapInt x = x := by
  unfold wrapInt
  rw [Int.emod_eq_of_lt (by omega) (by omega)]
  omega

/-- The bound on the rounds of the progress loop is never what ends it: the
loop is left with `oldpercent < percent` false. -/
theorem GetThreadWork_Locked__.loop_exits (percent : Int) (hp : percent < 2 ^ 31) (fuel : Nat)
    (s : Int × List Char) (hs : -2 ^ 31 ≤ s.1) (hfuel : (percent - s.1).toNat ≤ fuel) :
    (GetThreadWork_Locked__.loop percent fuel s).1 = max s.1 percent := by
  induction fuel generalizing s with
  | zero =>
    unfold GetThreadWork_Locked__.loop
    have : percent ≤ s.1 := by omega
    exact (max_eq_left this).symm
  | succ fuel ih =>
    unfold GetThreadWork_Locked__.loop
    by_cases h : s.1 < percent
    · rw [if_pos h]
      have hw : wrapInt (s.1 + 1) = s.1 + 1 := wrapInt_of_range _ (by omega) (by omega)
      rw [ih _ (by simp only [hw]; omega) (by simp only [hw]; omega)]
      simp only [hw]
      rw [max_eq_right (by omega), max_eq_right (le_of_lt h)]
    · rw [if_neg h]
      exact (max_eq_left (not_lt.mp h)).symm

/-- One call while work is left: it returns `dispatch` and moves it on by
one. -/
theorem GetThreadWork_Locked__.hands_out (g : ThreadGlobals) (h0 : 0 ≤ g.dispatch)
    (h1 : g.dispatch < g.workcount) (h2 : 50 * g.workcount < 2 ^ 31) :
    ∃ g1, GetThreadWork_Locked__ g = some (g.dispatch, g1) ∧
      g1.dispatch = g.dispatch + 1 ∧ g1.workcount = g.workcount := by
  unfold GetThreadWork_Locked__
  rw [if_neg (ne_of_lt h1), if_neg (by omega)]
  refine ⟨_, rfl, ?_, rfl⟩
  exact wrapInt_of_range _ (by omega) (by omega)

/-- One call when no work is left: it returns -1 and changes nothing. -/
theorem GetThreadWork_Locked__.exhausted (g : ThreadGlobals) (h : g.dispatch = g.workcount) :
    GetThreadWork_Locked__ g = some (-1, g) := by
  unfold GetThreadWork_Locked__
  rw [if_pos h]

theorem GetThreadWork_Locked__.calls_spec (k : Nat) (g : ThreadGlobals) (h0 : 0 ≤ g.dispatch)
    (h1 : g.dispatch ≤ g.workcount) (h2 : 50 * g.workcount < 2 ^ 31) :
    ∃ g1, GetThreadWork_Locked__.calls k g =
        some ((List.range k).map (fun j : Nat =>
          if g.dispatch + (j : Int) < g.workcount then g.dispatch + (j : Int) else -1), g1) ∧
      g1.dispatch = min (g.dispatch + (k : Int)) g.workcount ∧ g1.workcount = g.workcount := by
  induction k generalizing g with
  | zero =>
    refine ⟨g, rfl, ?_, rfl⟩
    simp only [Nat.cast_zero, add_zero]
    exact (min_eq_left h1).symm
  | succ k ih =>
    rw [List.range_succ_eq_map, List.map_cons, List.map_map]
    by_cases hd : g.dispatch < g.workcount
    · obtain ⟨g1, e1, e2, e3⟩ := GetThreadWork_Locked__.hands_out g h0 hd h2
      obtain ⟨g2, e4, e5, e6⟩ := ih g1 (by omega) (by omega) (by omega)
      refine ⟨g2, ?_, ?_, by omega⟩
      · simp only [GetThreadWork_Locked__.calls, e1, e4, Nat.cast_zero, add_zero, if_pos hd]
        congr 3
        apply List.map_congr_left
        intro j _
        simp only [Function.comp, e2, e3, Nat.cast_succ]
        rw [show g.dispatch + 1 + (j : Int) = g.dispatch + ((j : Int) + 1) by ring]
      · rw [e5, e2, e3]
        push_cast
        rw [show g.dispatch + 1 + (k : Int) = g.dispatch + ((k : Int) + 1) by ring]
    · have hd1 : g.dispatch = g.workcount := by omega
      have e1 := GetThreadWork_Locked__.exhausted g hd1
      obtain ⟨g2, e4, e5, e6⟩ := ih g h0 h1 h2
      refine ⟨g2, ?_, ?_, e6⟩
      · simp only [GetThreadWork_Locked__.calls, e1, e4, Nat.cast_zero, add_zero, if_neg hd]
        congr 3
        apply List.map_congr_left
        intro j _
        simp only [Function.comp, Nat.cast_succ]
        rw [if_neg (by omega), if_neg (by omega)]
      · rw [e5]
        push_cast
        rw [min_eq_right (by omega), min_eq_right (by omega)]


/-- C26: after `RunThreadsOn` has set `dispatch = start` and `workcount = n`
with `0 <= start <= n` and `50 * n < 2^31`, any number `k` of calls of
`GetThreadWork_Locked__` all return, none of them dividing by a zero
`workcount`; call number `j + 1` returns `start + j` while `j < n - start`
and -1 from then on, so the work indices from `start` to `n - 1` are handed
out once each, in increasing order; `dispatch` stops at `n`, and once it is
there a further call returns -1 and changes no variable. -/
theorem GetThreadWork_hands_out_each_index_once (start n : Int) (g0 : ThreadGlobals)
    (h0 : 0 ≤ start) (h1 : start ≤ n) (h2 : 50 * n < 2 ^ 31) (k : Nat) :
    ∃ rets g, GetThreadWork_Locked__.calls k (RunThreadsOn.begin start n g0) = some (rets, g) ∧
      rets = (List.range k).map
        (fun j : Nat => if (j : Int) < n - start then start + (j : Int) else -1) ∧
      (∀ j : Nat, j < k → (j : Int) < n - start → rets[j]? = some (start + (j : Int))) ∧
      (∀ j : Nat, j < k → n - start ≤ (j : Int) → rets[j]? = some (-1)) ∧
      g.dispatch = min (start + (k : Int)) n ∧ g.workcount = n ∧
      (n - start ≤ (k : Int) → GetThreadWork_Locked__ g = some (-1, g)) := by
  obtain ⟨g, e1, e2, e3⟩ := GetThreadWork_Locked__.calls_spec k (RunThreadsOn.begin start n g0)
    h0 h1 h2
  have hd : (RunThreadsOn.begin start n g0).dispatch = start := rfl
  have hw : (RunThreadsOn.begin start n g0).workcount = n := rfl
  rw [hd, hw] at e1 e2
  rw [hw] at e3
  have hmap : (List.range k).map (fun j : Nat => if start + (j : Int) < n then
      start + (j : Int) else -1) = (List.range k).map
        (fun j : Nat => if (j : Int) < n - start then start + (j : Int) else -1) := by
    apply List.map_congr_left
    intro j _
    by_cases hj : (j : Int) < n - start
    · rw [if_pos hj, if_pos (by omega)]
    · rw [if_neg hj, if_neg (by omega)]
  rw [hmap] at e1
  refine ⟨_, g, e1, rfl, ?_, ?_, e2, e3, ?_⟩
  · intro j hj hlt
    rw [List.getElem?_map, List.getElem?_range hj]
    simp only [Option.map_some', if_pos hlt]
  · intro j hj hge
    rw [List.getElem?_map, List.getElem?_range hj]
    simp only [Option.map_some', if_neg (not_lt.mpr hge)]
  · intro hk
    apply GetThreadWork_Locked__.exhausted
    rw [e2, e3]
    exact min_eq_right (by omega)

/-- Witness of C26: eight calls after `RunThreadsOn(2, 7, ...)`. -/
theorem GetThreadWork_hands_out_each_index_once_witness :
    ∃ rets g, GetThreadWork_Locked__.calls 8 (RunThreadsOn.begin 2 7 ThreadGlobals.start) =
        some (rets, g) ∧
      rets = (List.range 8).map
        (fun j : Nat => if (j : Int) < 7 - 2 then 2 + (j : Int) else -1) ∧
      (∀ j : Nat, j < 8 → (j : Int) < 7 - 2 → rets[j]? = some (2 + (j : Int))) ∧
      (∀ j : Nat, j < 8 → 7 - 2 ≤ (j : Int) → rets[j]? = some (-1)) ∧
      g.dispatch = min (2 + ((8 : Nat) : Int)) 7 ∧ g.workcount = 7 ∧
      (7 - 2 ≤ ((8 : Nat) : Int) → GetThreadWork_Locked__ g = some (-1, g)) :=
  GetThreadWork_hands_out_each_index_once 2 7 ThreadGlobals.start (by decide) (by decide)
    (by decide) 8


/-! ## Lemmas on float rounding -/

theorem pow2_eq_zpow (e : Int) : pow2 e = (2 : ℚ) ^ e := by
  unfold pow2
  by_cases h : 0 ≤ e
  · rw [if_pos h]
    obtain ⟨n, rfl⟩ := Int.eq_ofNat_of_zero_le h
    simp
  · rw [if_neg h]
    obtain ⟨n, hn⟩ := Int.eq_ofNat_of_zero_le (show 0 ≤ -e by omega)
    have he : e = -(n : Int) := by omega
    subst he
    simp

theorem pow2_pos (e : Int) : 0 < pow2 e := by
  rw [pow2_eq_zpow]
  positivity

theorem log2Fuel_spec (fuel n : Nat) (h : n ≤ fuel) (hn : 1 ≤ n) :
    2 ^ log2Fuel fuel n ≤ n ∧ n < 2 ^ (log2Fuel fuel n + 1) := by
  induction fuel generalizing n with
  | zero => omega
  | succ fuel ih =>
    unfold log2Fuel
    by_cases h2 : n < 2
    · rw [if_pos h2]
      have : n = 1 := by omega
      subst this
      simp
    · rw [if_neg h2]
      have hdiv : n / 2 ≤ fuel := by omega
      obtain ⟨h3, h4⟩ := ih (n / 2) hdiv (by omega)
      constructor
      · rw [pow_succ]
        omega
      · rw [pow_succ]
        omega

theorem binade_spec (x : ℚ) (hx : x ≠ 0) :
    (2 : ℚ) ^ binade x ≤ |x| ∧ |x| < (2 : ℚ) ^ (binade x + 1) := by
  have hnum : 1 ≤ x.num.natAbs := by
    have : x.num ≠ 0 := Rat.num_ne_zero.mpr hx
    omega
  have hden : 1 ≤ x.den := x.den_pos
  obtain ⟨n1, n2⟩ := log2Fuel_spec x.num.natAbs x.num.natAbs (le_refl _) hnum
  obtain ⟨d1, d2⟩ := log2Fuel_spec x.den x.den (le_refl _) hden
  have habs : |x| = (x.num.natAbs : ℚ) / (x.den : ℚ) := by
    conv_lhs => rw [← Rat.num_div_den x]
    rw [abs_div, Nat.abs_cast, Nat.cast_natAbs, Int.cast_abs]
  have hdpos : (0 : ℚ) < (x.den : ℚ) := by exact_mod_cast x.den_pos
  have n1q : (2 : ℚ) ^ log2Fuel x.num.natAbs x.num.natAbs ≤ (x.num.natAbs : ℚ) := by
    exact_mod_cast n1
  have n2q : (x.num.natAbs : ℚ) < (2 : ℚ) ^ (log2Fuel x.num.natAbs x.num.natAbs + 1) := by
    exact_mod_cast n2
  have d1q : (2 : ℚ) ^ log2Fuel x.den x.den ≤ (x.den : ℚ) := by exact_mod_cast d1
  have d2q : (x.den : ℚ) < (2 : ℚ) ^ (log2Fuel x.den x.den + 1) := by exact_mod_cast d2
  have hbin : binade x =
      if pow2 ((log2Fuel x.num.natAbs x.num.natAbs : Int) - (log2Fuel x.den x.den : Int)) ≤ |x|
      then (log2Fuel x.num.natAbs x.num.natAbs : Int) - (log2Fuel x.den x.den : Int)
      else (log2Fuel x.num.natAbs x.num.natAbs : Int) - (log2Fuel x.den x.den : Int) - 1 := rfl
  generalize log2Fuel x.num.natAbs x.num.natAbs = ln at n1q n2q hbin
  generalize log2Fuel x.den x.den = ld at d1q d2q hbin
  have hpl : (0 : ℚ) < (2 : ℚ) ^ ln := by positivity
  have hpd : (0 : ℚ) < (2 : ℚ) ^ ld := by positivity
  have e0 : (2 : ℚ) ^ ((ln : Int) - (ld : Int)) = (2 : ℚ) ^ ln / (2 : ℚ) ^ ld := by
    rw [zpow_sub₀ (by norm_num), zpow_natCast, zpow_natCast]
  have e1 : (2 : ℚ) ^ ((ln : Int) - (ld : Int) + 1) = (2 : ℚ) ^ (ln + 1) / (2 : ℚ) ^ ld := by
    rw [zpow_add₀ (by norm_num), e0, zpow_one, pow_succ]
    ring
  have em : (2 : ℚ) ^ ((ln : Int) - (ld : Int) - 1) = (2 : ℚ) ^ ln / (2 : ℚ) ^ (ld + 1) := by
    rw [zpow_sub₀ (by norm_num), e0, zpow_one, pow_succ]
    field_simp
  rw [hbin, pow2_eq_zpow]
  by_cases hc : (2 : ℚ) ^ ((ln : Int) - (ld : Int)) ≤ |x|
  · rw [if_pos hc]
    refine ⟨hc, ?_⟩
    rw [e1, habs, div_lt_div_iff₀ hdpos hpd]
    calc (x.num.natAbs : ℚ) * 2 ^ ld ≤ (x.num.natAbs : ℚ) * (x.den : ℚ) :=
          mul_le_mul_of_nonneg_left d1q (Nat.cast_nonneg _)
      _ < 2 ^ (ln + 1) * (x.den : ℚ) := mul_lt_mul_of_pos_right n2q hdpos
  · rw [if_neg hc]
    refine ⟨?_, ?_⟩
    · rw [em, habs, div_le_div_iff₀ (by positivity) hdpos]
      calc (2 : ℚ) ^ ln * (x.den : ℚ) ≤ (x.num.natAbs : ℚ) * (x.den : ℚ) :=
            mul_le_mul_of_nonneg_right n1q (le_of_lt hdpos)
        _ ≤ (x.num.natAbs : ℚ) * 2 ^ (ld + 1) :=
            mul_le_mul_of_nonneg_left (le_of_lt d2q) (Nat.cast_nonneg _)
    · rw [sub_add_cancel]
      exact not_le.mp hc

theorem binade_unique (x : ℚ) (e : Int) (h1 : (2 : ℚ) ^ e ≤ |x|) (h2 : |x| < (2 : ℚ) ^ (e + 1)) :
    binade x = e := by
  have hx : x ≠ 0 := by
    intro h0
    rw [h0, abs_zero] at h1
    have : (0 : ℚ) < (2 : ℚ) ^ e := by positivity
    linarith
  obtain ⟨b1, b2⟩ := binade_spec x hx
  have c1 : binade x < e + 1 :=
    (zpow_lt_zpow_iff_right₀ (by norm_num : (1 : ℚ) < 2)).mp (lt_of_le_of_lt b1 h2)
  have c2 : e < binade x + 1 :=
    (zpow_lt_zpow_iff_right₀ (by norm_num : (1 : ℚ) < 2)).mp (lt_of_le_of_lt h1 b2)
  omega

theorem roundHalfEven_intCast (n : Int) : roundHalfEven (n : ℚ) = n := by
  unfold roundHalfEven
  simp only [Int.floor_intCast, sub_self]
  rw [if_pos (by norm_num)]

theorem roundHalfEven_sub_le (q : ℚ) : |((roundHalfEven q : Int) : ℚ) - q| ≤ 1 / 2 := by
  have h1 : ((⌊q⌋ : Int) : ℚ) ≤ q := Int.floor_le q
  have h2 : q < ((⌊q⌋ : Int) : ℚ) + 1 := Int.lt_floor_add_one q
  unfold roundHalfEven
  simp only
  rw [abs_le]
  split_ifs with c1 c2 c3
  · constructor <;> linarith
  · push_cast
    constructor <;> linarith
  · constructor <;> linarith
  · push_cast
    constructor <;> linarith

theorem roundHalfEven_mono (q1 q2 : ℚ) (h : q1 ≤ q2) : roundHalfEven q1 ≤ roundHalfEven q2 := by
  by_contra hc
  have hlt : roundHalfEven q2 + 1 ≤ roundHalfEven q1 := by omega
  have hq : ((roundHalfEven q2 : Int) : ℚ) + 1 ≤ ((roundHalfEven q1 : Int) : ℚ) := by
    exact_mod_cast hlt
  have a1 := abs_le.mp (roundHalfEven_sub_le q1)
  have a2 := abs_le.mp (roundHalfEven_sub_le q2)
  have heq : q1 = q2 := by linarith [a1.1, a1.2, a2.1, a2.2]
  rw [heq] at hc
  exact hc (le_refl _)

theorem float32_zero : float32 0 = 0 := by
  unfold float32
  rw [if_pos rfl]

theorem float32_of_ne_zero (x : ℚ) (hx : x ≠ 0) :
    float32 x = ((roundHalfEven (x / (2 : ℚ) ^ (binade x - 23)) : Int) : ℚ) *
      (2 : ℚ) ^ (binade x - 23) := by
  unfold float32
  rw [if_neg hx, pow2_eq_zpow]

/-- A number with at most 24 significant bits is a value of the type
`float`: rounding returns it. -/
theorem float32_exact (m k : Int) (hm : |m| < 2 ^ 24) :
    float32 ((m : ℚ) * (2 : ℚ) ^ k) = (m : ℚ) * (2 : ℚ) ^ k := by
  by_cases hm0 : m = 0
  · subst hm0
    simp [float32_zero]
  have h2k : (0 : ℚ) < (2 : ℚ) ^ k := by positivity
  have hx : (m : ℚ) * (2 : ℚ) ^ k ≠ 0 :=
    mul_ne_zero (by exact_mod_cast hm0) (ne_of_gt h2k)
  obtain ⟨b1, b2⟩ := binade_spec _ hx
  rw [float32_of_ne_zero _ hx]
  generalize binade ((m : ℚ) * (2 : ℚ) ^ k) = e at b1 b2
  have habs : |(m : ℚ) * (2 : ℚ) ^ k| = (|m| : ℚ) * (2 : ℚ) ^ k := by
    rw [abs_mul, abs_of_pos h2k]
  have hlt : (2 : ℚ) ^ e < (2 : ℚ) ^ (k + 24) := by
    calc (2 : ℚ) ^ e ≤ |(m : ℚ) * (2 : ℚ) ^ k| := b1
      _ = ((|m| : Int) : ℚ) * (2 : ℚ) ^ k := by rw [habs, Int.cast_abs]
      _ < (2 : ℚ) ^ (24 : Nat) * (2 : ℚ) ^ k := by
          apply mul_lt_mul_of_pos_right _ h2k
          exact_mod_cast hm
      _ = (2 : ℚ) ^ (k + 24) := by
          rw [zpow_add₀ (by norm_num), mul_comm]
          norm_num
  have he : e < k + 24 := (zpow_lt_zpow_iff_right₀ (by norm_num : (1 : ℚ) < 2)).mp hlt
  obtain ⟨j, hj⟩ := Int.eq_ofNat_of_zero_le (show 0 ≤ k - (e - 23) by omega)
  have hdiv : (m : ℚ) * (2 : ℚ) ^ k / (2 : ℚ) ^ (e - 23) = ((m * 2 ^ j : Int) : ℚ) := by
    have hk : k = (e - 23) + (j : Int) := by omega
    rw [hk, zpow_add₀ (by norm_num)]
    push_cast
    field_simp
    ring
  rw [hdiv, roundHalfEven_intCast, ← hdiv]
  field_simp

theorem float32_exact_le (m k : Int) (hm : |m| ≤ 2 ^ 24) :
    float32 ((m : ℚ) * (2 : ℚ) ^ k) = (m : ℚ) * (2 : ℚ) ^ k := by
  by_cases hlt : |m| < 2 ^ 24
  · exact float32_exact m k hlt
  · have heq : |m| = 2 ^ 24 := by omega
    have hsign : m = 2 ^ 24 ∨ m = -(2 ^ 24) := by
      rcases abs_cases m with ⟨h1, -⟩ | ⟨h1, -⟩ <;> omega
    rcases hsign with h | h
    · have e : (m : ℚ) * (2 : ℚ) ^ k = ((1 : Int) : ℚ) * (2 : ℚ) ^ (k + 24) := by
        rw [h, zpow_add₀ (by norm_num)]
        norm_num
        ring
      rw [e]
      exact float32_exact 1 (k + 24) (by norm_num)
    · have e : (m : ℚ) * (2 : ℚ) ^ k = ((-1 : Int) : ℚ) * (2 : ℚ) ^ (k + 24) := by
        rw [h, zpow_add₀ (by norm_num)]
        norm_num
        ring
      rw [e]
      exact float32_exact (-1) (k + 24) (by norm_num)

/-- Every integer of magnitude up to 2^24 is a value of the type `float`. -/
theorem float32_intCast (n : Int) (h : |n| ≤ 2 ^ 24) : float32 (n : ℚ) = (n : ℚ) := by
  have := float32_exact_le n 0 h
  simpa using this

theorem float32_one : float32 1 = 1 := by
  have := float32_intCast 1 (by norm_num)
  simpa using this

/-- The significand that rounding chooses lies between -2^24 and 2^24. -/
theorem float32_significand (x : ℚ) (hx : x ≠ 0) :
    |roundHalfEven (x / (2 : ℚ) ^ (binade x - 23))| ≤ 2 ^ 24 := by
  obtain ⟨-, b2⟩ := binade_spec x hx
  have hu : (0 : ℚ) < (2 : ℚ) ^ (binade x - 23) := by positivity
  have hq : |x / (2 : ℚ) ^ (binade x - 23)| < ((2 ^ 24 : Int) : ℚ) := by
    rw [abs_div, abs_of_pos hu, div_lt_iff₀ hu]
    calc |x| < (2 : ℚ) ^ (binade x + 1) := b2
      _ = ((2 ^ 24 : Int) : ℚ) * (2 : ℚ) ^ (binade x - 23) := by
          rw [show binade x + 1 = (binade x - 23) + 24 by ring, zpow_add₀ (by norm_num)]
          norm_num
          ring
  obtain ⟨q1, q2⟩ := abs_lt.mp hq
  rw [abs_le]
  constructor
  · have := roundHalfEven_mono _ _ (le_of_lt q1)
    rw [show (-((2 ^ 24 : Int) : ℚ)) = ((-(2 ^ 24) : Int) : ℚ) by push_cast; ring,
      roundHalfEven_intCast] at this
    exact this
  · have := roundHalfEven_mono _ _ (le_of_lt q2)
    rw [roundHalfEven_intCast] at this
    exact this

/-- Rounding a value of the type `float` returns it. -/
theorem float32_idem (x : ℚ) : float32 (float32 x) = float32 x := by
  by_cases hx : x = 0
  · rw [hx, float32_zero, float32_zero]
  rw [float32_of_ne_zero x hx]
  exact float32_exact_le _ _ (float32_significand x hx)

theorem roundHalfEven_nonneg (q : ℚ) (h : 0 ≤ q) : 0 ≤ roundHalfEven q := by
  have := roundHalfEven_mono 0 q h
  rw [show (0 : ℚ) = ((0 : Int) : ℚ) by norm_num, roundHalfEven_intCast] at this
  exact this

/-- Rounding keeps the sign. -/
theorem float32_nonneg (x : ℚ) (h : 0 ≤ x) : 0 ≤ float32 x := by
  by_cases hx : x = 0
  · rw [hx, float32_zero]
  rw [float32_of_ne_zero x hx]
  have hu : (0 : ℚ) < (2 : ℚ) ^ (binade x - 23) := by positivity
  apply mul_nonneg _ (le_of_lt hu)
  exact_mod_cast roundHalfEven_nonneg _ (div_nonneg h (le_of_lt hu))

/-- Rounding keeps the order of non-negative numbers. -/
theorem float32_mono (x y : ℚ) (hx0 : 0 ≤ x) (h : x ≤ y) : float32 x ≤ float32 y := by
  by_cases hx : x = 0
  · rw [hx, float32_zero]
    exact float32_nonneg y (le_trans hx0 h)
  have hxpos : 0 < x := lt_of_le_of_ne hx0 (Ne.symm hx)
  have hypos : 0 < y := lt_of_lt_of_le hxpos h
  have hy : y ≠ 0 := ne_of_gt hypos
  obtain ⟨x1, x2⟩ := binade_spec x hx
  obtain ⟨y1, y2⟩ := binade_spec y hy
  rw [abs_of_pos hxpos] at x1 x2
  rw [abs_of_pos hypos] at y1 y2
  rw [float32_of_ne_zero x hx, float32_of_ne_zero y hy]
  have hle : binade x ≤ binade y := by
    have : (2 : ℚ) ^ binade x < (2 : ℚ) ^ (binade y + 1) := by linarith
    have := (zpow_lt_zpow_iff_right₀ (by norm_num : (1 : ℚ) < 2)).mp this
    omega
  have hux : (0 : ℚ) < (2 : ℚ) ^ (binade x - 23) := by positivity
  have huy : (0 : ℚ) < (2 : ℚ) ^ (binade y - 23) := by positivity
  rcases eq_or_lt_of_le hle with heq | hlt
  · rw [heq] at hux ⊢
    apply mul_le_mul_of_nonneg_right _ (le_of_lt hux)
    exact_mod_cast roundHalfEven_mono _ _ (div_le_div_of_nonneg_right h (le_of_lt hux))
  · have hxs := (abs_le.mp (float32_significand x hx)).2
    have hys : (2 : Int) ^ 23 ≤ roundHalfEven (y / (2 : ℚ) ^ (binade y - 23)) := by
      have hq : (((2 : Int) ^ 23 : Int) : ℚ) ≤ y / (2 : ℚ) ^ (binade y - 23) := by
        rw [le_div_iff₀ huy]
        calc (((2 : Int) ^ 23 : Int) : ℚ) * (2 : ℚ) ^ (binade y - 23) = (2 : ℚ) ^ binade y := by
              rw [show binade y = (binade y - 23) + 23 by ring, zpow_add₀ (by norm_num)]
              norm_num
              ring
          _ ≤ y := y1
      have := roundHalfEven_mono _ _ hq
      rw [roundHalfEven_intCast] at this
      exact this
    calc ((roundHalfEven (x / (2 : ℚ) ^ (binade x - 23)) : Int) : ℚ) * (2 : ℚ) ^ (binade x - 23)
        ≤ (((2 : Int) ^ 24 : Int) : ℚ) * (2 : ℚ) ^ (binade x - 23) := by
          apply mul_le_mul_of_nonneg_right _ (le_of_lt hux)
          exact_mod_cast hxs
      _ = (2 : ℚ) ^ (binade x + 1) := by
          rw [show binade x + 1 = (binade x - 23) + 24 by ring, zpow_add₀ (by norm_num)]
          norm_num
          ring
      _ ≤ (2 : ℚ) ^ binade y := zpow_le_zpow_right₀ (by norm_num) (by omega)
      _ = (((2 : Int) ^ 23 : Int) : ℚ) * (2 : ℚ) ^ (binade y - 23) := by
          rw [show binade y = (binade y - 23) + 23 by ring, zpow_add₀ (by norm_num)]
          norm_num
          ring
      _ ≤ ((roundHalfEven (y / (2 : ℚ) ^ (binade y - 23)) : Int) : ℚ) *
            (2 : ℚ) ^ (binade y - 23) := by
          apply mul_le_mul_of_nonneg_right _ (le_of_lt huy)
          exact_mod_cast hys

/-- The rounding error on a number between 0 and 1 is at most 2^-25. -/
theorem float32_error (x : ℚ) (hx0 : 0 ≤ x) (hx1 : x ≤ 1) : |float32 x - x| ≤ 1 / 2 ^ 25 := by
  by_cases hx : x = 0
  · rw [hx, float32_zero]
    norm_num
  by_cases hone : x = 1
  · rw [hone, float32_one]
    norm_num
  have hxpos : 0 < x := lt_of_le_of_ne hx0 (Ne.symm hx)
  have hxlt : x < 1 := lt_of_le_of_ne hx1 hone
  obtain ⟨x1, -⟩ := binade_spec x hx
  rw [abs_of_pos hxpos] at x1
  have he : binade x < 0 := by
    have : (2 : ℚ) ^ binade x < (2 : ℚ) ^ (0 : Int) := by
      rw [zpow_zero]
      linarith
    exact (zpow_lt_zpow_iff_right₀ (by norm_num : (1 : ℚ) < 2)).mp this
  have hu : (0 : ℚ) < (2 : ℚ) ^ (binade x - 23) := by positivity
  rw [float32_of_ne_zero x hx]
  have hr := roundHalfEven_sub_le (x / (2 : ℚ) ^ (binade x - 23))
  have hfac : ((roundHalfEven (x / (2 : ℚ) ^ (binade x - 23)) : Int) : ℚ) *
      (2 : ℚ) ^ (binade x - 23) - x =
      (((roundHalfEven (x / (2 : ℚ) ^ (binade x - 23)) : Int) : ℚ) -
        x / (2 : ℚ) ^ (binade x - 23)) * (2 : ℚ) ^ (binade x - 23) := by
    field_simp
  rw [hfac, abs_mul, abs_of_pos hu]
  have hule : (2 : ℚ) ^ (binade x - 23) ≤ (2 : ℚ) ^ (-24 : Int) :=
    zpow_le_zpow_right₀ (by norm_num) (by omega)
  calc |((roundHalfEven (x / (2 : ℚ) ^ (binade x - 23)) : Int) : ℚ) -
        x / (2 : ℚ) ^ (binade x - 23)| * (2 : ℚ) ^ (binade x - 23)
      ≤ 1 / 2 * (2 : ℚ) ^ (-24 : Int) :=
        mul_le_mul hr hule (le_of_lt hu) (by norm_num)
    _ = 1 / 2 ^ 25 := by
        rw [zpow_neg]
        norm_num

theorem float32_le_one (x : ℚ) (hx0 : 0 ≤ x) (hx1 : x ≤ 1) : float32 x ≤ 1 := by
  have := float32_mono x 1 hx0 hx1
  rwa [float32_one] at this

/-- The part of a non-negative `float` value behind the point is a `float`
value: the subtraction `pos - floor(pos)` is exact. -/
theorem float32_frac (p : ℚ) (hp0 : 0 ≤ p) (hf : float32 p = p) :
    float32 (p - (⌊p⌋ : ℚ)) = p - (⌊p⌋ : ℚ) := by
  by_cases hp : p = 0
  · rw [hp]
    simp [float32_zero]
  have hppos : 0 < p := lt_of_le_of_ne hp0 (Ne.symm hp)
  have hrep := float32_of_ne_zero p hp
  rw [hf] at hrep
  have hsig := (abs_le.mp (float32_significand p hp)).2
  have hu : (0 : ℚ) < (2 : ℚ) ^ (binade p - 23) := by positivity
  generalize roundHalfEven (p / (2 : ℚ) ^ (binade p - 23)) = r at hrep hsig
  generalize binade p - 23 = k at hrep hu
  have hfl0 : 0 ≤ ⌊p⌋ := Int.floor_nonneg.mpr hp0
  have hfl : ((⌊p⌋ : Int) : ℚ) ≤ p := Int.floor_le p
  by_cases hk : 0 ≤ k
  · obtain ⟨j, rfl⟩ := Int.eq_ofNat_of_zero_le hk
    have hint : p = ((r * 2 ^ j : Int) : ℚ) := by
      rw [hrep]
      push_cast
      rw [zpow_natCast]
    rw [hint, Int.floor_intCast, sub_self, float32_zero]
  · obtain ⟨j, hj⟩ := Int.eq_ofNat_of_zero_le (show 0 ≤ -k by omega)
    have h2j : (2 : ℚ) ^ k * (2 : ℚ) ^ j = 1 := by
      rw [← zpow_natCast, ← zpow_add₀ (by norm_num), ← hj]
      simp
    have hm : p - ((⌊p⌋ : Int) : ℚ) = ((r - ⌊p⌋ * 2 ^ j : Int) : ℚ) * (2 : ℚ) ^ k := by
      push_cast
      rw [sub_mul, ← hrep, mul_assoc, mul_comm ((2 : ℚ) ^ j), h2j, mul_one]
    rw [hm]
    apply float32_exact_le
    have hm0 : 0 ≤ r - ⌊p⌋ * 2 ^ j := by
      have h1 : (0 : ℚ) ≤ ((r - ⌊p⌋ * 2 ^ j : Int) : ℚ) * (2 : ℚ) ^ k := by
        rw [← hm]
        linarith
      have h2 : (0 : ℚ) ≤ ((r - ⌊p⌋ * 2 ^ j : Int) : ℚ) := by
        by_contra hneg
        have := mul_neg_of_neg_of_pos (not_le.mp hneg) hu
        linarith
      exact_mod_cast h2
    have hm1 : r - ⌊p⌋ * 2 ^ j ≤ 2 ^ 24 := by
      have : 0 ≤ ⌊p⌋ * 2 ^ j := mul_nonneg hfl0 (by positivity)
      omega
    rw [abs_of_nonneg hm0]
    exact hm1

/-! ## The bilinear weights -/

/-- One axis of `bilinearWeightsAndCoords` in exact arithmetic. -/
theorem bilinearWeightsAndCoords.axis_exact (p : ℚ) (s : Int) (hs2 : 2 ≤ s) (hs : s < 2 ^ 31)
    (hp0 : -(1 / 2) ≤ p) (hp1 : p ≤ (s : ℚ) - 1 / 2) :
    bilinearWeightsAndCoords.clamp id p s = max 0 (min p ((s : ℚ) - 1)) ∧
    0 ≤ bilinearWeightsAndCoords.clamp id p s ∧
    bilinearWeightsAndCoords.clamp id p s ≤ ((wrapInt (s - 1) : Int) : ℚ) ∧
    0 ≤ bilinearWeightsAndCoords.integerPart id (bilinearWeightsAndCoords.clamp id p s) ∧
    wrapInt (bilinearWeightsAndCoords.integerPart id (bilinearWeightsAndCoords.clamp id p s) + 1)
      = bilinearWeightsAndCoords.integerPart id (bilinearWeightsAndCoords.clamp id p s) + 1 ∧
    bilinearWeightsAndCoords.integerPart id (bilinearWeightsAndCoords.clamp id p s) + 1 < s ∧
    0 ≤ bilinearWeightsAndCoords.fractionalPart id (bilinearWeightsAndCoords.clamp id p s) ∧
    bilinearWeightsAndCoords.fractionalPart id (bilinearWeightsAndCoords.clamp id p s) ≤ 1 ∧
    ((bilinearWeightsAndCoords.integerPart id (bilinearWeightsAndCoords.clamp id p s) : Int) : ℚ)
      + bilinearWeightsAndCoords.fractionalPart id (bilinearWeightsAndCoords.clamp id p s)
      = bilinearWeightsAndCoords.clamp id p s := by
  have hw : wrapInt (s - 1) = s - 1 := wrapInt_of_range _ (by omega) (by omega)
  have hs1 : ((wrapInt (s - 1) : Int) : ℚ) = (s : ℚ) - 1 := by rw [hw]; push_cast; ring
  have hs2q : (2 : ℚ) ≤ (s : ℚ) := by exact_mod_cast hs2
  have hc : bilinearWeightsAndCoords.clamp id p s = max 0 (min p ((s : ℚ) - 1)) := by
    simp only [bilinearWeightsAndCoords.clamp, id, hs1]
    by_cases h1 : p < 0
    · rw [if_pos h1, if_neg (by linarith), min_eq_left (by linarith), max_eq_left (le_of_lt h1)]
    · rw [if_neg h1]
      by_cases h2 : p > (s : ℚ) - 1
      · rw [if_pos h2, min_eq_right (le_of_lt h2), max_eq_right (by linarith)]
      · rw [if_neg h2, min_eq_left (not_lt.mp h2), max_eq_right (not_lt.mp h1)]
  generalize bilinearWeightsAndCoords.clamp id p s = c at hc ⊢
  have hc0 : 0 ≤ c := by rw [hc]; exact le_max_left _ _
  have hc1 : c ≤ (s : ℚ) - 1 := by
    rw [hc]
    exact max_le (by linarith) (min_le_right _ _)
  have hf0 : 0 ≤ ⌊c⌋ := Int.floor_nonneg.mpr hc0
  have hf1 : ⌊c⌋ ≤ s - 1 := by
    have : ⌊c⌋ ≤ ⌊((s - 1 : Int) : ℚ)⌋ := Int.floor_mono (by push_cast; exact hc1)
    rwa [Int.floor_intCast] at this
  have hfl : (⌊c⌋ : ℚ) ≤ c := Int.floor_le c
  have hlt : c < (⌊c⌋ : ℚ) + 1 := Int.lt_floor_add_one c
  refine ⟨hc, hc0, by rw [hs1]; exact hc1, ?_⟩
  simp only [bilinearWeightsAndCoords.integerPart, bilinearWeightsAndCoords.fractionalPart, id]
  by_cases hadj : c - (⌊c⌋ : ℚ) = 0 ∧ ⌊c⌋ > 0
  · rw [if_pos hadj, if_pos hadj]
    have hw1 : wrapInt (⌊c⌋ - 1) = ⌊c⌋ - 1 := wrapInt_of_range _ (by omega) (by omega)
    rw [hw1]
    refine ⟨by omega, wrapInt_of_range _ (by omega) (by omega), by omega, zero_le_one,
      le_refl _, ?_⟩
    push_cast
    linarith [hadj.1]
  · rw [if_neg hadj, if_neg hadj]
    have hlast : ⌊c⌋ + 1 < s := by
      by_cases hz : c - (⌊c⌋ : ℚ) = 0
      · have : ¬ ⌊c⌋ > 0 := fun h => hadj ⟨hz, h⟩
        omega
      · have hne : (⌊c⌋ : ℚ) < c := lt_of_le_of_ne hfl (fun e => hz (by rw [e]; ring))
        have h3 : (⌊c⌋ : ℚ) < ((s - 1 : Int) : ℚ) := by
          push_cast
          linarith
        have h4 : ⌊c⌋ < s - 1 := by exact_mod_cast h3
        omega
    refine ⟨hf0, wrapInt_of_range _ (by omega) (by omega), hlast, by linarith, by linarith,
      by ring⟩


theorem bilinearWeights_some (rnd : ℚ → ℚ) (x y : ℚ) (hx0 : 0 ≤ x) (hx1 : x ≤ 1) (hy0 : 0 ≤ y)
    (hy1 : y ≤ 1) :
    bilinearWeights rnd x y =
      some ![rnd (rnd (1 - x) * rnd (1 - y)), rnd (x * rnd (1 - y)), rnd (rnd (1 - x) * y),
        rnd (x * y)] := by
  unfold bilinearWeights
  rw [if_neg (not_not.mpr hx0), if_neg (not_not.mpr hx1), if_neg (not_not.mpr hy0),
    if_neg (not_not.mpr hy1)]

/-- The four weights in float arithmetic: each lies between 0 and 1, and
their sum differs from 1 by at most 2^-22. -/
theorem bilinearWeights_float32_sum (x y : ℚ) (hx0 : 0 ≤ x) (hx1 : x ≤ 1) (hy0 : 0 ≤ y)
    (hy1 : y ≤ 1) :
    0 ≤ float32 (float32 (1 - x) * float32 (1 - y)) ∧
    0 ≤ float32 (x * float32 (1 - y)) ∧
    0 ≤ float32 (float32 (1 - x) * y) ∧
    0 ≤ float32 (x * y) ∧
    |float32 (float32 (1 - x) * float32 (1 - y)) + float32 (x * float32 (1 - y)) +
      float32 (float32 (1 - x) * y) + float32 (x * y) - 1| ≤ 1 / 2 ^ 22 := by
  have ha0 : 0 ≤ float32 (1 - x) := float32_nonneg _ (by linarith)
  have ha1 : float32 (1 - x) ≤ 1 := float32_le_one _ (by linarith) (by linarith)
  have hb0 : 0 ≤ float32 (1 - y) := float32_nonneg _ (by linarith)
  have hb1 : float32 (1 - y) ≤ 1 := float32_le_one _ (by linarith) (by linarith)
  have hae := abs_le.mp (float32_error (1 - x) (by linarith) (by linarith))
  have hbe := abs_le.mp (float32_error (1 - y) (by linarith) (by linarith))
  generalize float32 (1 - x) = a at ha0 ha1 hae
  generalize float32 (1 - y) = b at hb0 hb1 hbe
  have p0 : 0 ≤ a * b := mul_nonneg ha0 hb0
  have p1 : 0 ≤ x * b := mul_nonneg hx0 hb0
  have p2 : 0 ≤ a * y := mul_nonneg ha0 hy0
  have p3 : 0 ≤ x * y := mul_nonneg hx0 hy0
  have q0 : a * b ≤ 1 := mul_le_one₀ ha1 hb0 hb1
  have q1 : x * b ≤ 1 := mul_le_one₀ hx1 hb0 hb1
  have q2 : a * y ≤ 1 := mul_le_one₀ ha1 hy0 hy1
  have q3 : x * y ≤ 1 := mul_le_one₀ hx1 hy0 hy1
  have e0 := abs_le.mp (float32_error _ p0 q0)
  have e1 := abs_le.mp (float32_error _ p1 q1)
  have e2 := abs_le.mp (float32_error _ p2 q2)
  have e3 := abs_le.mp (float32_error _ p3 q3)
  refine ⟨float32_nonneg _ p0, float32_nonneg _ p1, float32_nonneg _ p2, float32_nonneg _ p3, ?_⟩
  generalize float32 (a * b) = w0 at e0
  generalize float32 (x * b) = w1 at e1
  generalize float32 (a * y) = w2 at e2
  generalize float32 (x * y) = w3 at e3
  have hprod : a * b + x * b + a * y + x * y - 1 =
      (a - (1 - x)) + (b - (1 - y)) + (a - (1 - x)) * (b - (1 - y)) := by ring
  have hab1 : (a - (1 - x)) * (b - (1 - y)) ≤ 1 / 2 ^ 25 := by
    nlinarith [hae.1, hae.2, hbe.1, hbe.2]
  have hab2 : -(1 / 2 ^ 25) ≤ (a - (1 - x)) * (b - (1 - y)) := by
    nlinarith [hae.1, hae.2, hbe.1, hbe.2]
  rw [abs_le]
  constructor
  · have : w0 + w1 + w2 + w3 - 1 = (w0 - a * b) + (w1 - x * b) + (w2 - a * y) + (w3 - x * y) +
        (a * b + x * b + a * y + x * y - 1) := by ring
    rw [this, hprod]
    norm_num at *
    linarith
  · have : w0 + w1 + w2 + w3 - 1 = (w0 - a * b) + (w1 - x * b) + (w2 - a * y) + (w3 - x * y) +
        (a * b + x * b + a * y + x * y - 1) := by ring
    rw [this, hprod]
    norm_num at *
    linarith

/-- One axis of `bilinearWeightsAndCoords` in float arithmetic, for a size up
to 2^24 and a position that is a `float` value: every step is exact. -/
theorem bilinearWeightsAndCoords.axis_float32 (p : ℚ) (s : Int) (hs2 : 2 ≤ s)
    (hs : s ≤ 2 ^ 24) (hf : float32 p = p) (hp0 : -(1 / 2) ≤ p)
    (hp1 : p ≤ (s : ℚ) - 1 / 2) :
    p ≤ float32 (float32 ((s : Int) : ℚ) - 1 / 2) ∧
    bilinearWeightsAndCoords.clamp float32 p s = bilinearWeightsAndCoords.clamp id p s ∧
    float32 ((wrapInt (s - 1) : Int) : ℚ) = ((wrapInt (s - 1) : Int) : ℚ) ∧
    bilinearWeightsAndCoords.integerPart float32 (bilinearWeightsAndCoords.clamp id p s) =
      bilinearWeightsAndCoords.integerPart id (bilinearWeightsAndCoords.clamp id p s) ∧
    bilinearWeightsAndCoords.fractionalPart float32 (bilinearWeightsAndCoords.clamp id p s) =
      bilinearWeightsAndCoords.fractionalPart id (bilinearWeightsAndCoords.clamp id p s) ∧
    float32 (float32 ((bilinearWeightsAndCoords.integerPart id
        (bilinearWeightsAndCoords.clamp id p s) : Int) : ℚ) +
      bilinearWeightsAndCoords.fractionalPart id (bilinearWeightsAndCoords.clamp id p s)) =
      bilinearWeightsAndCoords.clamp id p s := by
  have hs31 : s < 2 ^ 31 := by omega
  obtain ⟨c, c0, c1, i0, iw, ib, f0, f1, e⟩ :=
    bilinearWeightsAndCoords.axis_exact p s hs2 hs31 hp0 hp1
  have hw : wrapInt (s - 1) = s - 1 := wrapInt_of_range _ (by omega) (by omega)
  have hfs1 : float32 ((wrapInt (s - 1) : Int) : ℚ) = ((wrapInt (s - 1) : Int) : ℚ) := by
    apply float32_intCast
    rw [hw, abs_of_nonneg (by omega)]
    omega
  have hfs : float32 ((s : Int) : ℚ) = ((s : Int) : ℚ) :=
    float32_intCast s (by rw [abs_of_nonneg (by omega)]; exact hs)
  have hs2q : (2 : ℚ) ≤ (s : ℚ) := by exact_mod_cast hs2
  have hclamp : bilinearWeightsAndCoords.clamp float32 p s =
      bilinearWeightsAndCoords.clamp id p s := by
    simp only [bilinearWeightsAndCoords.clamp, hfs1, id]
  have hcf : float32 (bilinearWeightsAndCoords.clamp id p s) =
      bilinearWeightsAndCoords.clamp id p s := by
    simp only [bilinearWeightsAndCoords.clamp, id]
    split_ifs
    · exact hfs1
    · exact float32_zero
    · exact hfs1
    · exact hf
  have hfrac := float32_frac _ c0 hcf
  have hint : bilinearWeightsAndCoords.integerPart float32
      (bilinearWeightsAndCoords.clamp id p s) =
      bilinearWeightsAndCoords.integerPart id (bilinearWeightsAndCoords.clamp id p s) := by
    simp only [bilinearWeightsAndCoords.integerPart, hfrac, id]
  have hfr : bilinearWeightsAndCoords.fractionalPart float32
      (bilinearWeightsAndCoords.clamp id p s) =
      bilinearWeightsAndCoords.fractionalPart id (bilinearWeightsAndCoords.clamp id p s) := by
    simp only [bilinearWeightsAndCoords.fractionalPart, hfrac, id]
  refine ⟨?_, hclamp, hfs1, hint, hfr, ?_⟩
  · rw [hfs]
    by_cases hneg : p < 0
    · exact le_trans (le_of_lt hneg) (float32_nonneg _ (by linarith))
    · rw [← hf]
      exact float32_mono _ _ (not_lt.mp hneg) hp1
  · have hi : float32 ((bilinearWeightsAndCoords.integerPart id
        (bilinearWeightsAndCoords.clamp id p s) : Int) : ℚ) =
        ((bilinearWeightsAndCoords.integerPart id
          (bilinearWeightsAndCoords.clamp id p s) : Int) : ℚ) := by
      apply float32_intCast
      rw [abs_of_nonneg i0]
      omega
    rw [hi, e, hcf]

/-- C27, as it holds of the compiled functions: in the arithmetic of the type
`float`, for every bitmap size with `2 <= size.x <= 2^24` and
`2 <= size.y <= 2^24` and every position of `float` components with
`-0.5 <= pos.x <= size.x - 0.5` and `-0.5 <= pos.y <= size.y - 0.5`, no
assertion of `bilinearWeightsAndCoords` or of `bilinearWeights` fails: the
function returns, each of the four coordinates lies in
`[0, size.x) x [0, size.y)`, the integer part plus the fractional part is
the clamped position, exactly, and the four weights are the rounded bilinear
weights of the fractional part, each non-negative, with a sum that differs
from 1 by at most 2^-22. -/
theorem bilinearWeightsAndCoords_float32_safe (pos : glm.vec2) (size : glm.ivec2)
    (hsize : ∀ i, 2 ≤ size i ∧ size i ≤ 2 ^ 24)
    (hfloat : ∀ i, float32 (pos i) = pos i)
    (hpos : ∀ i, -(1 / 2) ≤ pos i ∧ pos i ≤ (size i : ℚ) - 1 / 2) :
    ∃ (result : Fin 4 → glm.ivec2 × ℚ) (integerPart : glm.ivec2) (fractionalPart : glm.vec2),
      bilinearWeightsAndCoords float32 pos size = some result ∧
      bilinearWeights float32 (fractionalPart 0) (fractionalPart 1) =
        some (fun i => (result i).2) ∧
      (∀ i, (result i).1 0 = integerPart 0 + (if i.val % 2 = 1 then 1 else 0) ∧
        (result i).1 1 = integerPart 1 + (if i.val ≥ 2 then 1 else 0)) ∧
      (∀ i, 0 ≤ (result i).1 0 ∧ (result i).1 0 < size 0 ∧
        0 ≤ (result i).1 1 ∧ (result i).1 1 < size 1) ∧
      (∀ j, ((integerPart j : Int) : ℚ) + fractionalPart j =
        max 0 (min (pos j) ((size j : ℚ) - 1))) ∧
      (∀ j, 0 ≤ fractionalPart j ∧ fractionalPart j ≤ 1) ∧
      (∀ i, 0 ≤ (result i).2) ∧
      |(result 0).2 + (result 1).2 + (result 2).2 + (result 3).2 - 1| ≤ 1 / 2 ^ 22 := by
  have hs0 : size 0 < 2 ^ 31 := by have := (hsize 0).2; omega
  have hs1 : size 1 < 2 ^ 31 := by have := (hsize 1).2; omega
  obtain ⟨c0, c0a, c0b, i0a, i0w, i0b, f0a, f0b, e0⟩ :=
    bilinearWeightsAndCoords.axis_exact (pos 0) (size 0) (hsize 0).1 hs0 (hpos 0).1 (hpos 0).2
  obtain ⟨c1, c1a, c1b, i1a, i1w, i1b, f1a, f1b, e1⟩ :=
    bilinearWeightsAndCoords.axis_exact (pos 1) (size 1) (hsize 1).1 hs1 (hpos 1).1 (hpos 1).2
  obtain ⟨a0, k0, w0, ip0, fp0, q0⟩ :=
    bilinearWeightsAndCoords.axis_float32 (pos 0) (size 0) (hsize 0).1 (hsize 0).2 (hfloat 0)
      (hpos 0).1 (hpos 0).2
  obtain ⟨a1, k1, w1, ip1, fp1, q1⟩ :=
    bilinearWeightsAndCoords.axis_float32 (pos 1) (size 1) (hsize 1).1 (hsize 1).2 (hfloat 1)
      (hpos 1).1 (hpos 1).2
  have hbw := bilinearWeights_some float32 _ _ f0a f0b f1a f1b
  obtain ⟨n0, n1, n2, n3, hsum⟩ := bilinearWeights_float32_sum _ _ f0a f0b f1a f1b
  have A0 : pos 0 ≥ -(1 / 2) ∧ pos 0 ≤ float32 (float32 ((size 0 : Int) : ℚ) - 1 / 2) :=
    ⟨(hpos 0).1, a0⟩
  have A1 : pos 1 ≥ -(1 / 2) ∧ pos 1 ≤ float32 (float32 ((size 1 : Int) : ℚ) - 1 / 2) :=
    ⟨(hpos 1).1, a1⟩
  have B0 : bilinearWeightsAndCoords.clamp id (pos 0) (size 0) ≥ 0 ∧
      bilinearWeightsAndCoords.clamp id (pos 0) (size 0) ≤
        float32 ((wrapInt (size 0 - 1) : Int) : ℚ) := ⟨c0a, by rw [w0]; exact c0b⟩
  have B1 : bilinearWeightsAndCoords.clamp id (pos 1) (size 1) ≥ 0 ∧
      bilinearWeightsAndCoords.clamp id (pos 1) (size 1) ≤
        float32 ((wrapInt (size 1 - 1) : Int) : ℚ) := ⟨c1a, by rw [w1]; exact c1b⟩
  have E : ∀ i : Fin 2,
      float32 (float32 ((bilinearWeightsAndCoords.integerPart id
        (bilinearWeightsAndCoords.clamp id (pos i) (size i)) : Int) : ℚ) +
        bilinearWeightsAndCoords.fractionalPart id
          (bilinearWeightsAndCoords.clamp id (pos i) (size i))) =
      bilinearWeightsAndCoords.clamp id (pos i) (size i) := by
    intro i
    fin_cases i
    · exact q0
    · exact q1
  have R : ∀ i : Fin 4,
      (![if i.val % 2 = 1 then
            wrapInt (bilinearWeightsAndCoords.integerPart id
              (bilinearWeightsAndCoords.clamp id (pos 0) (size 0)) + 1)
          else bilinearWeightsAndCoords.integerPart id
            (bilinearWeightsAndCoords.clamp id (pos 0) (size 0)),
          if i.val ≥ 2 then
            wrapInt (bilinearWeightsAndCoords.integerPart id
              (bilinearWeightsAndCoords.clamp id (pos 1) (size 1)) + 1)
          else bilinearWeightsAndCoords.integerPart id
            (bilinearWeightsAndCoords.clamp id (pos 1) (size 1))] : glm.ivec2) 0 ≥ 0 ∧
      (![if i.val % 2 = 1 then
            wrapInt (bilinearWeightsAndCoords.integerPart id
              (bilinearWeightsAndCoords.clamp id (pos 0) (size 0)) + 1)
          else bilinearWeightsAndCoords.integerPart id
            (bilinearWeightsAndCoords.clamp id (pos 0) (size 0)),
          if i.val ≥ 2 then
            wrapInt (bilinearWeightsAndCoords.integerPart id
              (bilinearWeightsAndCoords.clamp id (pos 1) (size 1)) + 1)
          else bilinearWeightsAndCoords.integerPart id
            (bilinearWeightsAndCoords.clamp id (pos 1) (size 1))] : glm.ivec2) 0 < size 0 ∧
      (![if i.val % 2 = 1 then
            wrapInt (bilinearWeightsAndCoords.integerPart id
              (bilinearWeightsAndCoords.clamp id (pos 0) (size 0)) + 1)
          else bilinearWeightsAndCoords.integerPart id
            (bilinearWeightsAndCoords.clamp id (pos 0) (size 0)),
          if i.val ≥ 2 then
            wrapInt (bilinearWeightsAndCoords.integerPart id
              (bilinearWeightsAndCoords.clamp id (pos 1) (size 1)) + 1)
          else bilinearWeightsAndCoords.integerPart id
            (bilinearWeightsAndCoords.clamp id (pos 1) (size 1))] : glm.ivec2) 1 ≥ 0 ∧
      (![if i.val % 2 = 1 then
            wrapInt (bilinearWeightsAndCoords.integerPart id
              (bilinearWeightsAndCoords.clamp id (pos 0) (size 0)) + 1)
          else bilinearWeightsAndCoords.integerPart id
            (bilinearWeightsAndCoords.clamp id (pos 0) (size 0)),
          if i.val ≥ 2 then
            wrapInt (bilinearWeightsAndCoords.integerPart id
              (bilinearWeightsAndCoords.clamp id (pos 1) (size 1)) + 1)
          else bilinearWeightsAndCoords.integerPart id
            (bilinearWeightsAndCoords.clamp id (pos 1) (size 1))] : glm.ivec2) 1 < size 1 := by
    intro i
    rw [i0w, i1w]
    simp only [Matrix.cons_val_zero, Matrix.cons_val_one, Matrix.head_cons]
    refine ⟨?_, ?_, ?_, ?_⟩ <;> split_ifs <;> omega
  have hres : ∃ result, bilinearWeightsAndCoords float32 pos size = some result ∧
      result = fun i =>
        ((![if i.val % 2 = 1 then
            wrapInt (bilinearWeightsAndCoords.integerPart id
              (bilinearWeightsAndCoords.clamp id (pos 0) (size 0)) + 1)
          else bilinearWeightsAndCoords.integerPart id
            (bilinearWeightsAndCoords.clamp id (pos 0) (size 0)),
          if i.val ≥ 2 then
            wrapInt (bilinearWeightsAndCoords.integerPart id
              (bilinearWeightsAndCoords.clamp id (pos 1) (size 1)) + 1)
          else bilinearWeightsAndCoords.integerPart id
            (bilinearWeightsAndCoords.clamp id (pos 1) (size 1))] : glm.ivec2),
        (![float32 (float32 (1 - bilinearWeightsAndCoords.fractionalPart id
              (bilinearWeightsAndCoords.clamp id (pos 0) (size 0))) *
            float32 (1 - bilinearWeightsAndCoords.fractionalPart id
              (bilinearWeightsAndCoords.clamp id (pos 1) (size 1)))),
          float32 (bilinearWeightsAndCoords.fractionalPart id
              (bilinearWeightsAndCoords.clamp id (pos 0) (size 0)) *
            float32 (1 - bilinearWeightsAndCoords.fractionalPart id
              (bilinearWeightsAndCoords.clamp id (pos 1) (size 1)))),
          float32 (float32 (1 - bilinearWeightsAndCoords.fractionalPart id
              (bilinearWeightsAndCoords.clamp id (pos 0) (size 0))) *
            bilinearWeightsAndCoords.fractionalPart id
              (bilinearWeightsAndCoords.clamp id (pos 1) (size 1))),
          float32 (bilinearWeightsAndCoords.fractionalPart id
              (bilinearWeightsAndCoords.clamp id (pos 0) (size 0)) *
            bilinearWeightsAndCoords.fractionalPart id
              (bilinearWeightsAndCoords.clamp id (pos 1) (size 1)))] : glm.vec4) i) := by
    refine ⟨_, ?_, rfl⟩
    unfold bilinearWeightsAndCoords
    rw [if_neg (not_not.mpr A0), if_neg (not_not.mpr A1)]
    dsimp only
    rw [k0, k1, ip0, ip1, fp0, fp1]
    rw [if_neg (not_not.mpr B0), if_neg (not_not.mpr B1), if_neg (not_not.mpr (i0w.symm ▸ i0b)),
      if_neg (not_not.mpr (i1w.symm ▸ i1b))]
    have E1 : ∀ i : Fin 2,
        float32 (float32 ((bilinearWeightsAndCoords.integerPart float32
          (bilinearWeightsAndCoords.clamp float32 (pos i) (size i)) : Int) : ℚ) +
          bilinearWeightsAndCoords.fractionalPart float32
            (bilinearWeightsAndCoords.clamp float32 (pos i) (size i))) =
        bilinearWeightsAndCoords.clamp float32 (pos i) (size i) := by
      intro i
      fin_cases i
      · show float32 (float32 ((bilinearWeightsAndCoords.integerPart float32
            (bilinearWeightsAndCoords.clamp float32 (pos 0) (size 0)) : Int) : ℚ) +
            bilinearWeightsAndCoords.fractionalPart float32
              (bilinearWeightsAndCoords.clamp float32 (pos 0) (size 0))) =
            bilinearWeightsAndCoords.clamp float32 (pos 0) (size 0)
        rw [k0, ip0, fp0]
        exact q0
      · show float32 (float32 ((bilinearWeightsAndCoords.integerPart float32
            (bilinearWeightsAndCoords.clamp float32 (pos 1) (size 1)) : Int) : ℚ) +
            bilinearWeightsAndCoords.fractionalPart float32
              (bilinearWeightsAndCoords.clamp float32 (pos 1) (size 1))) =
            bilinearWeightsAndCoords.clamp float32 (pos 1) (size 1)
        rw [k1, ip1, fp1]
        exact q1
    rw [if_neg (not_not.mpr E1), hbw]
    dsimp only
    rw [if_neg (not_not.mpr R)]
  obtain ⟨result, hres1, hres2⟩ := hres
  subst hres2
  refine ⟨_, fun j => bilinearWeightsAndCoords.integerPart id
      (bilinearWeightsAndCoords.clamp id (pos j) (size j)),
    fun j => bilinearWeightsAndCoords.fractionalPart id
      (bilinearWeightsAndCoords.clamp id (pos j) (size j)), hres1, ?_, ?_, ?_, ?_, ?_, ?_, ?_⟩
  · rw [hbw]
  · intro i
    exact ⟨by simp only [Matrix.cons_val_zero, i0w]; split_ifs <;> simp,
      by simp only [Matrix.cons_val_one, Matrix.head_cons, i1w]; split_ifs <;> simp⟩
  · exact R
  · intro j
    fin_cases j
    · exact e0.trans c0
    · exact e1.trans c1
  · intro j
    fin_cases j
    · exact ⟨f0a, f0b⟩
    · exact ⟨f1a, f1b⟩
  · intro i
    fin_cases i
    · exact n0
    · exact n1
    · exact n2
    · exact n3
  · exact hsum

/-- Witness of C27 as amended: a bitmap of 4 by 3 pixels, the position 0.1f
on the first axis and the lower border on the second. -/
theorem bilinearWeightsAndCoords_float32_safe_witness :
    ∃ (result : Fin 4 → glm.ivec2 × ℚ) (integerPart : glm.ivec2) (fractionalPart : glm.vec2),
      bilinearWeightsAndCoords float32 ![13421773 / 134217728, -(1 / 2)] ![4, 3] =
        some result ∧
      bilinearWeights float32 (fractionalPart 0) (fractionalPart 1) =
        some (fun i => (result i).2) ∧
      (∀ i, (result i).1 0 = integerPart 0 + (if i.val % 2 = 1 then 1 else 0) ∧
        (result i).1 1 = integerPart 1 + (if i.val ≥ 2 then 1 else 0)) ∧
      (∀ i, 0 ≤ (result i).1 0 ∧ (result i).1 0 < (![4, 3] : glm.ivec2) 0 ∧
        0 ≤ (result i).1 1 ∧ (result i).1 1 < (![4, 3] : glm.ivec2) 1) ∧
      (∀ j, ((integerPart j : Int) : ℚ) + fractionalPart j =
        max 0 (min ((![13421773 / 134217728, -(1 / 2)] : glm.vec2) j)
          ((((![4, 3] : glm.ivec2) j : Int) : ℚ) - 1))) ∧
      (∀ j, 0 ≤ fractionalPart j ∧ fractionalPart j ≤ 1) ∧
      (∀ i, 0 ≤ (result i).2) ∧
      |(result 0).2 + (result 1).2 + (result 2).2 + (result 3).2 - 1| ≤ 1 / 2 ^ 22 :=
  bilinearWeightsAndCoords_float32_safe ![13421773 / 134217728, -(1 / 2)] ![4, 3]
    (by
      intro i
      fin_cases i <;> decide)
    (by
      intro i
      fin_cases i <;> decide!)
    (by
      intro i
      fin_cases i <;> norm_num)

/-- Counterexample to C27 as stated, in the arithmetic of the type `float`.
For the bitmap size (16777226, 2) and the position (16777218, 0), a float
value inside the stated range, the assertion
`glm::vec2(integerPart) + fractionalPart == pos` fails: the loop leaves
`integerPart.x = 16777217`, which no float holds, so its conversion gives
16777216 and the sum with 1 is 16777216 again. And for the size (2, 2) and the
position (0.1f, 0.3f) the four weights that are returned sum to
1 + 2^-27, not to 1. With exact arithmetic in place of the rounding the first
input passes. -/
theorem bilinearWeightsAndCoords_float32_counterexample :
    (∀ i, 2 ≤ (![16777226, 2] : glm.ivec2) i ∧ (![16777226, 2] : glm.ivec2) i < 2 ^ 31) ∧
    (∀ i, -(1 / 2) ≤ (![16777218, 0] : glm.vec2) i ∧
      (![16777218, 0] : glm.vec2) i ≤ (((![16777226, 2] : glm.ivec2) i : Int) : ℚ) - 1 / 2) ∧
    float32 16777218 = 16777218 ∧
    float32 16777217 = 16777216 ∧
    bilinearWeightsAndCoords float32 ![16777218, 0] ![16777226, 2] = none ∧
    (bilinearWeightsAndCoords id ![16777218, 0] ![16777226, 2]).isSome = true ∧
    (bilinearWeightsAndCoords float32 ![float32 (1 / 10), float32 (3 / 10)] ![2, 2]).map
      (fun result => (result 0).2 + (result 1).2 + (result 2).2 + (result 3).2) =
      some (1 + 1 / 134217728) := by
  refine ⟨by decide, by decide!, by decide!, by decide!, ?_, by decide!, by decide!⟩
  apply Option.not_isSome_iff_eq_none.mp
  decide!

/-! ## Concurrent calls of `AddBounceLight` -/

theorem AddBounceLight.eq_indexUpdate (env : Collaborators) (call : AddBounceLightCall)
    (st st1 : Registry)
    (h : AddBounceLight env call.pos call.colorByStyle call.surfnormal call.area call.face st =
      some st1) :
    st1 = AddBounceLight.indexUpdate call.face
      (AddBounceLight.push_back
        (AddBounceLight.record env call.pos call.colorByStyle call.surfnormal call.area
          call.face) st) := by
  unfold AddBounceLight at h
  split_ifs at h
  simp only [Option.some.injEq] at h
  subst h
  rfl

theorem runAddBounceLight_append (env : Collaborators) (l1 l2 : List AddBounceLightCall)
    (st : Registry) :
    runAddBounceLight env (l1 ++ l2) st =
      (runAddBounceLight env l1 st).bind (runAddBounceLight env l2) := by
  induction l1 generalizing st with
  | nil => rfl
  | cons a l ih =>
    simp only [List.cons_append, runAddBounceLight]
    cases AddBounceLight env a.pos a.colorByStyle a.surfnormal a.area a.face st with
    | none => rfl
    | some st1 => exact ih st1

theorem AddBounceLight.serial_start (env : Collaborators) (n : Nat)
    (calls : Nat → AddBounceLightCall) : AddBounceLight.Serial env n calls Shared.start := by
  refine ⟨[], Registry.empty, List.nodup_nil, ?_, rfl, ?_, ?_, Or.inr ⟨?_, rfl⟩⟩
  · intro t
    simp [Shared.start]
  · intro t h
    exact absurd rfl h
  · intro t
    simp [Shared.start, AddBounceLight.pc.inCriticalSection]
  · intro t
    simp [Shared.start]

theorem AddBounceLight.serial_step (env : Collaborators) (n : Nat)
    (calls : Nat → AddBounceLightCall) (t : Nat) (s : Shared)
    (h : AddBounceLight.Serial env n calls s) :
    AddBounceLight.Serial env n calls (AddBounceLight.step env n calls t s) := by
  unfold AddBounceLight.step
  by_cases ha : s.aborted = true
  · rw [if_pos ha]
    exact h
  rw [if_neg ha]
  by_cases hn : t < n
  swap
  · rw [if_pos hn]
    exact h
  rw [if_neg (not_not.mpr hn)]
  obtain ⟨order, R, I1, I2, I3, I4, I5, I6⟩ := h
  have hexcl : ∀ u, (s.pc u).inCriticalSection = true → (s.pc t).inCriticalSection = true →
      u = t := by
    intro u hu ht
    have h1 := (I5 u).mp hu
    have h2 := (I5 t).mp ht
    rw [h1] at h2
    exact Option.some.inj h2
  cases hpc : s.pc t with
  | entry =>
    dsimp only
    by_cases c1 : ((calls t).colorByStyle.all fun styleColor =>
        decide (styleColor.2 0 ≥ 0) && decide (styleColor.2 1 ≥ 0) &&
          decide (styleColor.2 2 ≥ 0)) = false
    · rw [if_pos c1]
      exact ⟨order, R, I1, I2, I3, I4, I5, I6⟩
    rw [if_neg c1]
    by_cases c2 : ¬ (calls t).area > 0
    · rw [if_pos c2]
      exact ⟨order, R, I1, I2, I3, I4, I5, I6⟩
    rw [if_neg c2]
    · have hsome : ∃ st1, AddBounceLight env (calls t).pos (calls t).colorByStyle
          (calls t).surfnormal (calls t).area (calls t).face Registry.empty = some st1 := by
        unfold AddBounceLight
        rw [if_neg c1, if_neg c2]
        exact ⟨_, rfl⟩
      have hass := (AddBounceLight_some_iff env _ _ _ _ _ _).mp hsome
      refine ⟨order, R, I1, ?_, I3, ?_, ?_, ?_⟩
      · intro u
        rw [I2 u]
        by_cases hu : u = t
        · subst hu
          simp [hpc]
        · simp only [Function.update_noteq hu]
      · intro u hu
        by_cases hut : u = t
        · subst hut
          exact ⟨hn, hass⟩
        · simp only [Function.update_noteq hut] at hu
          exact I4 u hu
      · intro u
        by_cases hut : u = t
        · subst hut
          have := I5 u
          rw [hpc] at this
          simp only [Function.update_same]
          simpa [AddBounceLight.pc.inCriticalSection] using this
        · simp only [Function.update_noteq hut]
          exact I5 u
      · rcases I6 with ⟨u, h1, h2⟩ | ⟨h1, h2⟩
        · refine Or.inl ⟨u, ?_, h2⟩
          have hut : u ≠ t := by
            rintro rfl
            rw [hpc] at h1
            exact absurd h1 (by simp)
          simp only [Function.update_noteq hut]
          exact h1
        · refine Or.inr ⟨?_, h2⟩
          intro u
          by_cases hut : u = t
          · subst hut
            simp
          · simp only [Function.update_noteq hut]
            exact h1 u
  | waiting =>
    dsimp only
    cases hl : s.radlights_lock with
    | some v =>
      dsimp only
      exact ⟨order, R, I1, I2, I3, I4, I5, I6⟩
    | none =>
      dsimp only
      have hnocs : ∀ u, (s.pc u).inCriticalSection = false := by
        intro u
        cases hc : (s.pc u).inCriticalSection with
        | false => rfl
        | true =>
          have := (I5 u).mp hc
          rw [hl] at this
          exact absurd this (by simp)
      refine ⟨order, R, I1, ?_, I3, ?_, ?_, ?_⟩
      · intro u
        rw [I2 u]
        by_cases hu : u = t
        · subst hu
          simp [hpc]
        · simp only [Function.update_noteq hu]
      · intro u hu
        by_cases hut : u = t
        · subst hut
          exact I4 u (by rw [hpc]; simp)
        · simp only [Function.update_noteq hut] at hu
          exact I4 u hu
      · intro u
        by_cases hut : u = t
        · subst hut
          simp [AddBounceLight.pc.inCriticalSection]
        · simp only [Function.update_noteq hut, hnocs u]
          simp [Ne.symm hut]
      · rcases I6 with ⟨u, h1, h2⟩ | ⟨h1, h2⟩
        · have := hnocs u
          rw [h1] at this
          exact absurd this (by simp [AddBounceLight.pc.inCriticalSection])
        · refine Or.inr ⟨?_, h2⟩
          intro u
          by_cases hut : u = t
          · subst hut
            simp
          · simp only [Function.update_noteq hut]
            exact h1 u
  | locked =>
    dsimp only
    have htcs : (s.pc t).inCriticalSection = true := by rw [hpc]; rfl
    have hreg : s.registry = R := by
      rcases I6 with ⟨u, h1, h2⟩ | ⟨h1, h2⟩
      · have hu := hexcl u (by rw [h1]; rfl) htcs
        subst hu
        rw [hpc] at h1
        exact absurd h1 (by simp)
      · exact h2
    refine ⟨order, R, I1, ?_, I3, ?_, ?_, ?_⟩
    · intro u
      rw [I2 u]
      by_cases hu : u = t
      · subst hu
        simp [hpc]
      · simp only [Function.update_noteq hu]
    · intro u hu
      by_cases hut : u = t
      · subst hut
        exact I4 u (by rw [hpc]; simp)
      · simp only [Function.update_noteq hut] at hu
        exact I4 u hu
    · intro u
      by_cases hut : u = t
      · subst hut
        rw [← I5 u, htcs]
        simp [AddBounceLight.pc.inCriticalSection]
      · simp only [Function.update_noteq hut]
        exact I5 u
    · refine Or.inl ⟨t, by simp, ?_⟩
      show AddBounceLight.push_back _ s.registry = _
      rw [hreg]
  | pushed =>
    dsimp only
    have htcs : (s.pc t).inCriticalSection = true := by rw [hpc]; rfl
    have hreg : s.registry = AddBounceLight.push_back
        (AddBounceLight.record env (calls t).pos (calls t).colorByStyle (calls t).surfnormal
          (calls t).area (calls t).face) R := by
      rcases I6 with ⟨u, h1, h2⟩ | ⟨h1, h2⟩
      · have hu := hexcl u (by rw [h1]; rfl) htcs
        subst hu
        exact h2
      · exact absurd hpc (h1 t)
    have hass := (I4 t (by rw [hpc]; simp)).2
    obtain ⟨R1, hR1⟩ := (AddBounceLight_some_iff env (calls t).pos (calls t).colorByStyle
      (calls t).surfnormal (calls t).area (calls t).face R).mpr hass
    have hR1eq := AddBounceLight.eq_indexUpdate env (calls t) R R1 hR1
    have htnot : t ∉ order := by
      intro hmem
      have := (I2 t).mp hmem
      rw [hpc] at this
      simp at this
    refine ⟨order ++ [t], R1, ?_, ?_, ?_, ?_, ?_, ?_⟩
    · rw [List.nodup_append]
      refine ⟨I1, List.nodup_singleton _, ?_⟩
      intro a ha hb
      rw [List.mem_singleton] at hb
      subst hb
      exact htnot ha
    · intro u
      rw [List.mem_append, List.mem_singleton, I2 u]
      by_cases hu : u = t
      · subst hu
        simp
      · simp only [Function.update_noteq hu, hu, or_false]
    · rw [List.map_append, runAddBounceLight_append, I3]
      simp only [Option.some_bind, List.map_singleton, runAddBounceLight, hR1]
    · intro u hu
      by_cases hut : u = t
      · subst hut
        exact I4 u (by rw [hpc]; simp)
      · simp only [Function.update_noteq hut] at hu
        exact I4 u hu
    · intro u
      by_cases hut : u = t
      · subst hut
        rw [← I5 u, htcs]
        simp [AddBounceLight.pc.inCriticalSection]
      · simp only [Function.update_noteq hut]
        exact I5 u
    · refine Or.inr ⟨?_, ?_⟩
      · intro u
        by_cases hut : u = t
        · subst hut
          simp
        · simp only [Function.update_noteq hut]
          intro hup
          exact hut (hexcl u (by rw [hup]; rfl) htcs)
      · show AddBounceLight.indexUpdate _ s.registry = _
        rw [hreg, hR1eq]
  | indexed =>
    dsimp only
    have htcs : (s.pc t).inCriticalSection = true := by rw [hpc]; rfl
    refine ⟨order, R, I1, ?_, I3, ?_, ?_, ?_⟩
    · intro u
      rw [I2 u]
      by_cases hu : u = t
      · subst hu
        simp [hpc]
      · simp only [Function.update_noteq hu]
    · intro u hu
      by_cases hut : u = t
      · subst hut
        exact I4 u (by rw [hpc]; simp)
      · simp only [Function.update_noteq hut] at hu
        exact I4 u hu
    · intro u
      by_cases hut : u = t
      · subst hut
        simp [AddBounceLight.pc.inCriticalSection]
      · simp only [Function.update_noteq hut]
        constructor
        · intro hu
          exact absurd (hexcl u hu htcs) hut
        · intro hu
          exact absurd hu (by simp)
    · rcases I6 with ⟨u, h1, h2⟩ | ⟨h1, h2⟩
      · have hu := hexcl u (by rw [h1]; rfl) htcs
        subst hu
        rw [hpc] at h1
        exact absurd h1 (by simp)
      · refine Or.inr ⟨?_, h2⟩
        intro u
        by_cases hut : u = t
        · subst hut
          simp
        · simp only [Function.update_noteq hut]
          exact h1 u
  | returned =>
    dsimp only
    exact ⟨order, R, I1, I2, I3, I4, I5, I6⟩

theorem AddBounceLight.serial_interleave (env : Collaborators) (n : Nat)
    (calls : Nat → AddBounceLightCall) (schedule : List Nat) (s : Shared)
    (h : AddBounceLight.Serial env n calls s) :
    AddBounceLight.Serial env n calls (AddBounceLight.interleave env n calls schedule s) := by
  induction schedule generalizing s with
  | nil => exact h
  | cons t rest ih =>
    exact ih _ (AddBounceLight.serial_step env n calls t s h)

/-- C22: under every interleaving of concurrently running `AddBounceLight`
calls (every order in which the threads take their steps, from the start of
the program), at most one thread is between taking `radlights_lock` and
releasing it, and it is the holder of the lock; so the push and the matching
face-index update of a call are not separated by a step of another call on
the registry. Whenever the lock is free, the registry is the result of
running the calls that have returned one after the other in some order; and
at every moment every index in a face-index list refers to a record that has
been pushed. -/
theorem AddBounceLight_critical_section_atomic (env : Collaborators) (n : Nat)
    (calls : Nat → AddBounceLightCall) (schedule : List Nat) :
    (∀ t u,
      ((AddBounceLight.interleave env n calls schedule Shared.start).pc t).inCriticalSection
        = true →
      ((AddBounceLight.interleave env n calls schedule Shared.start).pc u).inCriticalSection
        = true → t = u) ∧
    (∀ t,
      ((AddBounceLight.interleave env n calls schedule Shared.start).pc t).inCriticalSection
        = true ↔
      (AddBounceLight.interleave env n calls schedule Shared.start).radlights_lock = some t) ∧
    ((AddBounceLight.interleave env n calls schedule Shared.start).radlights_lock = none →
      ∃ order : List Nat, order.Nodup ∧
        (∀ t, t ∈ order ↔
          (AddBounceLight.interleave env n calls schedule Shared.start).pc t =
            AddBounceLight.pc.returned) ∧
        runAddBounceLight env (order.map calls) Registry.empty =
          some (AddBounceLight.interleave env n calls schedule Shared.start).registry) ∧
    (∀ (f i : Int),
      i ∈ BounceLightsForFaceNum
        (AddBounceLight.interleave env n calls schedule Shared.start).registry f →
      0 ≤ i ∧
      i < ((BounceLights
        (AddBounceLight.interleave env n calls schedule Shared.start).registry).length : Int)) := by
  obtain ⟨order, R, I1, I2, I3, -, I5, I6⟩ :=
    AddBounceLight.serial_interleave env n calls schedule Shared.start
      (AddBounceLight.serial_start env n calls)
  generalize AddBounceLight.interleave env n calls schedule Shared.start = s at I2 I5 I6 ⊢
  refine ⟨?_, I5, ?_, ?_⟩
  · intro t u ht hu
    have h1 := (I5 t).mp ht
    rw [(I5 u).mp hu] at h1
    exact (Option.some.inj h1).symm
  · intro hfree
    have hnocs : ∀ u, (s.pc u).inCriticalSection = false := by
      intro u
      cases hc : (s.pc u).inCriticalSection with
      | false => rfl
      | true =>
        have := (I5 u).mp hc
        rw [hfree] at this
        exact absurd this (by simp)
    refine ⟨order, I1, ?_, ?_⟩
    · intro t
      rw [I2 t]
      constructor
      · rintro (h | h)
        · have := hnocs t
          rw [h] at this
          exact absurd this (by simp [AddBounceLight.pc.inCriticalSection])
        · exact h
      · exact Or.inr
    · rcases I6 with ⟨u, h1, -⟩ | ⟨-, h2⟩
      · have := hnocs u
        rw [h1] at this
        exact absurd this (by simp [AddBounceLight.pc.inCriticalSection])
      · rw [h2]
        exact I3
  · intro f i hi
    obtain ⟨h1, -, -, -⟩ := indexConsistent_run env (order.map calls) Registry.empty R
      (indexConsistent_empty env) I3
    rcases I6 with ⟨u, -, h2⟩ | ⟨-, h2⟩
    · rw [h2] at hi ⊢
      obtain ⟨a, b, -⟩ := h1 f i hi
      refine ⟨a, ?_⟩
      simp only [BounceLights, AddBounceLight.push_back, List.length_append,
        List.length_singleton] at b ⊢
      push_cast
      omega
    · rw [h2] at hi ⊢
      obtain ⟨a, b, -⟩ := h1 f i hi
      exact ⟨a, b⟩


/-- Two threads, for the faces 0 and 1 of the sample level: after thread 1 has
taken the lock and pushed its record, thread 0 is held at the lock, and the
registry holds the record without its index. Two steps later the index is in
place and the lock is free. -/
theorem AddBounceLight.interleave_two_threads :
    (AddBounceLight.interleave sampleLevel 2
      (fun t => ⟨![0, 0, 1], [(0, ![1, 1, 1])], ![0, 0, 1], 4, t⟩) [0, 1, 1, 0, 1, 0]
      Shared.start).radlights_lock = some 1 ∧
    (AddBounceLight.interleave sampleLevel 2
      (fun t => ⟨![0, 0, 1], [(0, ![1, 1, 1])], ![0, 0, 1], 4, t⟩) [0, 1, 1, 0, 1, 0]
      Shared.start).pc 0 = AddBounceLight.pc.waiting ∧
    (AddBounceLight.interleave sampleLevel 2
      (fun t => ⟨![0, 0, 1], [(0, ![1, 1, 1])], ![0, 0, 1], 4, t⟩) [0, 1, 1, 0, 1, 0]
      Shared.start).registry.radlights.length = 1 ∧
    (AddBounceLight.interleave sampleLevel 2
      (fun t => ⟨![0, 0, 1], [(0, ![1, 1, 1])], ![0, 0, 1], 4, t⟩) [0, 1, 1, 0, 1, 0]
      Shared.start).registry.radlightsByFacenum = [] ∧
    (AddBounceLight.interleave sampleLevel 2
      (fun t => ⟨![0, 0, 1], [(0, ![1, 1, 1])], ![0, 0, 1], 4, t⟩) [0, 1, 1, 0, 1, 0, 1, 1]
      Shared.start).radlights_lock = none ∧
    (AddBounceLight.interleave sampleLevel 2
      (fun t => ⟨![0, 0, 1], [(0, ![1, 1, 1])], ![0, 0, 1], 4, t⟩) [0, 1, 1, 0, 1, 0, 1, 1]
      Shared.start).registry.radlightsByFacenum = [(1, [0])] := by
  refine ⟨?_, ?_, ?_, ?_, ?_, ?_⟩ <;> decide!

/-! ## The sums of `MakeBounceLightsThread` in float arithmetic -/

namespace Rounded

namespace MakeBounceLightsThread

/-- One patch replaces, under each of its styles, the sum by the rounded sum
of the old value and the rounded product of colour and area; the other
styles keep their value. -/
theorem addPatch_index_rnd (rnd : ℚ → ℚ) (sum light : stdmap qvec3f) (patcharea : ℚ)
    (hl : light.keys.Nodup) (s : Int) (k : Fin 3) :
    (addPatch rnd sum light patcharea).index s (qvec.splat 3 0) k =
      match light.find s with
      | some c => rnd (sum.index s (qvec.splat 3 0) k + rnd (c k * patcharea))
      | none => sum.index s (qvec.splat 3 0) k := by
  induction light generalizing sum with
  | nil => rfl
  | cons a l ih =>
    obtain ⟨ka, va⟩ := a
    simp only [stdmap.keys, List.map_cons, List.nodup_cons] at hl
    have hrec := ih (sum.set ka (fun k => rnd (sum.index ka (qvec.splat 3 0) k +
      rnd (va k * patcharea)))) hl.2
    have hunf : addPatch rnd sum ((ka, va) :: l) patcharea =
        addPatch rnd (sum.set ka (fun k => rnd (sum.index ka (qvec.splat 3 0) k +
          rnd (va k * patcharea)))) l patcharea := rfl
    rw [hunf, hrec]
    by_cases hs : s = ka
    · subst hs
      have h1 : stdmap.find l s = none := (stdmap.find_eq_none_iff l s).mpr hl.1
      have h2 : (sum.set s (fun k => rnd (sum.index s (qvec.splat 3 0) k +
          rnd (va k * patcharea)))).index s (qvec.splat 3 0) =
          fun k => rnd (sum.index s (qvec.splat 3 0) k + rnd (va k * patcharea)) :=
        stdmap.index_of_find (by rw [stdmap.find_set, if_pos rfl]) _
      rw [h1, stdmap.find_cons_self, h2]
    · have h2 : (sum.set ka (fun k => rnd (sum.index ka (qvec.splat 3 0) k +
          rnd (va k * patcharea)))).index s (qvec.splat 3 0) =
          sum.index s (qvec.splat 3 0) := by
        unfold stdmap.index
        rw [stdmap.find_set, if_neg hs]
      rw [h2, stdmap.find_cons_of_ne (ka, va) l s hs]

theorem addPatch_keys_rnd (rnd : ℚ → ℚ) (sum light : stdmap qvec3f) (patcharea : ℚ) (s : Int) :
    s ∈ (addPatch rnd sum light patcharea).keys ↔ s ∈ sum.keys ∨ s ∈ light.keys := by
  induction light generalizing sum with
  | nil => simp [addPatch, stdmap.keys]
  | cons a l ih =>
    have hunf : addPatch rnd sum (a :: l) patcharea =
        addPatch rnd (sum.set a.1 (fun k => rnd (sum.index a.1 (qvec.splat 3 0) k +
          rnd (a.2 k * patcharea)))) l patcharea := rfl
    rw [hunf, ih, stdmap.keys_set]
    simp only [stdmap.keys, List.map_cons, List.mem_cons]
    tauto

theorem addPatch_sorted_rnd (rnd : ℚ → ℚ) (sum light : stdmap qvec3f) (patcharea : ℚ)
    (h : sum.keys.Pairwise (fun a b => a < b)) :
    (addPatch rnd sum light patcharea).keys.Pairwise (fun a b => a < b) := by
  induction light generalizing sum with
  | nil => exact h
  | cons a l ih =>
    have hunf : addPatch rnd sum (a :: l) patcharea =
        addPatch rnd (sum.set a.1 (fun k => rnd (sum.index a.1 (qvec.splat 3 0) k +
          rnd (a.2 k * patcharea)))) l patcharea := rfl
    rw [hunf]
    exact ih _ (stdmap.keys_set_sorted sum _ _ h)

/-- The loop over the patches, from any intermediate state. -/
theorem accumulate_from_rnd (rnd : ℚ → ℚ) (env : Collaborators) (ps : List patch_t)
    (hps : ∀ p ∈ ps, p.lightByStyle.keys.Nodup) (acc : stdmap qvec3f × ℚ)
    (hacc : acc.1.keys.Pairwise (fun a b => a < b)) :
    (ps.foldl (fun acc patch =>
        (addPatch rnd acc.1 patch.lightByStyle (rnd (env.area patch.w)),
          rnd (acc.2 + rnd (env.area patch.w)))) acc).2 =
      ps.foldl (fun t p => rnd (t + rnd (env.area p.w))) acc.2 ∧
    (ps.foldl (fun acc patch =>
        (addPatch rnd acc.1 patch.lightByStyle (rnd (env.area patch.w)),
          rnd (acc.2 + rnd (env.area patch.w)))) acc).1.keys.Pairwise (fun a b => a < b) ∧
    (∀ s, s ∈ (ps.foldl (fun acc patch =>
        (addPatch rnd acc.1 patch.lightByStyle (rnd (env.area patch.w)),
          rnd (acc.2 + rnd (env.area patch.w)))) acc).1.keys ↔
      s ∈ acc.1.keys ∨ ∃ p ∈ ps, s ∈ p.lightByStyle.keys) ∧
    ∀ s k, (ps.foldl (fun acc patch =>
        (addPatch rnd acc.1 patch.lightByStyle (rnd (env.area patch.w)),
          rnd (acc.2 + rnd (env.area patch.w)))) acc).1.index s (qvec.splat 3 0) k =
      ps.foldl (fun v p =>
        match p.lightByStyle.find s with
        | some c => rnd (v + rnd (c k * rnd (env.area p.w)))
        | none => v) (acc.1.index s (qvec.splat 3 0) k) := by
  induction ps generalizing acc with
  | nil => exact ⟨rfl, hacc, by simp, fun _ _ => rfl⟩
  | cons p l ih =>
    rw [List.foldl_cons]
    obtain ⟨h1, h2, h3, h4⟩ := ih (fun q hq => hps q (List.mem_cons_of_mem _ hq))
      (addPatch rnd acc.1 p.lightByStyle (rnd (env.area p.w)),
        rnd (acc.2 + rnd (env.area p.w)))
      (addPatch_sorted_rnd rnd _ _ _ hacc)
    refine ⟨?_, h2, ?_, ?_⟩
    · rw [h1]
      rfl
    · intro s
      rw [h3 s]
      simp only [addPatch_keys_rnd, List.mem_cons, exists_eq_or_imp]
      tauto
    · intro s k
      rw [h4 s k, List.foldl_cons]
      simp only [addPatch_index_rnd rnd _ _ _ (hps p (List.mem_cons_self _ _))]

/-- The pair (`sum`, `totalarea`) after the loop over the patches. -/
theorem accumulate_spec_rnd (rnd : ℚ → ℚ) (env : Collaborators) (ps : List patch_t)
    (hps : ∀ p ∈ ps, p.lightByStyle.keys.Nodup) :
    (accumulate rnd env ps).2 = ps.foldl (fun t p => rnd (t + rnd (env.area p.w))) 0 ∧
    (accumulate rnd env ps).1.keys.Pairwise (fun a b => a < b) ∧
    (∀ s, s ∈ (accumulate rnd env ps).1.keys ↔ ∃ p ∈ ps, s ∈ p.lightByStyle.keys) ∧
    ∀ s k, (accumulate rnd env ps).1.index s (qvec.splat 3 0) k =
      ps.foldl (fun v p =>
        match p.lightByStyle.find s with
        | some c => rnd (v + rnd (c k * rnd (env.area p.w)))
        | none => v) 0 := by
  obtain ⟨h1, h2, h3, h4⟩ := accumulate_from_rnd rnd env ps hps ([], 0) (by simp [stdmap.keys])
  have e : accumulate rnd env ps = ps.foldl (fun acc patch =>
      (addPatch rnd acc.1 patch.lightByStyle (rnd (env.area patch.w)),
        rnd (acc.2 + rnd (env.area patch.w)))) ([], 0) := rfl
  rw [e]
  refine ⟨h1, h2, ?_, ?_⟩
  · intro s
    rw [h3 s]
    simp [stdmap.keys]
  · intro s k
    rw [h4 s k]
    rfl

theorem accumulate_sorted_rnd (rnd : ℚ → ℚ) (env : Collaborators) (ps : List patch_t) :
    (accumulate rnd env ps).1.keys.Pairwise (fun a b => a < b) := by
  have key : ∀ acc : stdmap qvec3f × ℚ, acc.1.keys.Pairwise (fun a b => a < b) →
      (ps.foldl (fun acc patch =>
        (addPatch rnd acc.1 patch.lightByStyle (rnd (env.area patch.w)),
          rnd (acc.2 + rnd (env.area patch.w)))) acc).1.keys.Pairwise (fun a b => a < b) := by
    induction ps with
    | nil => exact fun acc h => h
    | cons p l ih =>
      intro acc h
      rw [List.foldl_cons]
      exact ih _ (addPatch_sorted_rnd rnd _ _ _ h)
  exact key ([], 0) (by simp [stdmap.keys])

theorem normalized_find_rnd (rnd : ℚ → ℚ) (sum : stdmap qvec3f) (t : ℚ) (s : Int) :
    (normalized rnd sum t).find s =
      (sum.find s).map fun v => fun k => rnd (rnd (v k * rnd (1 / t)) / 255) := by
  induction sum with
  | nil => rfl
  | cons a l ih =>
    obtain ⟨ka, va⟩ := a
    by_cases hs : s = ka
    · subst hs
      simp [normalized, stdmap.find, List.lookup]
    · have e : normalized rnd ((ka, va) :: l) t =
          (ka, fun k => rnd (rnd (va k * rnd (1 / t)) / 255)) :: normalized rnd l t := rfl
      rw [e, stdmap.find_cons_of_ne _ _ s hs, stdmap.find_cons_of_ne _ _ s hs, ih]

theorem normalized_keys_rnd (rnd : ℚ → ℚ) (sum : stdmap qvec3f) (t : ℚ) :
    (normalized rnd sum t).keys = sum.keys := by
  simp [normalized, stdmap.keys, List.map_map, Function.comp_def]

theorem normalizedSum_sorted_rnd (rnd : ℚ → ℚ) (env : Collaborators) (face : mface_ptr) :
    (normalizedSum rnd env face).keys.Pairwise (fun a b => a < b) := by
  unfold normalizedSum
  rw [normalized_keys_rnd]
  exact accumulate_sorted_rnd rnd env _

/-- The loop that fills `emitcolors`, from any intermediate state. -/
theorem emitcolors_from_rnd (rnd : ℚ → ℚ) (sum : stdmap qvec3f) (b : qvec3f) (hs : sum.keys.Nodup)
    (em : stdmap qvec3f) (s : Int) :
    (sum.foldl (fun emitcolors styleColor =>
        emitcolors.set styleColor.1 (fun k => rnd (styleColor.2 k * b k))) em).find s =
      match sum.find s with
      | some v => some fun k => rnd (v k * b k)
      | none => em.find s := by
  induction sum generalizing em with
  | nil => rfl
  | cons a l ih =>
    obtain ⟨ka, va⟩ := a
    simp only [stdmap.keys, List.map_cons, List.nodup_cons] at hs
    rw [List.foldl_cons, ih hs.2]
    by_cases h : s = ka
    · subst h
      rw [(stdmap.find_eq_none_iff l s).mpr hs.1, stdmap.find_cons_self]
      simp only [stdmap.find_set, if_true]
    · rw [stdmap.find_cons_of_ne _ _ s h]
      cases stdmap.find l s with
      | none => simp only [stdmap.find_set, if_neg h]
      | some v => rfl

theorem emitcolors_find_rnd (rnd : ℚ → ℚ) (sum : stdmap qvec3f) (b : qvec3f) (hs : sum.keys.Nodup)
    (s : Int) :
    (emitcolors rnd sum b).find s = (sum.find s).map fun v => fun k => rnd (v k * b k) := by
  unfold emitcolors
  rw [emitcolors_from_rnd rnd sum b hs [] s]
  cases sum.find s <;> rfl

theorem emitcolors_sorted_rnd (rnd : ℚ → ℚ) (sum : stdmap qvec3f) (b : qvec3f) :
    (emitcolors rnd sum b).keys.Pairwise (fun x y => x < y) := by
  unfold emitcolors
  have key : ∀ em : stdmap qvec3f, em.keys.Pairwise (fun x y => x < y) →
      (sum.foldl (fun emitcolors styleColor =>
        emitcolors.set styleColor.1 (fun k => rnd (styleColor.2 k * b k))) em).keys.Pairwise
        (fun x y => x < y) := by
    induction sum with
    | nil => exact fun em h => h
    | cons a l ih =>
      intro em h
      rw [List.foldl_cons]
      exact ih _ (stdmap.keys_set_sorted em _ _ h)
  exact key [] (by simp [stdmap.keys])

theorem emitted_find_eq_rnd (rnd : ℚ → ℚ) (env : Collaborators) (face : mface_ptr) (s : Int) :
    (emitted rnd env face).find s =
      ((normalizedSum rnd env face).find s).map
        fun v => fun k => rnd (v k * blendedcolor rnd env face k) := by
  unfold emitted
  exact emitcolors_find_rnd rnd _ _ (stdmap.nodup_of_sorted _ (normalizedSum_sorted_rnd rnd env face)) s

end MakeBounceLightsThread

/-- A face that fails one of the four tests leaves the registry as it is. -/
theorem MakeBounceLightsThread_rejected_rnd (rnd : ℚ → ℚ) (env : Collaborators) (face : mface_ptr)
    (st : Registry) (h : ¬ MakeBounceLightsThread.Passes rnd env face) :
    MakeBounceLightsThread rnd env face st = some st := by
  unfold MakeBounceLightsThread
  by_cases h1 : Face_ShouldBounce env face = false
  · rw [if_pos h1]
  rw [if_neg h1]
  dsimp only
  by_cases h2 : env.area (env.from_face face) = 0
  · rw [if_pos h2]
  rw [if_neg h2]
  by_cases h3 : (MakeBounceLightsThread.accumulate rnd env
      (EricwTools.MakeBounceLightsThread.patches env face)).2 < 1
  · rw [if_pos h3]
  rw [if_neg h3]
  by_cases h4 : emptyExact (MakeBounceLightsThread.total rnd
      (MakeBounceLightsThread.normalized rnd
        (MakeBounceLightsThread.accumulate rnd env
          (EricwTools.MakeBounceLightsThread.patches env face)).1
        (MakeBounceLightsThread.accumulate rnd env
          (EricwTools.MakeBounceLightsThread.patches env face)).2)) = true
  · rw [if_pos h4]
  exfalso
  apply h
  exact ⟨by simpa using h1, h2, not_lt.mp h3, by simpa using h4⟩

/-- Past the four tests `MakeBounceLightsThread` ends in its call of
`AddBounceLight`. -/
theorem MakeBounceLightsThread_accepted_rnd (rnd : ℚ → ℚ) (env : Collaborators) (face : mface_ptr)
    (st : Registry) (h : MakeBounceLightsThread.Passes rnd env face) :
    MakeBounceLightsThread rnd env face st =
      AddBounceLight env
        (fun i => env.center (env.from_face face) i + (env.plane (env.from_face face)).normal i)
        (MakeBounceLightsThread.emitted rnd env face)
        (env.plane (env.from_face face)).normal (env.area (env.from_face face)) face st := by
  obtain ⟨h1, h2, h3, h4⟩ := h
  have h3' : ¬ (MakeBounceLightsThread.accumulate rnd env
      (EricwTools.MakeBounceLightsThread.patches env face)).2 < 1 := not_lt.mpr h3
  have h4' : emptyExact (MakeBounceLightsThread.total rnd
      (MakeBounceLightsThread.normalized rnd
        (MakeBounceLightsThread.accumulate rnd env
          (EricwTools.MakeBounceLightsThread.patches env face)).1
        (MakeBounceLightsThread.accumulate rnd env
          (EricwTools.MakeBounceLightsThread.patches env face)).2)) = false := h4
  unfold MakeBounceLightsThread
  rw [if_neg (by rw [h1]; simp)]
  dsimp only
  rw [if_neg h2, if_neg h3', h4']
  rfl

/-- The record that a call appends carries the map `emitcolors` of the face,
and a call appends only for a face that passes the tests. -/
theorem registered_colorByStyle_rnd (rnd : ℚ → ℚ) (env : Collaborators) (face : mface_ptr)
    (st st1 : Registry) (l : bouncelight_t)
    (h : MakeBounceLightsThread rnd env face st = some st1)
    (hl : st1.radlights = st.radlights ++ [l]) :
    MakeBounceLightsThread.Passes rnd env face ∧
    l.colorByStyle = MakeBounceLightsThread.emitted rnd env face := by
  have hp : MakeBounceLightsThread.Passes rnd env face := by
    by_contra hnp
    rw [MakeBounceLightsThread_rejected_rnd rnd env face st hnp] at h
    simp only [Option.some.injEq] at h
    subst h
    have := congrArg List.length hl
    simp at this
  refine ⟨hp, ?_⟩
  rw [MakeBounceLightsThread_accepted_rnd rnd env face st hp] at h
  have hrec := (AddBounceLight_spec env _ _ _ _ face st st1 h).1
  rw [hl] at hrec
  have hleq := List.append_cancel_left hrec
  simp only [List.cons.injEq, and_true] at hleq
  rw [hleq]
  rfl

end Rounded

/-! ## Signs in float arithmetic -/

namespace Rounded

namespace MakeBounceLightsThread

end MakeBounceLightsThread

end Rounded

namespace Rounded

/-- A face that passes the four tests, on a call that returns, is registered
with the record of its emitted colours. -/
theorem registered_of_passes (rnd : ℚ → ℚ) (env : Collaborators) (face : mface_ptr)
    (st : Registry) (hp : MakeBounceLightsThread.Passes rnd env face)
    (hs : (MakeBounceLightsThread rnd env face st).isSome = true) :
    ∃ st1, MakeBounceLightsThread rnd env face st = some st1 ∧
      st1.radlights = st.radlights ++
        [AddBounceLight.record env
          (fun i => env.center (env.from_face face) i + (env.plane (env.from_face face)).normal i)
          (MakeBounceLightsThread.emitted rnd env face)
          (env.plane (env.from_face face)).normal (env.area (env.from_face face)) face] := by
  cases h : MakeBounceLightsThread rnd env face st with
  | none =>
    rw [h] at hs
    exact absurd hs (by simp)
  | some st1 =>
    rw [MakeBounceLightsThread_accepted_rnd rnd env face st hp] at h
    exact ⟨st1, rfl, (AddBounceLight_spec env _ _ _ _ face st st1 h).1⟩

namespace MakeBounceLightsThread

/-- The emitted colours of a face, style by style, with every rounding in
its place. -/
theorem emitted_find_rnd (rnd : ℚ → ℚ) (env : Collaborators) (face : mface_ptr)
    (hmap : ∀ pos normal, (env.GetDirectLighting pos normal).keys.Nodup) (s : Int) :
    ((emitted rnd env face).find s = none ↔
      ¬ ∃ p ∈ EricwTools.MakeBounceLightsThread.patches env face, s ∈ p.lightByStyle.keys) ∧
    ∀ v, (emitted rnd env face).find s = some v → ∀ k,
      v k = rnd (rnd (rnd (
          (EricwTools.MakeBounceLightsThread.patches env face).foldl
            (fun sum patch =>
              match patch.lightByStyle.find s with
              | some color => rnd (sum + rnd (color k * rnd (env.area patch.w)))
              | none => sum) 0 *
          rnd (1 / (EricwTools.MakeBounceLightsThread.patches env face).foldl
            (fun totalarea patch => rnd (totalarea + rnd (env.area patch.w))) 0)) / 255) *
        blendedcolor rnd env face k) := by
  obtain ⟨h1, h2, h3, h4⟩ := accumulate_spec_rnd rnd env
    (EricwTools.MakeBounceLightsThread.patches env face)
    (EricwTools.MakeBounceLightsThread.patches_nodup env face hmap)
  have hfind : (emitted rnd env face).find s =
      (((accumulate rnd env (EricwTools.MakeBounceLightsThread.patches env face)).1.find s).map
        fun v => fun k => rnd (rnd (v k * rnd (1 / totalarea rnd env face)) / 255)).map
        fun v => fun k => rnd (v k * blendedcolor rnd env face k) := by
    rw [emitted_find_eq_rnd]
    unfold normalizedSum
    rw [normalized_find_rnd]
  constructor
  · rw [hfind, ← h3 s]
    simp only [Option.map_eq_none']
    exact stdmap.find_eq_none_iff _ _
  · intro v hv k
    rw [hfind] at hv
    cases hf : (accumulate rnd env
        (EricwTools.MakeBounceLightsThread.patches env face)).1.find s with
    | none => simp [hf] at hv
    | some v0 =>
      rw [hf] at hv
      simp only [Option.map_some', Option.some.injEq] at hv
      subst hv
      have hi := h4 s k
      rw [stdmap.index_of_find hf] at hi
      simp only [hi, totalarea, h1]

theorem blendedcolor_unfold (rnd : ℚ → ℚ) (env : Collaborators) (face : mface_ptr) (k : Fin 3) :
    blendedcolor rnd env face k =
      rnd (rnd (rnd (127 / 255) * rnd (1 - env.bouncecolorscale)) +
        rnd (rnd ((match env.img_find (env.Face_TextureName face) with
            | some averageColor => (averageColor k : ℚ)
            | none => 127) / 255) * env.bouncecolorscale)) := by
  simp only [blendedcolor, mix, qvec.splat, Face_LookupTextureColor]
  cases env.img_find (env.Face_TextureName face) <;> simp

theorem blendedcolor_zero_rnd (rnd : ℚ → ℚ) (h0 : rnd 0 = 0) (h1 : rnd 1 = 1)
    (hid : ∀ x, rnd (rnd x) = rnd x) (env : Collaborators) (face : mface_ptr)
    (h : env.bouncecolorscale = 0) (k : Fin 3) :
    blendedcolor rnd env face k = rnd (127 / 255) := by
  rw [blendedcolor_unfold, h]
  simp only [sub_zero, h1, mul_one, mul_zero, h0, add_zero, hid]

theorem blendedcolor_one_rnd (rnd : ℚ → ℚ) (h0 : rnd 0 = 0)
    (hid : ∀ x, rnd (rnd x) = rnd x) (env : Collaborators) (face : mface_ptr)
    (h : env.bouncecolorscale = 1) (k : Fin 3) :
    blendedcolor rnd env face k =
      rnd ((match env.img_find (env.Face_TextureName face) with
        | some averageColor => (averageColor k : ℚ)
        | none => 127) / 255) := by
  rw [blendedcolor_unfold, h]
  simp only [sub_self, h0, mul_zero, mul_one, zero_add, hid]

end MakeBounceLightsThread

end Rounded

/-- C9, as it holds of the compiled function, where `rnd` rounds every
`float` result (`float32` for the type `float`, the identity for exact
arithmetic): for every face that reaches registration, the keys of the
emitted colour map are exactly the styles that occur in the sampled light of
at least one patch, and for such a style `s` and channel `k` the value is
`sum * (1.0f / totalarea) / 255.0f * blended[k]` with each operation rounded,
where `sum` adds `light_p[s][k] * area_p` patch by patch (a patch without
style `s` leaves it as it is), `totalarea` adds the areas of all patches, and
`blended = mix((127/255, 127/255, 127/255), textureColor / 255,
bouncecolorscale)` with the texture colour that `img::find` returns for the
face, or 127 per channel when it returns none. -/
theorem emitted_colour_float_formula (rnd : ℚ → ℚ) (env : Collaborators) (face : mface_ptr)
    (st st1 : Registry) (l : bouncelight_t)
    (hmap : ∀ pos normal, (env.GetDirectLighting pos normal).keys.Nodup)
    (h : Rounded.MakeBounceLightsThread rnd env face st = some st1)
    (hl : st1.radlights = st.radlights ++ [l]) :
    (∀ s, s ∈ l.colorByStyle.keys ↔
      ∃ p ∈ MakeBounceLightsThread.patches env face, s ∈ p.lightByStyle.keys) ∧
    l.colorByStyle.keys.Nodup ∧
    ∀ s v, l.colorByStyle.find s = some v → ∀ k,
      v k = rnd (rnd (rnd (
          (MakeBounceLightsThread.patches env face).foldl
            (fun sum patch =>
              match patch.lightByStyle.find s with
              | some color => rnd (sum + rnd (color k * rnd (env.area patch.w)))
              | none => sum) 0 *
          rnd (1 / (MakeBounceLightsThread.patches env face).foldl
            (fun totalarea patch => rnd (totalarea + rnd (env.area patch.w))) 0)) / 255) *
        Rounded.mix rnd (qvec.splat 3 (rnd (127 / 255)))
          (fun j => rnd ((match env.img_find (env.Face_TextureName face) with
            | some averageColor => (averageColor j : ℚ)
            | none => 127) / 255)) env.bouncecolorscale k) := by
  obtain ⟨-, hcol⟩ := Rounded.registered_colorByStyle_rnd rnd env face st st1 l h hl
  rw [hcol]
  refine ⟨?_, ?_, ?_⟩
  · intro s
    rw [← not_iff_not, ← stdmap.find_eq_none_iff]
    exact (Rounded.MakeBounceLightsThread.emitted_find_rnd rnd env face hmap s).1
  · exact stdmap.nodup_of_sorted _ (Rounded.MakeBounceLightsThread.emitcolors_sorted_rnd rnd _ _)
  · intro s v hv k
    have hb : Rounded.mix rnd (qvec.splat 3 (rnd (127 / 255)))
        (fun j => rnd ((match env.img_find (env.Face_TextureName face) with
          | some averageColor => (averageColor j : ℚ)
          | none => 127) / 255)) env.bouncecolorscale k =
        Rounded.MakeBounceLightsThread.blendedcolor rnd env face k := by
      rw [Rounded.MakeBounceLightsThread.blendedcolor_unfold]
      rfl
    rw [hb]
    exact (Rounded.MakeBounceLightsThread.emitted_find_rnd rnd env face hmap s).2 v hv k

/-- Witness of C9: face 0 of the tinted level in `float` arithmetic, from the
empty registry; the record holds (196351/262144, 16711423/67108864,
196351/524288) under style 0. -/
theorem emitted_colour_float_formula_witness :
    ∃ (st1 : Registry) (l : bouncelight_t),
      Rounded.MakeBounceLightsThread float32 tintedLevel 0 Registry.empty = some st1 ∧
      st1.radlights = Registry.empty.radlights ++ [l] ∧
      (l.colorByStyle.map fun styleColor =>
        (styleColor.1, styleColor.2 0, styleColor.2 1, styleColor.2 2)) =
        [(0, 196351 / 262144, 16711423 / 67108864, 196351 / 524288)] ∧
      (∀ s, s ∈ l.colorByStyle.keys ↔
        ∃ p ∈ MakeBounceLightsThread.patches tintedLevel 0, s ∈ p.lightByStyle.keys) ∧
      l.colorByStyle.keys.Nodup ∧
      ∀ s v, l.colorByStyle.find s = some v → ∀ k,
        v k = float32 (float32 (float32 (
            (MakeBounceLightsThread.patches tintedLevel 0).foldl
              (fun sum patch =>
                match patch.lightByStyle.find s with
                | some color => float32 (sum + float32 (color k * float32 (tintedLevel.area patch.w)))
                | none => sum) 0 *
            float32 (1 / (MakeBounceLightsThread.patches tintedLevel 0).foldl
              (fun totalarea patch =>
                float32 (totalarea + float32 (tintedLevel.area patch.w))) 0)) / 255) *
          Rounded.mix float32 (qvec.splat 3 (float32 (127 / 255)))
            (fun j => float32 ((match tintedLevel.img_find (tintedLevel.Face_TextureName 0) with
              | some averageColor => (averageColor j : ℚ)
              | none => 127) / 255)) tintedLevel.bouncecolorscale k) := by
  obtain ⟨st1, h, hl⟩ := Rounded.registered_of_passes float32 tintedLevel 0 Registry.empty
    (by decide!) (by decide!)
  exact ⟨st1, _, h, hl, by decide!,
    emitted_colour_float_formula float32 tintedLevel 0 Registry.empty st1 _
      (fun _ _ => List.nodup_singleton _) h hl⟩

/-- C9 as stated fails of the compiled function. On face 0 of the sample
level the stated formula gives 127/255 on every channel of style 0, and the
record holds 16711423/33554432, the `float` nearest to 127/255. On face 0 of
the dim level the stated formula gives 1016/2601, whose nearest `float` is
13106998/33554432, and the record holds 13106999/33554432: the roundings of
the single steps add up. -/
theorem emitted_colour_float32_counterexample :
    ((MakeBounceLightsThread.patches sampleLevel 0).map fun p =>
        p.lightByStyle.index 0 (qvec.splat 3 0) 0 * sampleLevel.area p.w).sum /
      ((MakeBounceLightsThread.patches sampleLevel 0).map fun p => sampleLevel.area p.w).sum /
      255 * mix (qvec.splat 3 (127 / 255))
        (fun j => (Face_LookupTextureColor sampleLevel 0 j : ℚ) / 255)
        sampleLevel.bouncecolorscale 0 = 127 / 255 ∧
    (Rounded.MakeBounceLightsThread float32 sampleLevel 0 Registry.empty).map
      (fun st1 => st1.radlights.map fun l => (l.colorByStyle.find 0).map fun v => v 0) =
      some [some (16711423 / 33554432)] ∧
    ((MakeBounceLightsThread.patches dimLevel 0).map fun p =>
        p.lightByStyle.index 0 (qvec.splat 3 0) 0 * dimLevel.area p.w).sum /
      ((MakeBounceLightsThread.patches dimLevel 0).map fun p => dimLevel.area p.w).sum /
      255 * mix (qvec.splat 3 (127 / 255))
        (fun j => (Face_LookupTextureColor dimLevel 0 j : ℚ) / 255)
        dimLevel.bouncecolorscale 0 = 1016 / 2601 ∧
    float32 (1016 / 2601) = 13106998 / 33554432 ∧
    (Rounded.MakeBounceLightsThread float32 dimLevel 0 Registry.empty).map
      (fun st1 => st1.radlights.map fun l => (l.colorByStyle.find 0).map fun v => v 0) =
      some [some (13106999 / 33554432)] := by
  refine ⟨by decide!, by decide!, by decide!, by decide!, by decide!⟩

/-- C11, as it holds of the compiled function, for a rounding `rnd` that
keeps 0 and 1 and every value it returns (`float32` is one): for every face
that reaches registration the emitted colour map has the styles of the
normalised map, and for every style: with `bouncecolorscale = 0` the emitted
colour is the rounded product of the normalised colour and the `float`
`127.f / 255.f` in each channel, whatever the texture colour is; with
`bouncecolorscale = 1` it is the rounded product of the normalised colour and
the `float` `textureColor / 255.0f`, where the texture colour is the one that
`img::find` returns for the face, or 127 per channel when it returns none; so
the normalised colour (1, 1, 1) is emitted as `127.f / 255.f` per channel and
as `textureColor / 255.0f` respectively. -/
theorem texture_blend_float_endpoints (rnd : ℚ → ℚ) (hzero : rnd 0 = 0) (hone : rnd 1 = 1)
    (hidem : ∀ x, rnd (rnd x) = rnd x) (env : Collaborators) (face : mface_ptr)
    (st st1 : Registry) (l : bouncelight_t)
    (h : Rounded.MakeBounceLightsThread rnd env face st = some st1)
    (hl : st1.radlights = st.radlights ++ [l]) (s : Int) :
    ((∃ v, l.colorByStyle.find s = some v) ↔
      ∃ n, (Rounded.MakeBounceLightsThread.normalizedSum rnd env face).find s = some n) ∧
    ∀ v n, l.colorByStyle.find s = some v →
      (Rounded.MakeBounceLightsThread.normalizedSum rnd env face).find s = some n →
      (env.bouncecolorscale = 0 →
        (∀ k, v k = rnd (n k * rnd (127 / 255))) ∧
        ((∀ k, n k = 1) → ∀ k, v k = rnd (127 / 255))) ∧
      (env.bouncecolorscale = 1 →
        (∀ k, v k = rnd (n k * rnd ((match env.img_find (env.Face_TextureName face) with
          | some averageColor => (averageColor k : ℚ)
          | none => 127) / 255))) ∧
        ((∀ k, n k = 1) → ∀ k, v k = rnd ((match env.img_find (env.Face_TextureName face) with
          | some averageColor => (averageColor k : ℚ)
          | none => 127) / 255))) := by
  obtain ⟨-, hcol⟩ := Rounded.registered_colorByStyle_rnd rnd env face st st1 l h hl
  rw [hcol]
  have hfind := Rounded.MakeBounceLightsThread.emitted_find_eq_rnd rnd env face s
  constructor
  · rw [hfind]
    cases (Rounded.MakeBounceLightsThread.normalizedSum rnd env face).find s <;> simp
  · intro v n hv hn
    rw [hfind, hn] at hv
    simp only [Option.map_some', Option.some.injEq] at hv
    subst hv
    constructor
    · intro h0
      have hb := Rounded.MakeBounceLightsThread.blendedcolor_zero_rnd rnd hzero hone hidem
        env face h0
      refine ⟨fun k => by simp only [hb k],
        fun h1 k => by simp only [hb k, h1 k, one_mul, hidem]⟩
    · intro h1
      have hb := Rounded.MakeBounceLightsThread.blendedcolor_one_rnd rnd hzero hidem env face h1
      refine ⟨fun k => by simp only [hb k],
        fun hn1 k => by simp only [hb k, hn1 k, one_mul, hidem]⟩

/-- Witness of C11, at both ends of the blend and with a texture of average
colour (255, 0, 64) on the face. On face 0 of the textured level the blend
scalar is 1, the normalised colour is (1, 1, 1) and the record holds
(1, 0, 8421505/33554432), which is `float32 (64 / 255)` on the last channel.
On face 0 of the muted level the blend scalar is 0 and the record holds
16711423/33554432, which is `float32 (127 / 255)`, on every channel. -/
theorem texture_blend_float_endpoints_witness :
    (∃ (st1 : Registry) (l : bouncelight_t),
      Rounded.MakeBounceLightsThread float32 texturedLevel 0 Registry.empty = some st1 ∧
      st1.radlights = Registry.empty.radlights ++ [l] ∧
      (l.colorByStyle.map fun styleColor =>
        (styleColor.1, styleColor.2 0, styleColor.2 1, styleColor.2 2)) =
        [(0, 1, 0, 8421505 / 33554432)] ∧
      ((Rounded.MakeBounceLightsThread.normalizedSum float32 texturedLevel 0).map
        fun styleColor => (styleColor.1, styleColor.2 0, styleColor.2 1, styleColor.2 2)) =
        [(0, 1, 1, 1)] ∧
      float32 (64 / 255) = 8421505 / 33554432 ∧
      ((∃ v, l.colorByStyle.find 0 = some v) ↔
        ∃ n, (Rounded.MakeBounceLightsThread.normalizedSum float32 texturedLevel 0).find 0 =
          some n) ∧
      ∀ v n, l.colorByStyle.find 0 = some v →
        (Rounded.MakeBounceLightsThread.normalizedSum float32 texturedLevel 0).find 0 = some n →
        (texturedLevel.bouncecolorscale = 0 →
          (∀ k, v k = float32 (n k * float32 (127 / 255))) ∧
          ((∀ k, n k = 1) → ∀ k, v k = float32 (127 / 255))) ∧
        (texturedLevel.bouncecolorscale = 1 →
          (∀ k, v k = float32 (n k *
            float32 ((match texturedLevel.img_find (texturedLevel.Face_TextureName 0) with
              | some averageColor => (averageColor k : ℚ)
              | none => 127) / 255))) ∧
          ((∀ k, n k = 1) → ∀ k, v k =
            float32 ((match texturedLevel.img_find (texturedLevel.Face_TextureName 0) with
              | some averageColor => (averageColor k : ℚ)
              | none => 127) / 255)))) ∧
    (∃ (st1 : Registry) (l : bouncelight_t),
      Rounded.MakeBounceLightsThread float32 mutedLevel 0 Registry.empty = some st1 ∧
      st1.radlights = Registry.empty.radlights ++ [l] ∧
      (l.colorByStyle.map fun styleColor =>
        (styleColor.1, styleColor.2 0, styleColor.2 1, styleColor.2 2)) =
        [(0, 16711423 / 33554432, 16711423 / 33554432, 16711423 / 33554432)] ∧
      ((Rounded.MakeBounceLightsThread.normalizedSum float32 mutedLevel 0).map
        fun styleColor => (styleColor.1, styleColor.2 0, styleColor.2 1, styleColor.2 2)) =
        [(0, 1, 1, 1)] ∧
      float32 (127 / 255) = 16711423 / 33554432 ∧
      ((∃ v, l.colorByStyle.find 0 = some v) ↔
        ∃ n, (Rounded.MakeBounceLightsThread.normalizedSum float32 mutedLevel 0).find 0 =
          some n) ∧
      ∀ v n, l.colorByStyle.find 0 = some v →
        (Rounded.MakeBounceLightsThread.normalizedSum float32 mutedLevel 0).find 0 = some n →
        (mutedLevel.bouncecolorscale = 0 →
          (∀ k, v k = float32 (n k * float32 (127 / 255))) ∧
          ((∀ k, n k = 1) → ∀ k, v k = float32 (127 / 255))) ∧
        (mutedLevel.bouncecolorscale = 1 →
          (∀ k, v k = float32 (n k *
            float32 ((match mutedLevel.img_find (mutedLevel.Face_TextureName 0) with
              | some averageColor => (averageColor k : ℚ)
              | none => 127) / 255))) ∧
          ((∀ k, n k = 1) → ∀ k, v k =
            float32 ((match mutedLevel.img_find (mutedLevel.Face_TextureName 0) with
              | some averageColor => (averageColor k : ℚ)
              | none => 127) / 255)))) := by
  constructor
  · obtain ⟨st1, h, hl⟩ := Rounded.registered_of_passes float32 texturedLevel 0 Registry.empty
      (by decide!) (by decide!)
    obtain ⟨h1, h2⟩ := texture_blend_float_endpoints float32 float32_zero float32_one
      float32_idem texturedLevel 0 Registry.empty st1 _ h hl 0
    exact ⟨st1, _, h, hl, by decide!, by decide!, by decide!, h1, h2⟩
  · obtain ⟨st1, h, hl⟩ := Rounded.registered_of_passes float32 mutedLevel 0 Registry.empty
      (by decide!) (by decide!)
    obtain ⟨h1, h2⟩ := texture_blend_float_endpoints float32 float32_zero float32_one
      float32_idem mutedLevel 0 Registry.empty st1 _ h hl 0
    exact ⟨st1, _, h, hl, by decide!, by decide!, by decide!, h1, h2⟩

/-- C11 as stated fails of the compiled function, in both of its end cases.
On face 0 of the bright level the blend scalar is 0 and the normalised colour
is (1, 1, 1), and the emitted colour is 16711423/33554432 per channel, not
127/255. On face 0 of the textured level the blend scalar is 1, the texture
colour is (255, 0, 64) and the normalised colour is (1, 1, 1), and the
emitted colour is (1, 0, 8421505/33554432), not (1, 0, 64/255). -/
theorem texture_blend_float32_counterexample :
    brightLevel.bouncecolorscale = 0 ∧
    ((Rounded.MakeBounceLightsThread.normalizedSum float32 brightLevel 0).map
      fun styleColor => (styleColor.1, styleColor.2 0, styleColor.2 1, styleColor.2 2)) =
      [(0, 1, 1, 1)] ∧
    (Rounded.MakeBounceLightsThread float32 brightLevel 0 Registry.empty).map
      (fun st1 => st1.radlights.map fun l => l.colorByStyle.map fun styleColor =>
        (styleColor.1, styleColor.2 0, styleColor.2 1, styleColor.2 2)) =
      some [[(0, 16711423 / 33554432, 16711423 / 33554432, 16711423 / 33554432)]] ∧
    (16711423 / 33554432 : ℚ) ≠ 127 / 255 ∧
    texturedLevel.bouncecolorscale = 1 ∧
    Face_LookupTextureColor texturedLevel 0 = ![255, 0, 64] ∧
    ((Rounded.MakeBounceLightsThread.normalizedSum float32 texturedLevel 0).map
      fun styleColor => (styleColor.1, styleColor.2 0, styleColor.2 1, styleColor.2 2)) =
      [(0, 1, 1, 1)] ∧
    (Rounded.MakeBounceLightsThread float32 texturedLevel 0 Registry.empty).map
      (fun st1 => st1.radlights.map fun l => l.colorByStyle.map fun styleColor =>
        (styleColor.1, styleColor.2 0, styleColor.2 1, styleColor.2 2)) =
      some [[(0, 1, 0, 8421505 / 33554432)]] ∧
    (8421505 / 33554432 : ℚ) ≠ 64 / 255 := by
  refine ⟨rfl, by decide!, by decide!, by norm_num, rfl, by decide!, by decide!, by decide!,
    by norm_num⟩

end EricwTools
